import Mathlib

/-! # extrahop-backup: the backup client (`cmd/extrahop-backup/main.go`)

A shallow embedding of the backup client.  The program is a straight line of
calls to the outside world (the OS, the `git` binary, the HTTP client), so it
is embedded as explicit state passing over a log of those calls:

* every call that leaves the program is an `Event`; a run is the list of the
  events it emitted, in order;
* the outside world is an oracle `World` that answers a call from the log so
  far (the call itself last), so that every sequence of outcomes is some world;
* a Go `panic` ends the run with `Outcome.panic`; there is no `recover` and no
  `defer` in `main`, `gitClone` or `pushAll`.

Go strings that hold text (flags, paths, arguments) are Lean strings; byte
slices (`[]byte`) are lists of naturals.
-/

namespace ExtrahopBackup

/-! ## Data model -/

/-- Go byte slice. -/
abbrev Bytes := List Nat

/-- Bytes of an ASCII string constant. -/
def toBytes (s : String) : Bytes := s.toList.map Char.toNat

/-- Text of a byte slice, as `string(txt)` prints it. -/
def ofBytes (b : Bytes) : String := String.mk (b.map Char.ofNat)

/-- The package-level flag variables of `main.go`, after `flag.Parse()`. -/
structure Flags where
  fEHHost : String
  fEHAPIKey : String
  fGitDir : String
  fGitRepo : String
  fPrintV : Bool
  fPrintVer : Bool
  fVerbose : Bool
  deriving DecidableEq, Repr

/-- Constants of the platform and of packages outside `main.go`:
`os.TempDir()`, `runtime.GOOS`, the text of
`version.GetVersionInfo("extrahop-backup")`, and the nesting limit of the
`encoding/json` scanner (`none` for a toolchain without one). -/
structure Env where
  osTempDir : String
  goos : String
  versionInfo : String
  maxNestingDepth : Option Nat
  deriving DecidableEq, Repr

/-- Model of `http.Header`: key to values. -/
abbrev Header := List (String × List String)

/-- Model of `Header.Set`: replaces the values of `key` (the three keys the program
sets are already in canonical form). -/
def Header.set (h : Header) (key value : String) : Header :=
  (key, [value]) :: h.filter (fun p => p.1 != key)

/-- Model of `Header.Get`: first value of `key`, `""` when absent. -/
def Header.get (h : Header) (key : String) : String :=
  match h.find? (fun p => p.1 == key) with
  | some (_, v :: _) => v
  | _ => ""

/-- The fields of `http.Request` the program touches. -/
structure Request where
  method : String
  url : String
  header : Header
  deriving DecidableEq, Repr

/-- An `exec.Cmd`: argument vector (program name first), working directory,
and whether `setVerbose` attached the process's stdout and stderr. -/
structure Cmd where
  args : List String
  dir : String
  inherit : Bool
  deriving DecidableEq, Repr

/-- Where a line of text is printed. -/
inductive Stream
  | stdout
  | stderr
  | slogInfo
  | slogWarning
  | slogError
  deriving DecidableEq, Repr

/-- One call whose result the program does not compute itself: a call that
leaves the program, or a call of `url.Parse` or `http.NewRequest`, whose
verdict on a text is not modelled. -/
inductive Event
  | print (s : Stream) (text : String)
  | tempDir (dir pat : String)
  | mkdirAll (path : String) (perm : Nat)
  | cmdRun (cmd : Cmd)
  | cmdCombinedOutput (cmd : Cmd)
  | urlParse (raw : String)
  | newRequest (method url : String)
  | clientDo (req : Request)
  | readAll
  | bodyClose
  | writeFile (path : String) (data : Bytes) (perm : Nat)
  | removeAll (path : String)
  deriving DecidableEq, Repr

/-- Answer of the outside world to a call: the Go `error` (`none` is `nil`),
the returned string (directory name, URL text) and the returned bytes
(response body, command output). -/
structure Resp where
  err : Option String
  str : String
  bytes : Bytes
  deriving DecidableEq, Repr

/-- The outside world: answers the last call of the log. -/
abbrev World := List Event → Resp

/-- How a Go function call ends. -/
inductive Outcome (α : Type)
  | ok (a : α)
  | panic (msg : String)
  deriving DecidableEq, Repr

/-- A computation: from the log so far to the events it emits and its
outcome. -/
def M (α : Type) : Type := List Event → List Event × Outcome α

/-- Return without emitting. -/
def M.pure {α : Type} (a : α) : M α := fun _ => ([], Outcome.ok a)

/-- Sequencing; a panic skips the rest. -/
def M.bind {α β : Type} (m : M α) (f : α → M β) : M β := fun h =>
  match m h with
  | (es, Outcome.ok a) =>
    match f a (h ++ es) with
    | (es', r) => (es ++ es', r)
  | (es, Outcome.panic msg) => (es, Outcome.panic msg)

/-- The computations form a monad, so that the program reads as its source. -/
instance : Monad M where
  pure := M.pure
  bind := M.bind

/-- Perform a call and receive the world's answer. -/
def call (w : World) (e : Event) : M Resp := fun h => ([e], Outcome.ok (w (h ++ [e])))

/-- Perform a call whose result the program does not look at. -/
def emit (e : Event) : M Unit := fun _ => ([e], Outcome.ok ())

/-- Go `panic(msg)`. -/
def goPanic {α : Type} (msg : String) : M α := fun _ => ([], Outcome.panic msg)

/-- Model of `fmt.Sprintln` on strings: operands separated by a space, newline added. -/
def sprintln (args : List String) : String := " ".intercalate args ++ "\n"

/-- The `%v` rendering of a `[]string`. -/
def fmtArgs (args : List String) : String := "[" ++ " ".intercalate args ++ "]"

/-! ## Pure helpers from the standard library -/

/-- Model of `strings.Contains(s, substr)` on bytes: `substr` starts at some position
of `s`. -/
def stringsContains : Bytes → Bytes → Bool
  | [], sub => sub.isEmpty
  | c :: cs, sub => sub.isPrefixOf (c :: cs) || stringsContains cs sub

/-- Body of `strings.Split` for a non-empty separator, a character at a time:
`skip` counts the separator characters still to pass over, `cur` holds the
current piece, last character first. -/
def splitAux (sep : List Char) : Nat → List Char → List Char → List (List Char)
  | _, [], cur => [cur.reverse]
  | skip + 1, _ :: cs, cur => splitAux sep skip cs cur
  | 0, c :: cs, cur =>
    if sep.isPrefixOf (c :: cs) then cur.reverse :: splitAux sep (sep.length - 1) cs []
    else splitAux sep 0 cs (c :: cur)

/-- Model of `strings.Split(s, sep)`: the pieces of `s` between the occurrences of
`sep`; an empty `sep` splits after every character. -/
def stringsSplit (s sep : String) : List String :=
  if sep = "" then s.toList.map String.singleton
  else (splitAux sep.toList 0 s.toList []).map String.mk

/-- The buffer of `path.Clean`: its bytes, last first, and the index `dotdot`
below which `..` may not backtrack. -/
structure CleanState where
  out : List Char
  dotdot : Nat
  deriving DecidableEq, Repr

/-- The backtracking of `path.Clean` on a `..` element: `out.w--`, then
`out.w--` while `out.w > dotdot` and the byte at `out.w` is not a slash. -/
def cleanBacktrack (dotdot : Nat) : List Char → List Char
  | [] => []
  | c :: r => if dotdot < r.length ∧ c ≠ '/' then cleanBacktrack dotdot r else r

/-- The `..` case of `path.Clean`. -/
def cleanDotDot (rooted : Bool) (st : CleanState) : CleanState :=
  if st.dotdot < st.out.length then
    { st with out := cleanBacktrack st.dotdot st.out }
  else if !rooted then
    let out1 := if 0 < st.out.length then '/' :: st.out else st.out
    let out2 := '.' :: '.' :: out1
    { out := out2, dotdot := out2.length }
  else st

/-- Start of a real path element in `path.Clean`: a slash if needed, then the
first byte of the element. -/
def cleanElem (rooted : Bool) (st : CleanState) (c : Char) : CleanState :=
  if (rooted && st.out.length != 1) || (!rooted && st.out.length != 0) then
    { st with out := c :: '/' :: st.out }
  else { st with out := c :: st.out }

/-- Where the loop of `path.Clean` stands: at the start of a path element
(`scan`), inside the inner loop that copies a real path element up to the
next slash (`copy`), or on the second dot of a `..` element, which `r += 2`
passes over (`dot2`). -/
inductive CleanMode
  | scan
  | copy
  | dot2
  deriving DecidableEq, Repr

/-- The loop of `path.Clean` over the unread part of the path. -/
def cleanLoop (rooted : Bool) : List Char → CleanMode → CleanState → CleanState
  | [], _, st => st
  | _ :: rest, CleanMode.dot2, st => cleanLoop rooted rest CleanMode.scan st
  | c :: rest, CleanMode.copy, st =>
    if c = '/' then cleanLoop rooted rest CleanMode.scan st
    else cleanLoop rooted rest CleanMode.copy { st with out := c :: st.out }
  | c :: rest, CleanMode.scan, st =>
    if c = '/' then cleanLoop rooted rest CleanMode.scan st
    else if c = '.' ∧ (rest = [] ∨ rest.head? = some '/') then
      cleanLoop rooted rest CleanMode.scan st
    else if c = '.' ∧ rest.head? = some '.' ∧
        (rest.tail = [] ∨ rest.tail.head? = some '/') then
      cleanLoop rooted rest CleanMode.dot2 (cleanDotDot rooted st)
    else cleanLoop rooted rest CleanMode.copy (cleanElem rooted st c)

/-- Model of `path.Clean` on the characters of a path. -/
def cleanChars (path : List Char) : List Char :=
  match path with
  | [] => ['.']
  | c :: _ =>
    let rooted : Bool := c = '/'
    let st0 : CleanState := if rooted then ⟨['/'], 1⟩ else ⟨[], 0⟩
    let st := cleanLoop rooted (if rooted then path.tail else path) CleanMode.scan st0
    if st.out.length = 0 then ['.'] else st.out.reverse

/-- Model of `path.Clean`. -/
def pathClean (path : String) : String := String.mk (cleanChars path.toList)

/-- The buffer loop of `path.Join`: the non-empty elements (and every element
after the first non-empty one) separated by slashes. -/
def joinBuf : List Char → List String → List Char
  | buf, [] => buf
  | buf, e :: es =>
    if 0 < buf.length ∨ e ≠ "" then
      joinBuf ((if 0 < buf.length then buf ++ ['/'] else buf) ++ e.toList) es
    else joinBuf buf es

/-- Model of `path.Join`. -/
def pathJoin (elems : List String) : String :=
  if (elems.map String.length).sum = 0 then ""
  else pathClean (String.mk (joinBuf [] elems))

/-! ## `encoding/json`: the scanner and `Indent`

Bytes are written by their ASCII codes: 9 tab, 10 newline, 13 carriage return,
32 space, 34 double quote, 43 plus, 44 comma, 45 minus, 46 dot, 47 slash,
48 to 57 the digits, 58 colon, 65 to 70 `A` to `F`, 69 `E`, 91 and 93 the
square brackets, 92 backslash, 97 to 102 `a` to `f`, 98 `b`, 101 `e`,
102 `f`, 108 `l`, 110 `n`, 114 `r`, 115 `s`, 116 `t`, 117 `u`, 123 and 125
the curly brackets. -/

/-- The scan codes returned by the scanner's step functions. -/
inductive ScanCode
  | scanContinue
  | scanBeginLiteral
  | scanBeginObject
  | scanObjectKey
  | scanObjectValue
  | scanEndObject
  | scanBeginArray
  | scanArrayValue
  | scanEndArray
  | scanSkipSpace
  | scanEnd
  | scanError
  deriving DecidableEq, Repr

/-- The entries of the scanner's parse stack. -/
inductive ParseState
  | parseObjectKey
  | parseObjectValue
  | parseArrayValue
  deriving DecidableEq, Repr

/-- The step functions of the scanner, one name per Go function. -/
inductive Step
  | stateBeginValueOrEmpty
  | stateBeginValue
  | stateBeginStringOrEmpty
  | stateBeginString
  | stateEndValue
  | stateEndTop
  | stateInString
  | stateInStringEsc
  | stateInStringEscU
  | stateInStringEscU1
  | stateInStringEscU12
  | stateInStringEscU123
  | stateNeg
  | state1
  | state0
  | stateDot
  | stateDot0
  | stateE
  | stateESign
  | stateE0
  | stateT
  | stateTr
  | stateTru
  | stateF
  | stateFa
  | stateFal
  | stateFals
  | stateN
  | stateNu
  | stateNul
  | stateError
  deriving DecidableEq, Repr

/-- The `scanner`: the next step function, the parse stack (innermost entry
first, where Go appends it last), whether an error was recorded, and whether
the top-level value has ended. The byte counter, used in error messages only,
is left out. -/
structure Scanner where
  step : Step
  parseState : List ParseState
  err : Bool
  endTop : Bool
  deriving DecidableEq, Repr

/-- Model of `scanner.reset`. -/
def Scanner.reset : Scanner := ⟨Step.stateBeginValue, [], false, false⟩

/-- Model of `scanner.error`: records the error and returns `scanError`. -/
def Scanner.error (s : Scanner) : Scanner × ScanCode :=
  ({ s with step := Step.stateError, err := true }, ScanCode.scanError)

/-- Model of the test `len(s.parseState) <= maxNestingDepth`. -/
def withinNesting (lim : Option Nat) (n : Nat) : Bool :=
  match lim with
  | none => true
  | some m => decide (n ≤ m)

/-- Model of `scanner.pushParseState`. -/
def pushParseState (lim : Option Nat) (s : Scanner) (newParseState : ParseState)
    (successState : ScanCode) : Scanner × ScanCode :=
  let s1 : Scanner := { s with parseState := newParseState :: s.parseState }
  if withinNesting lim s1.parseState.length then (s1, successState) else s1.error

/-- Model of `scanner.popParseState`. -/
def popParseState (s : Scanner) : Scanner :=
  let ps := s.parseState.tail
  if ps.length = 0 then { s with parseState := ps, step := Step.stateEndTop, endTop := true }
  else { s with parseState := ps, step := Step.stateEndValue }

/-- Model of `isSpace`. -/
def isSpace (c : Nat) : Bool := c ≤ 32 && (c = 32 || c = 9 || c = 13 || c = 10)

/-- Decimal digit. -/
def isDigit (c : Nat) : Bool := 48 ≤ c && c ≤ 57

/-- Digit from 1 to 9. -/
def isDigit19 (c : Nat) : Bool := 49 ≤ c && c ≤ 57

/-- Hexadecimal digit. -/
def isHex (c : Nat) : Bool :=
  (48 ≤ c && c ≤ 57) || (97 ≤ c && c ≤ 102) || (65 ≤ c && c ≤ 70)

/-- Model of `stateEndTop`: a byte that is not a space records an error, reported on
the next call; the code returned is `scanEnd` either way. -/
def stateEndTop (s : Scanner) (c : Nat) : Scanner × ScanCode :=
  if !isSpace c then ((s.error).1, ScanCode.scanEnd) else (s, ScanCode.scanEnd)

/-- Model of `stateEndValue`. -/
def stateEndValue (s : Scanner) (c : Nat) : Scanner × ScanCode :=
  match s.parseState with
  | [] => stateEndTop { s with step := Step.stateEndTop, endTop := true } c
  | ps :: rest =>
    if isSpace c then ({ s with step := Step.stateEndValue }, ScanCode.scanSkipSpace)
    else
      match ps with
      | ParseState.parseObjectKey =>
        if c = 58 then
          ({ s with parseState := ParseState.parseObjectValue :: rest,
                    step := Step.stateBeginValue }, ScanCode.scanObjectKey)
        else s.error
      | ParseState.parseObjectValue =>
        if c = 44 then
          ({ s with parseState := ParseState.parseObjectKey :: rest,
                    step := Step.stateBeginString }, ScanCode.scanObjectValue)
        else if c = 125 then (popParseState s, ScanCode.scanEndObject)
        else s.error
      | ParseState.parseArrayValue =>
        if c = 44 then ({ s with step := Step.stateBeginValue }, ScanCode.scanArrayValue)
        else if c = 93 then (popParseState s, ScanCode.scanEndArray)
        else s.error

/-- Model of `stateBeginValue`. -/
def stateBeginValue (lim : Option Nat) (s : Scanner) (c : Nat) : Scanner × ScanCode :=
  if isSpace c then (s, ScanCode.scanSkipSpace)
  else if c = 123 then
    pushParseState lim { s with step := Step.stateBeginStringOrEmpty }
      ParseState.parseObjectKey ScanCode.scanBeginObject
  else if c = 91 then
    pushParseState lim { s with step := Step.stateBeginValueOrEmpty }
      ParseState.parseArrayValue ScanCode.scanBeginArray
  else if c = 34 then ({ s with step := Step.stateInString }, ScanCode.scanBeginLiteral)
  else if c = 45 then ({ s with step := Step.stateNeg }, ScanCode.scanBeginLiteral)
  else if c = 48 then ({ s with step := Step.state0 }, ScanCode.scanBeginLiteral)
  else if c = 116 then ({ s with step := Step.stateT }, ScanCode.scanBeginLiteral)
  else if c = 102 then ({ s with step := Step.stateF }, ScanCode.scanBeginLiteral)
  else if c = 110 then ({ s with step := Step.stateN }, ScanCode.scanBeginLiteral)
  else if isDigit19 c then ({ s with step := Step.state1 }, ScanCode.scanBeginLiteral)
  else s.error

/-- Model of `stateBeginValueOrEmpty`. -/
def stateBeginValueOrEmpty (lim : Option Nat) (s : Scanner) (c : Nat) :
    Scanner × ScanCode :=
  if isSpace c then (s, ScanCode.scanSkipSpace)
  else if c = 93 then stateEndValue s c
  else stateBeginValue lim s c

/-- Model of `stateBeginString`. -/
def stateBeginString (s : Scanner) (c : Nat) : Scanner × ScanCode :=
  if isSpace c then (s, ScanCode.scanSkipSpace)
  else if c = 34 then ({ s with step := Step.stateInString }, ScanCode.scanBeginLiteral)
  else s.error

/-- Model of `stateBeginStringOrEmpty`: on a closing curly bracket the innermost stack
entry becomes `parseObjectValue` (the stack is never empty in this state: the
state is entered only by the push of an opening curly bracket). -/
def stateBeginStringOrEmpty (s : Scanner) (c : Nat) : Scanner × ScanCode :=
  if isSpace c then (s, ScanCode.scanSkipSpace)
  else if c = 125 then
    stateEndValue { s with parseState := ParseState.parseObjectValue :: s.parseState.tail } c
  else stateBeginString s c

/-- Model of `stateInString`. -/
def stateInString (s : Scanner) (c : Nat) : Scanner × ScanCode :=
  if c = 34 then ({ s with step := Step.stateEndValue }, ScanCode.scanContinue)
  else if c = 92 then ({ s with step := Step.stateInStringEsc }, ScanCode.scanContinue)
  else if c < 32 then s.error
  else (s, ScanCode.scanContinue)

/-- Model of `stateInStringEsc`. -/
def stateInStringEsc (s : Scanner) (c : Nat) : Scanner × ScanCode :=
  if c = 98 ∨ c = 102 ∨ c = 110 ∨ c = 114 ∨ c = 116 ∨ c = 92 ∨ c = 47 ∨ c = 34 then
    ({ s with step := Step.stateInString }, ScanCode.scanContinue)
  else if c = 117 then ({ s with step := Step.stateInStringEscU }, ScanCode.scanContinue)
  else s.error

/-- The four states `stateInStringEscU`, `...U1`, `...U12`, `...U123`: a
hexadecimal digit leads to `next`. -/
def stateHex (next : Step) (s : Scanner) (c : Nat) : Scanner × ScanCode :=
  if isHex c then ({ s with step := next }, ScanCode.scanContinue) else s.error

/-- The states inside the literals `true`, `false` and `null`: the expected
byte leads to `next`. -/
def stateLit (expected : Nat) (next : Step) (s : Scanner) (c : Nat) : Scanner × ScanCode :=
  if c = expected then ({ s with step := next }, ScanCode.scanContinue) else s.error

/-- Model of `stateNeg`. -/
def stateNeg (s : Scanner) (c : Nat) : Scanner × ScanCode :=
  if c = 48 then ({ s with step := Step.state0 }, ScanCode.scanContinue)
  else if isDigit19 c then ({ s with step := Step.state1 }, ScanCode.scanContinue)
  else s.error

/-- Model of `state0`. -/
def state0 (s : Scanner) (c : Nat) : Scanner × ScanCode :=
  if c = 46 then ({ s with step := Step.stateDot }, ScanCode.scanContinue)
  else if c = 101 ∨ c = 69 then ({ s with step := Step.stateE }, ScanCode.scanContinue)
  else stateEndValue s c

/-- Model of `state1`. -/
def state1 (s : Scanner) (c : Nat) : Scanner × ScanCode :=
  if isDigit c then ({ s with step := Step.state1 }, ScanCode.scanContinue)
  else state0 s c

/-- Model of `stateDot`. -/
def stateDot (s : Scanner) (c : Nat) : Scanner × ScanCode :=
  if isDigit c then ({ s with step := Step.stateDot0 }, ScanCode.scanContinue)
  else s.error

/-- Model of `stateDot0`. -/
def stateDot0 (s : Scanner) (c : Nat) : Scanner × ScanCode :=
  if isDigit c then (s, ScanCode.scanContinue)
  else if c = 101 ∨ c = 69 then ({ s with step := Step.stateE }, ScanCode.scanContinue)
  else stateEndValue s c

/-- Model of `stateESign`. -/
def stateESign (s : Scanner) (c : Nat) : Scanner × ScanCode :=
  if isDigit c then ({ s with step := Step.stateE0 }, ScanCode.scanContinue)
  else s.error

/-- Model of `stateE`. -/
def stateE (s : Scanner) (c : Nat) : Scanner × ScanCode :=
  if c = 43 ∨ c = 45 then ({ s with step := Step.stateESign }, ScanCode.scanContinue)
  else stateESign s c

/-- Model of `stateE0`. -/
def stateE0 (s : Scanner) (c : Nat) : Scanner × ScanCode :=
  if isDigit c then (s, ScanCode.scanContinue)
  else stateEndValue s c

/-- The call `s.step(s, c)`: runs the step function the scanner holds. -/
def Scanner.doStep (lim : Option Nat) (s : Scanner) (c : Nat) : Scanner × ScanCode :=
  match s.step with
  | Step.stateBeginValueOrEmpty => stateBeginValueOrEmpty lim s c
  | Step.stateBeginValue => stateBeginValue lim s c
  | Step.stateBeginStringOrEmpty => stateBeginStringOrEmpty s c
  | Step.stateBeginString => stateBeginString s c
  | Step.stateEndValue => stateEndValue s c
  | Step.stateEndTop => stateEndTop s c
  | Step.stateInString => stateInString s c
  | Step.stateInStringEsc => stateInStringEsc s c
  | Step.stateInStringEscU => stateHex Step.stateInStringEscU1 s c
  | Step.stateInStringEscU1 => stateHex Step.stateInStringEscU12 s c
  | Step.stateInStringEscU12 => stateHex Step.stateInStringEscU123 s c
  | Step.stateInStringEscU123 => stateHex Step.stateInString s c
  | Step.stateNeg => stateNeg s c
  | Step.state1 => state1 s c
  | Step.state0 => state0 s c
  | Step.stateDot => stateDot s c
  | Step.stateDot0 => stateDot0 s c
  | Step.stateE => stateE s c
  | Step.stateESign => stateESign s c
  | Step.stateE0 => stateE0 s c
  | Step.stateT => stateLit 114 Step.stateTr s c
  | Step.stateTr => stateLit 117 Step.stateTru s c
  | Step.stateTru => stateLit 101 Step.stateEndValue s c
  | Step.stateF => stateLit 97 Step.stateFa s c
  | Step.stateFa => stateLit 108 Step.stateFal s c
  | Step.stateFal => stateLit 115 Step.stateFals s c
  | Step.stateFals => stateLit 101 Step.stateEndValue s c
  | Step.stateN => stateLit 117 Step.stateNu s c
  | Step.stateNu => stateLit 108 Step.stateNul s c
  | Step.stateNul => stateLit 108 Step.stateEndValue s c
  | Step.stateError => (s, ScanCode.scanError)

/-- Model of `scanner.eof`. -/
def Scanner.eof (lim : Option Nat) (s : Scanner) : Scanner × ScanCode :=
  if s.err then (s, ScanCode.scanError)
  else if s.endTop then (s, ScanCode.scanEnd)
  else
    let s1 := (s.doStep lim 32).1
    if s1.endTop then (s1, ScanCode.scanEnd)
    else ({ s1 with err := true }, ScanCode.scanError)

/-- The local variables of `Indent` across its loop. -/
structure IndentState where
  scan : Scanner
  needIndent : Bool
  depth : Int
  deriving DecidableEq, Repr

/-- The bytes `newline` writes: a newline, the line lead `pfx`, and `depth`
copies of `indent` (none when `depth` is not positive). -/
def newline (pfx indent : Bytes) (depth : Int) : Bytes :=
  10 :: (pfx ++ (List.replicate depth.toNat indent).flatten)

/-- One iteration of the loop of `Indent` on the byte `c`: the new locals, the
bytes written to `dst`, and whether the loop is left by `break`. -/
def indentByte (lim : Option Nat) (pfx indent : Bytes) (st : IndentState) (c : Nat) :
    IndentState × Bytes × Bool :=
  let r := st.scan.doStep lim c
  let v := r.2
  if v = ScanCode.scanSkipSpace then ({ st with scan := r.1 }, [], false)
  else if v = ScanCode.scanError then ({ st with scan := r.1 }, [], true)
  else
    let ind : Bool :=
      st.needIndent && v != ScanCode.scanEndObject && v != ScanCode.scanEndArray
    let needIndent1 : Bool := if ind then false else st.needIndent
    let depth1 : Int := if ind then st.depth + 1 else st.depth
    let out1 : Bytes := if ind then newline pfx indent depth1 else []
    if v = ScanCode.scanContinue then
      (⟨r.1, needIndent1, depth1⟩, out1 ++ [c], false)
    else if c = 123 ∨ c = 91 then
      (⟨r.1, true, depth1⟩, out1 ++ [c], false)
    else if c = 44 then
      (⟨r.1, needIndent1, depth1⟩, out1 ++ c :: newline pfx indent depth1, false)
    else if c = 58 then
      (⟨r.1, needIndent1, depth1⟩, out1 ++ [c, 32], false)
    else if c = 125 ∨ c = 93 then
      if needIndent1 then (⟨r.1, false, depth1⟩, out1 ++ [c], false)
      else (⟨r.1, needIndent1, depth1 - 1⟩,
            out1 ++ (newline pfx indent (depth1 - 1) ++ [c]), false)
    else (⟨r.1, needIndent1, depth1⟩, out1 ++ [c], false)

/-- The loop of `Indent` over `src`: the final locals and all bytes written. -/
def indentLoop (lim : Option Nat) (pfx indent : Bytes) :
    IndentState → Bytes → IndentState × Bytes
  | st, [] => (st, [])
  | st, c :: cs =>
    let r := indentByte lim pfx indent st c
    if r.2.2 then (r.1, r.2.1)
    else
      let r2 := indentLoop lim pfx indent r.1 cs
      (r2.1, r.2.1 ++ r2.2)

/-- Model of `json.Indent(dst, src, pfx, indent)`: the contents of `dst` afterwards and
the error. On an error `dst` is truncated to its original length. -/
def jsonIndent (lim : Option Nat) (dst src pfx indent : Bytes) : Bytes × Option String :=
  let r := indentLoop lim pfx indent ⟨Scanner.reset, false, 0⟩ src
  if (r.1.scan.eof lim).2 = ScanCode.scanError then (dst, some "json: syntax error")
  else (dst ++ r.2, none)

/-! ## The program -/

/-- The `http.Client` of `main`: only its redirect policy is set. -/
structure Client where
  checkRedirect : Request → List Request → Outcome (Request × Option String)

/-- The function `main` assigns to `client.CheckRedirect`:
`req.Header = via[0].Header; return nil`. Returns the request as changed and
the error; indexing an empty `via` panics. -/
def checkRedirect (req : Request) (via : List Request) : Outcome (Request × Option String) :=
  match via with
  | [] => Outcome.panic "index out of range"
  | v0 :: _ => Outcome.ok ({ req with header := v0.header }, none)

/-- The request `invokeEHAPI` builds when `http.NewRequest("GET", url, nil)`
returns a request: that request after the three `Header.Set` calls. -/
def newEHRequest (fl : Flags) (url : String) : Request :=
  let req : Request := ⟨"GET", url, []⟩
  let h1 := req.header.set "Accept" "application/json"
  let h2 := h1.set "User-Agent" "extrahop-backupclient(github.com/mhenderson-so/extrahop-backup)"
  let h3 := h2.set "Authorization" ("ExtraHop apikey=" ++ fl.fEHAPIKey)
  { req with header := h3 }

/-- What the Go runtime reports when a nil pointer is dereferenced. -/
def nilDereference : String :=
  "runtime error: invalid memory address or nil pointer dereference"

/-- Model of `invokeEHAPI`: the pretty-printed body and the error. The code
discards the error of `http.NewRequest` (`req, _ := ...`); when it fails `req`
is nil and `req.Header.Set` panics. -/
def invokeEHAPI (env : Env) (fl : Flags) (w : World) (endpoint : String) (_client : Client) :
    M (Bytes × Option String) := do
  let u ← call w (Event.urlParse (fl.fEHHost ++ "/api/v1/" ++ endpoint))
  match u.err with
  | some e => pure ([], some e)
  | none =>
    let nr ← call w (Event.newRequest "GET" u.str)
    match nr.err with
    | some _ => goPanic nilDereference
    | none =>
      let req := newEHRequest fl u.str
      if fl.fVerbose then emit (Event.print Stream.slogInfo (sprintln ["Requesting", req.url]))
      let res ← call w (Event.clientDo req)
      match res.err with
      | some e => pure ([], some e)
      | none =>
        let body ← call w Event.readAll
        match body.err with
        | some e =>
          emit Event.bodyClose
          pure ([], some e)
        | none =>
          let pretty := jsonIndent env.maxNestingDepth [] body.bytes [] (toBytes "\t")
          emit Event.bodyClose
          pure pretty

/-- Model of `backupEHEndpoint`: the error it returns. -/
def backupEHEndpoint (env : Env) (fl : Flags) (w : World) (endpoint : String)
    (client : Client) : M (Option String) := do
  let r ← invokeEHAPI env fl w endpoint client
  match r.2 with
  | some e => pure (some e)
  | none =>
    match stringsSplit endpoint "?" with
    | [] => goPanic "index out of range"
    | endpointName :: _ =>
      let backupFile := pathJoin [fl.fGitDir, endpointName ++ ".json"]
      if fl.fVerbose then
        emit (Event.print Stream.slogInfo (sprintln ["Writing", endpoint, "to", backupFile]))
      let wr ← call w (Event.writeFile backupFile r.1 0o755)
      pure wr.err

/-- The command of `gitClone`, after `setVerbose`. It clones `*fGitRepo`; the
parameter `repoDir` is not used by the code. -/
def cloneCmd (fl : Flags) (tmpDir : String) : Cmd :=
  ⟨["git", "clone", fl.fGitRepo, tmpDir, "--depth=1", "--no-single-branch"], "", fl.fVerbose⟩

/-- The loop of `gitClone`, from the value `tries` of its counter. -/
def gitCloneLoop (fl : Flags) (w : World) (tmpDir : String) (tries : Nat) : M Unit := do
  let r ← call w (Event.cmdRun (cloneCmd fl tmpDir))
  match r.err with
  | none => pure ()
  | some e =>
    if h : tries ≥ 2 then
      emit (Event.print Stream.slogError
        ("could not clone the repo: " ++ fmtArgs (cloneCmd fl tmpDir).args ++ ", " ++ e))
      goPanic "could not clone the repo"
    else gitCloneLoop fl w tmpDir (tries + 1)
termination_by 2 - tries
decreasing_by omega

/-- Model of `gitClone`. -/
def gitClone (fl : Flags) (w : World) (tmpDir _repoDir : String) : M Unit :=
  gitCloneLoop fl w tmpDir 0

/-- The `git add .` command of `pushAll`. -/
def addCmd (fl : Flags) (repoDir : String) : Cmd := ⟨["git", "add", "."], repoDir, fl.fVerbose⟩

/-- The `git commit -m autoCommit` command of `pushAll`, run by
`CombinedOutput`. -/
def commitCmd (repoDir : String) : Cmd := ⟨["git", "commit", "-m", "autoCommit"], repoDir, false⟩

/-- The `git push --set-upstream origin <branch>` command of `pushAll`. -/
def pushCmd (fl : Flags) (repoDir branch : String) : Cmd :=
  ⟨["git", "push", "--set-upstream", "origin", branch], repoDir, fl.fVerbose⟩

/-- Model of `pushAll`. -/
def pushAll (fl : Flags) (w : World) (repoDir branch : String) : M Unit := do
  let a ← call w (Event.cmdRun (addCmd fl repoDir))
  match a.err with
  | some _ =>
    emit (Event.print Stream.slogError
      ("could not add into git: " ++ fmtArgs (addCmd fl repoDir).args))
    goPanic "could not add into git"
  | none =>
    let c ← call w (Event.cmdCombinedOutput (commitCmd repoDir))
    if stringsContains c.bytes (toBytes "nothing to commit") then
      if fl.fVerbose then
        emit (Event.print Stream.slogInfo (sprintln ["No changes detected, don't push"]))
    else
      match c.err with
      | some e =>
        emit (Event.print Stream.slogError (sprintln ["could not read git commit output:", e]))
        goPanic "could not read git commit output"
      | none =>
        if fl.fVerbose then emit (Event.print Stream.stdout (ofBytes c.bytes))
        let p ← call w (Event.cmdRun (pushCmd fl repoDir branch))
        match p.err with
        | some _ =>
          emit (Event.print Stream.slogError
            ("could not push: " ++ fmtArgs (pushCmd fl repoDir branch).args))
          goPanic "could not push"
        | none => pure ()

/-- The forced deletion `main` falls back to on Windows. -/
def rmdirCmd (gitDir : String) : Cmd := ⟨["cmd.exe", "/C", "rmdir", "/S", "/Q", gitDir], "", false⟩

/-- The part of `main` that sets up the scratch directory: the new value of
`*fGitDir`. The errors of `ioutil.TempDir` (which then returns the empty
name) and of `os.MkdirAll` are discarded by the code. -/
def scratchDir (env : Env) (fl : Flags) (w : World) : M String :=
  if fl.fGitDir = env.osTempDir then do
    let r ← call w (Event.tempDir "" "ExtraHopBackup")
    let d := match r.err with
      | none => r.str
      | some _ => ""
    if fl.fVerbose then
      emit (Event.print Stream.slogInfo
        (sprintln ["Setting temporary git checkout directory to", d]))
    pure d
  else do
    let d := fl.fGitDir ++ "ExtraHopBackup"
    let _ ← call w (Event.mkdirAll d 0o755)
    pure d

/-- Model of `main`, after `flag.Parse()`. -/
def main (env : Env) (fl : Flags) (w : World) : M Unit :=
  if fl.fPrintVer || fl.fPrintV then
    emit (Event.print Stream.stdout (sprintln [env.versionInfo]))
  else if fl.fEHHost = "" then
    emit (Event.print Stream.stderr (sprintln ["ExtraHop -host has not been specified"]))
  else if fl.fEHAPIKey = "" then
    emit (Event.print Stream.stderr (sprintln ["ExtraHop -apikey has not been specified"]))
  else if fl.fGitRepo = "" then
    emit (Event.print Stream.stderr (sprintln ["Git -gitrepo has not been specified"]))
  else do
    let gitDir ← scratchDir env fl w
    let fl : Flags := { fl with fGitDir := gitDir }
    gitClone fl w fl.fGitDir fl.fGitRepo
    let client : Client := ⟨checkRedirect⟩
    let _ ← backupEHEndpoint env fl w "runningconfig" client
    let _ ← backupEHEndpoint env fl w "triggers" client
    let _ ← backupEHEndpoint env fl w "auditlog?limit=999999&offset=0" client
    pushAll fl w fl.fGitDir "master"
    if fl.fVerbose then
      emit (Event.print Stream.slogInfo (sprintln ["Cleaning up. Deleting ", fl.fGitDir]))
    let dirErr ← call w (Event.removeAll fl.fGitDir)
    match dirErr.err with
    | some e =>
      if env.goos = "windows" then
        if fl.fVerbose then
          emit (Event.print Stream.slogWarning (sprintln ["Cleaning up. Can't delete:", e]))
          emit (Event.print Stream.slogWarning
            (sprintln ["Cleaning up. Invoking OS deletion:", fmtArgs (rmdirCmd fl.fGitDir).args]))
        let _ ← call w (Event.cmdRun (rmdirCmd fl.fGitDir))
        pure ()
    | none => pure ()

/-! ## Predicates and sample inputs used by the theorems -/

/-- Events `es` followed by a run. -/
def after {α : Type} (es : List Event) (r : List Event × Outcome α) : List Event × Outcome α :=
  (es ++ r.1, r.2)

/-- Whether an event starts the subprocess `git <sub>`. -/
def Event.isGit (sub : String) : Event → Bool
  | Event.cmdRun c => c.args.take 2 == ["git", sub]
  | Event.cmdCombinedOutput c => c.args.take 2 == ["git", sub]
  | _ => false

/-- Whether an event only prints. -/
def Event.isPrint : Event → Bool
  | Event.print _ _ => true
  | _ => false

/-- The line `pushAll` prints before the push when verbose. -/
def commitEcho (fl : Flags) (c : Resp) : List Event :=
  if fl.fVerbose then [Event.print Stream.stdout (ofBytes c.bytes)] else []

/-- The part of an endpoint before its first `?`. -/
def beforeQuery (endpoint : String) : String :=
  String.mk (endpoint.toList.takeWhile (fun c => c != '?'))

/-- The line `invokeEHAPI` logs before the request when verbose. -/
def requestEcho (fl : Flags) (req : Request) : List Event :=
  if fl.fVerbose then [Event.print Stream.slogInfo (sprintln ["Requesting", req.url])] else []

/-- The file `backupEHEndpoint` writes for an endpoint. -/
def backupFile (fl : Flags) (endpoint : String) : String :=
  pathJoin [fl.fGitDir, beforeQuery endpoint ++ ".json"]

/-- The line `backupEHEndpoint` logs before the write when verbose. -/
def writeEcho (fl : Flags) (endpoint : String) : List Event :=
  if fl.fVerbose then
    [Event.print Stream.slogInfo (sprintln ["Writing", endpoint, "to", backupFile fl endpoint])]
  else []

/-- The flags let `main` past its early returns: no version flag, and host,
API key and repository given. -/
def Flags.valid (fl : Flags) : Prop :=
  (fl.fPrintVer || fl.fPrintV) = false ∧ fl.fEHHost ≠ "" ∧ fl.fEHAPIKey ≠ "" ∧ fl.fGitRepo ≠ ""

/-- Validity of the flags is decidable. -/
instance (fl : Flags) : Decidable fl.valid := by
  unfold Flags.valid
  exact inferInstance

/-- Whether an event is the call `os.RemoveAll`. -/
def Event.isRemoveAll : Event → Bool
  | Event.removeAll _ => true
  | _ => false

/-- The line `main` logs before deleting the scratch directory when verbose. -/
def cleanupEcho (fl : Flags) : List Event :=
  if fl.fVerbose then
    [Event.print Stream.slogInfo (sprintln ["Cleaning up. Deleting ", fl.fGitDir])]
  else []

/-- The flags as `main` changes them: `*fGitDir` is the scratch directory. -/
def Flags.withDir (fl : Flags) (d : String) : Flags := { fl with fGitDir := d }

/-- Whether an event belongs to an endpoint fetch after the URL is parsed:
printing, building and sending the request, the body read and close, the file
write. -/
def Event.isFetchRest : Event → Bool
  | Event.print _ _ => true
  | Event.newRequest _ _ => true
  | Event.clientDo _ => true
  | Event.readAll => true
  | Event.bodyClose => true
  | Event.writeFile _ _ _ => true
  | _ => false

/-- Whether an event is a call of `url.Parse`. -/
def Event.isUrlParse : Event → Bool
  | Event.urlParse _ => true
  | _ => false

/-- Whether an event belongs to an endpoint fetch. -/
def Event.isFetch (e : Event) : Bool :=
  e.isUrlParse || (e.isFetchRest && !e.isPrint)

/-- A Linux platform whose temporary directory is `/tmp`. -/
def sampleEnv : Env := ⟨"/tmp", "linux", "extrahop-backup version 0.1", some 10000⟩

/-- Flags with host, API key and repository set and the default `-gitdir`. -/
def sampleFlags : Flags :=
  ⟨"https://eh.example.com", "KEY", "/tmp", "git@example.com:backup.git", false, false, false⟩

/-- Flags with no host. -/
def sampleFlagsNoHost : Flags := ⟨"", "KEY", "/tmp", "git@example.com:backup.git", false, false, false⟩

/-- A world in which every call succeeds: the scratch directory is
`/tmp/ExtraHopBackup123`, a URL parses to itself, every response body is the
JSON text `[1,2]`, and the subprocesses print nothing. -/
def worldUp : World := fun h =>
  match h.getLast? with
  | some (Event.tempDir _ _) => ⟨none, "/tmp/ExtraHopBackup123", []⟩
  | some (Event.urlParse raw) => ⟨none, raw, []⟩
  | some Event.readAll => ⟨none, "", toBytes "[1,2]"⟩
  | _ => ⟨none, "", []⟩

/-- A world in which every subprocess fails and every other call succeeds. -/
def worldGitDown : World := fun h =>
  match h.getLast? with
  | some (Event.cmdRun _) => ⟨some "exit status 128", "", []⟩
  | some (Event.cmdCombinedOutput _) => ⟨some "exit status 128", "", []⟩
  | _ => ⟨none, "/tmp/ExtraHopBackup123", []⟩

/-- A world in which `git commit` exits with status 1 and reports a clean
tree, and every other call succeeds. -/
def worldClean : World := fun h =>
  match h.getLast? with
  | some (Event.cmdCombinedOutput _) =>
    ⟨some "exit status 1", "", toBytes "On branch master\nnothing to commit, working tree clean\n"⟩
  | _ => ⟨none, "/tmp/ExtraHopBackup123", []⟩

/-- Flags with the host `%2F/a^`, a text that `url.Parse` accepts. -/
def sampleFlagsBadHost : Flags :=
  ⟨"%2F/a^", "KEY", "/tmp", "git@example.com:backup.git", false, false, false⟩

/-- The world of the host `%2F/a^`: `url.Parse` accepts the host followed by
`/api/v1/<endpoint>` and renders it as `//a%5E/api/v1/<endpoint>`, which
`http.NewRequest` rejects (`a%5E` is not a host name); every other call
succeeds. -/
def worldBadHost : World := fun h =>
  match h.getLast? with
  | some (Event.tempDir _ _) => ⟨none, "/tmp/ExtraHopBackup123", []⟩
  | some (Event.urlParse raw) => ⟨none, "//a%5E" ++ String.mk (raw.toList.drop 6), []⟩
  | some (Event.newRequest _ url) =>
    ⟨some ("parse \"" ++ url ++ "\": invalid URL escape \"%5E\""), "", []⟩
  | some Event.readAll => ⟨none, "", toBytes "[1,2]"⟩
  | _ => ⟨none, "", []⟩

/-- A world in which every request fails and every other call succeeds. -/
def worldFetchDown : World := fun h =>
  match h.getLast? with
  | some (Event.tempDir _ _) => ⟨none, "/tmp/ExtraHopBackup123", []⟩
  | some (Event.urlParse raw) => ⟨none, raw, []⟩
  | some (Event.clientDo _) => ⟨some "dial tcp: connection refused", "", []⟩
  | _ => ⟨none, "", []⟩

/-- Whether an event can change files: creating or removing a directory,
writing a file, running a subprocess. -/
def Event.touchesFiles : Event → Bool
  | Event.tempDir _ _ => true
  | Event.mkdirAll _ _ => true
  | Event.cmdRun _ => true
  | Event.cmdCombinedOutput _ => true
  | Event.writeFile _ _ _ => true
  | Event.removeAll _ => true
  | _ => false

/-- Whether an event is a file write. -/
def Event.isWriteFile : Event → Bool
  | Event.writeFile _ _ _ => true
  | _ => false

/-- The states that start a value or an object key. -/
def Step.isBegin (k : Step) : Bool :=
  k = Step.stateBeginValueOrEmpty || k = Step.stateBeginValue ||
    k = Step.stateBeginStringOrEmpty || k = Step.stateBeginString

/-- The states right after an opening bracket. -/
def Step.isOrEmpty (k : Step) : Bool :=
  k = Step.stateBeginValueOrEmpty || k = Step.stateBeginStringOrEmpty

/-- The states inside a number that may be complete. -/
def Step.isNum (k : Step) : Bool :=
  k = Step.state1 || k = Step.state0 || k = Step.stateDot0 || k = Step.stateE0

/-- The scanner skips spaces without changing: it waits for a value or a key,
or stands after a value inside an object or array. -/
def Scanner.stable (s : Scanner) : Bool :=
  s.step.isBegin || (s.step = Step.stateEndValue && !s.parseState.isEmpty)

/-- What every step of the scanner obeys: a recorded error stays recorded,
`scanError` comes with `stateError`, `stateError` comes with a recorded
error, the codes for a closing bracket come from that bracket, and only a
space is skipped. -/
def StepOK (s : Scanner) (c : Nat) (r : Scanner × ScanCode) : Prop :=
  (s.err = true → r.1.err = true) ∧
  (r.2 = ScanCode.scanError → r.1.step = Step.stateError) ∧
  (r.1.step = Step.stateError → s.step ≠ Step.stateError → r.1.err = true) ∧
  (r.2 = ScanCode.scanEndObject → c = 125) ∧
  (r.2 = ScanCode.scanEndArray → c = 93) ∧
  (r.2 = ScanCode.scanSkipSpace → isSpace c = true)

/-- The invariant of the loop of `Indent` while no error is recorded:
`needIndent` is set only right after an opening bracket. -/
def IndentInv (S : IndentState) : Prop :=
  S.scan.err = false ∧ S.scan.step ≠ Step.stateError ∧
    (S.needIndent = true → S.scan.step.isOrEmpty = true)

/-- The second run lags behind the first: the first run has seen spaces after
a number inside an object or array, which the second run, reading the output
of the first, has not. -/
def IndentLag (S T : IndentState) : Prop :=
  S.scan.step = Step.stateEndValue ∧ S.scan.parseState ≠ [] ∧ T.scan.step.isNum = true ∧
    T = { S with scan := { S.scan with step := T.scan.step } }

/-- How the second run of `Indent`, on the output of the first, stands to the
first: in the same state, or lagging behind it. -/
def IndentRel (S T : IndentState) : Prop :=
  IndentInv S ∧ (T = S ∨ IndentLag S T)

/-! ## Running computations -/

/-- Running `pure`. -/
@[simp]
theorem pure_run {α : Type} (a : α) (h : List Event) :
    (pure a : M α) h = ([], Outcome.ok a) := rfl

/-- Running a sequence. -/
theorem bind_run {α β : Type} (m : M α) (f : α → M β) (h : List Event) :
    (m >>= f) h =
      match m h with
      | (es, Outcome.ok a) => (es ++ (f a (h ++ es)).1, (f a (h ++ es)).2)
      | (es, Outcome.panic msg) => (es, Outcome.panic msg) := by
  show M.bind m f h = _
  unfold M.bind
  rcases hm : m h with ⟨es, a | msg⟩ <;> simp

/-- Running a call. -/
@[simp]
theorem call_run (w : World) (e : Event) (h : List Event) :
    call w e h = ([e], Outcome.ok (w (h ++ [e]))) := rfl

/-- Running a call whose answer is not looked at. -/
@[simp]
theorem emit_run (e : Event) (h : List Event) : emit e h = ([e], Outcome.ok ()) := rfl

/-- Running a panic. -/
@[simp]
theorem goPanic_run {α : Type} (msg : String) (h : List Event) :
    (goPanic msg : M α) h = ([], Outcome.panic msg) := rfl

/-- C1. When host, API key or repository is the empty string, `main` returns
normally and the whole run is one printed line: no scratch directory, no
subprocess, no HTTP request, no file write. -/
theorem main_missing_config_only_prints (env : Env) (fl : Flags) (w : World)
    (hmiss : fl.fEHHost = "" ∨ fl.fEHAPIKey = "" ∨ fl.fGitRepo = "") :
    ∃ s t, main env fl w [] = ([Event.print s t], Outcome.ok ()) := by
  unfold main
  by_cases h1 : (fl.fPrintVer || fl.fPrintV) = true
  · rw [if_pos h1]; exact ⟨_, _, rfl⟩
  rw [if_neg h1]
  by_cases h2 : fl.fEHHost = ""
  · rw [if_pos h2]; exact ⟨_, _, rfl⟩
  rw [if_neg h2]
  by_cases h3 : fl.fEHAPIKey = ""
  · rw [if_pos h3]; exact ⟨_, _, rfl⟩
  rw [if_neg h3]
  by_cases h4 : fl.fGitRepo = ""
  · rw [if_pos h4]; exact ⟨_, _, rfl⟩
  rcases hmiss with h | h | h <;> contradiction

/-- Events followed by a finished run. -/
@[simp]
theorem after_pair {α : Type} (es es2 : List Event) (r : Outcome α) :
    after es (es2, r) = (es ++ es2, r) := rfl

/-- Events followed by events followed by a run. -/
@[simp]
theorem after_after {α : Type} (es es2 : List Event) (r : List Event × Outcome α) :
    after es (after es2 r) = after (es ++ es2) r := by
  simp [after]

/-- Running a call and then the rest. -/
@[simp]
theorem bind_call {β : Type} (w : World) (e : Event) (f : Resp → M β) (h : List Event) :
    (call w e >>= f) h = after [e] (f (w (h ++ [e])) (h ++ [e])) := by
  rw [bind_run, call_run]; rfl

/-- Running an unanswered call and then the rest. -/
@[simp]
theorem bind_emit {β : Type} (e : Event) (f : Unit → M β) (h : List Event) :
    (emit e >>= f) h = after [e] (f () (h ++ [e])) := by
  rw [bind_run, emit_run]; rfl

/-- Running `pure` and then the rest. -/
@[simp]
theorem bind_pure {α β : Type} (a : α) (f : α → M β) (h : List Event) :
    (pure a >>= f) h = f a h := by
  rw [bind_run, pure_run]; simp

/-- Running a sequence whose first part returns. -/
theorem bind_ok {α β : Type} (m : M α) (f : α → M β) (h es : List Event) (a : α)
    (hm : m h = (es, Outcome.ok a)) : (m >>= f) h = after es (f a (h ++ es)) := by
  rw [bind_run, hm]; rfl

/-- Running a sequence whose first part panics. -/
theorem bind_panic {α β : Type} (m : M α) (f : α → M β) (h es : List Event) (msg : String)
    (hm : m h = (es, Outcome.panic msg)) : (m >>= f) h = (es, Outcome.panic msg) := by
  rw [bind_run, hm]

/-- All runs of `pushAll`, by the answers of the world. -/
theorem pushAll_cases (fl : Flags) (w : World) (repoDir branch : String) (h : List Event) :
    let add := Event.cmdRun (addCmd fl repoDir)
    let commit := Event.cmdCombinedOutput (commitCmd repoDir)
    let push := Event.cmdRun (pushCmd fl repoDir branch)
    let a := w (h ++ [add])
    let c := w (h ++ [add, commit])
    let p := w (h ++ [add, commit] ++ commitEcho fl c ++ [push])
    let r := pushAll fl w repoDir branch h
    (a.err ≠ none ∧ ∃ t, r = ([add, Event.print Stream.slogError t],
        Outcome.panic "could not add into git")) ∨
    (a.err = none ∧ stringsContains c.bytes (toBytes "nothing to commit") = true ∧
      ∃ ps, (∀ e ∈ ps, e.isPrint = true) ∧ r = (add :: commit :: ps, Outcome.ok ())) ∨
    (a.err = none ∧ stringsContains c.bytes (toBytes "nothing to commit") = false ∧
      c.err ≠ none ∧ ∃ t, r = ([add, commit, Event.print Stream.slogError t],
        Outcome.panic "could not read git commit output")) ∨
    (a.err = none ∧ stringsContains c.bytes (toBytes "nothing to commit") = false ∧
      c.err = none ∧ p.err ≠ none ∧
      ∃ t, r = ([add, commit] ++ commitEcho fl c ++ [push, Event.print Stream.slogError t],
        Outcome.panic "could not push")) ∨
    (a.err = none ∧ stringsContains c.bytes (toBytes "nothing to commit") = false ∧
      c.err = none ∧ p.err = none ∧
      r = ([add, commit] ++ commitEcho fl c ++ [push], Outcome.ok ())) := by
  intro add commit push a c p r
  simp only [a, c, p, r, add, commit, push, commitEcho]
  unfold pushAll
  rcases ha : (w (h ++ [Event.cmdRun (addCmd fl repoDir)])).err with _ | ea
  · by_cases hc : stringsContains (w (h ++ [Event.cmdRun (addCmd fl repoDir),
        Event.cmdCombinedOutput (commitCmd repoDir)])).bytes (toBytes "nothing to commit") = true
    · by_cases hv : fl.fVerbose = true
      · simp [ha, hc, hv, Event.isPrint]
      · simp [ha, hc, hv]
    · rcases hce : (w (h ++ [Event.cmdRun (addCmd fl repoDir),
        Event.cmdCombinedOutput (commitCmd repoDir)])).err with _ | ec
      · by_cases hv : fl.fVerbose = true
        · rcases hpe : (w (h ++ [Event.cmdRun (addCmd fl repoDir),
            Event.cmdCombinedOutput (commitCmd repoDir),
            Event.print Stream.stdout (ofBytes (w (h ++ [Event.cmdRun (addCmd fl repoDir),
              Event.cmdCombinedOutput (commitCmd repoDir)])).bytes),
            Event.cmdRun (pushCmd fl repoDir branch)])).err with _ | ep
          · simp [ha, hc, hv, hce, hpe]
          · simp [ha, hc, hv, hce, hpe]
        · rcases hpe : (w (h ++ [Event.cmdRun (addCmd fl repoDir),
            Event.cmdCombinedOutput (commitCmd repoDir),
            Event.cmdRun (pushCmd fl repoDir branch)])).err with _ | ep
          · simp [ha, hc, hv, hce, hpe]
          · simp [ha, hc, hv, hce, hpe]
      · simp [ha, hc, hce]
  · simp [ha]

/-- All runs of the loop of `gitClone`: either some attempt succeeds and the
loop returns at once, or every attempt up to the third fails and it panics. -/
theorem gitCloneLoop_cases (fl : Flags) (w : World) (tmpDir : String) :
    ∀ (d tries : Nat) (h : List Event), tries + d = 2 →
    let ev := Event.cmdRun (cloneCmd fl tmpDir)
    let r := gitCloneLoop fl w tmpDir tries h
    (∃ k, k + tries < 3 ∧ (∀ j < k, (w (h ++ List.replicate (j + 1) ev)).err ≠ none) ∧
        (w (h ++ List.replicate (k + 1) ev)).err = none ∧
        r = (List.replicate (k + 1) ev, Outcome.ok ())) ∨
    ((∀ j, j + tries < 3 → (w (h ++ List.replicate (j + 1) ev)).err ≠ none) ∧
      ∃ t, r = (List.replicate (3 - tries) ev ++ [Event.print Stream.slogError t],
        Outcome.panic "could not clone the repo")) := by
  intro d
  induction d with
  | zero =>
    intro tries h ht ev r
    have h2 : tries = 2 := by omega
    subst h2
    simp only [r]
    rw [gitCloneLoop]
    rcases he : (w (h ++ [ev])).err with _ | e
    · left
      refine ⟨0, by omega, by simp, by simpa using he, ?_⟩
      simp only [ev] at he
      simp [he, ev]
    · right
      refine ⟨?_, ?_⟩
      · intro j hj
        have : j = 0 := by omega
        subst this
        simp [he]
      · simp only [ev] at he
        simp [he, ev]
  | succ d ih =>
    intro tries h ht ev r
    have h2 : ¬ tries ≥ 2 := by omega
    simp only [r]
    rw [gitCloneLoop]
    rcases he : (w (h ++ [ev])).err with _ | e
    · left
      refine ⟨0, by omega, by simp, by simpa using he, ?_⟩
      simp only [ev] at he
      simp [he, ev]
    · have he2 := he
      simp only [ev] at he2
      rcases ih (tries + 1) (h ++ [ev]) (by omega) with ⟨k, hk, hf, hs, hr⟩ | ⟨hf, t, hr⟩
      · left
        refine ⟨k + 1, by omega, ?_, ?_, ?_⟩
        · intro j hj
          rcases j with _ | j
          · simp [he]
          · have := hf j (by omega)
            simpa [List.replicate_succ] using this
        · simpa [List.replicate_succ] using hs
        · simp only [ev] at hr
          simp [he2, h2, hr, List.replicate_succ, ev]
      · right
        refine ⟨?_, ?_⟩
        · intro j hj
          rcases j with _ | j
          · simp [he]
          · have := hf j (by omega)
            simpa [List.replicate_succ] using this
        · simp only [ev] at hr
          refine ⟨t, ?_⟩
          have h3 : 3 - tries = (3 - (tries + 1)) + 1 := by omega
          simp [he2, h2, hr, h3, List.replicate_succ, ev]

/-- The head of `splitAux` on the separator `?`: the current piece followed by
the part of the input before its first `?`. -/
theorem splitAux_question (s cur : List Char) :
    ∃ tl, splitAux ['?'] 0 s cur = (cur.reverse ++ s.takeWhile (fun c => c != '?')) :: tl := by
  induction s generalizing cur with
  | nil => exact ⟨[], by simp [splitAux]⟩
  | cons c cs ih =>
    by_cases hc : c = '?'
    · subst hc
      exact ⟨splitAux ['?'] 0 cs [], by simp [splitAux, List.isPrefixOf]⟩
    · obtain ⟨tl, htl⟩ := ih (c :: cur)
      refine ⟨tl, ?_⟩
      have hb : (c == '?') = false := by simpa using hc
      have hc2 : ¬ '?' = c := fun h => hc h.symm
      simp [splitAux, List.isPrefixOf, hb, htl, hc, hc2]

/-- The call `strings.Split(endpoint, "?")` is never empty and its element `[0]` is the
part of `endpoint` before the first `?`. -/
theorem stringsSplit_question (endpoint : String) :
    ∃ tl, stringsSplit endpoint "?" = beforeQuery endpoint :: tl := by
  obtain ⟨tl, htl⟩ := splitAux_question endpoint.toList []
  refine ⟨tl.map String.mk, ?_⟩
  have hq : ("?" : String) ≠ "" := by decide
  have hl : ("?" : String).toList = ['?'] := rfl
  simp only [stringsSplit, hq, if_false, hl, htl, beforeQuery]
  simp

/-- All runs of `invokeEHAPI`, by the answers of the world. -/
theorem invokeEHAPI_cases (env : Env) (fl : Flags) (w : World) (endpoint : String)
    (client : Client) (h : List Event) :
    let parse := Event.urlParse (fl.fEHHost ++ "/api/v1/" ++ endpoint)
    let u := w (h ++ [parse])
    let mk := Event.newRequest "GET" u.str
    let nr := w (h ++ [parse, mk])
    let req := newEHRequest fl u.str
    let res := w (h ++ [parse, mk] ++ requestEcho fl req ++ [Event.clientDo req])
    let body := w (h ++ [parse, mk] ++ requestEcho fl req ++ [Event.clientDo req, Event.readAll])
    let r := invokeEHAPI env fl w endpoint client h
    (∃ e, u.err = some e ∧ r = ([parse], Outcome.ok ([], some e))) ∨
    (u.err = none ∧ nr.err = none ∧ ∃ e, res.err = some e ∧
      r = ([parse, mk] ++ requestEcho fl req ++ [Event.clientDo req],
        Outcome.ok ([], some e))) ∨
    (u.err = none ∧ nr.err = none ∧ res.err = none ∧ ∃ e, body.err = some e ∧
      r = ([parse, mk] ++ requestEcho fl req ++
          [Event.clientDo req, Event.readAll, Event.bodyClose],
        Outcome.ok ([], some e))) ∨
    (u.err = none ∧ nr.err = none ∧ res.err = none ∧ body.err = none ∧
      r = ([parse, mk] ++ requestEcho fl req ++
          [Event.clientDo req, Event.readAll, Event.bodyClose],
        Outcome.ok (jsonIndent env.maxNestingDepth [] body.bytes [] [9]))) ∨
    (u.err = none ∧ nr.err ≠ none ∧ r = ([parse, mk], Outcome.panic nilDereference)) := by
  intro parse u mk nr req res body r
  simp only [parse, u, mk, nr, req, res, body, r, requestEcho]
  unfold invokeEHAPI
  rcases hu : (w (h ++ [Event.urlParse (fl.fEHHost ++ "/api/v1/" ++ endpoint)])).err with _ | e
  · rcases hn : (w (h ++ [Event.urlParse (fl.fEHHost ++ "/api/v1/" ++ endpoint),
            Event.newRequest "GET"
              (w (h ++ [Event.urlParse (fl.fEHHost ++ "/api/v1/" ++ endpoint)])).str])).err
      with _ | en
    · by_cases hv : fl.fVerbose = true
      · rcases hres : (w (h ++ [Event.urlParse (fl.fEHHost ++ "/api/v1/" ++ endpoint),
            Event.newRequest "GET"
              (w (h ++ [Event.urlParse (fl.fEHHost ++ "/api/v1/" ++ endpoint)])).str,
            Event.print Stream.slogInfo (sprintln ["Requesting",
              (newEHRequest fl
              (w (h ++ [Event.urlParse (fl.fEHHost ++ "/api/v1/" ++ endpoint)])).str).url]),
            Event.clientDo (newEHRequest fl
              (w (h ++ [Event.urlParse (fl.fEHHost ++ "/api/v1/" ++ endpoint)])).str)])).err
          with _ | e
        · rcases hb : (w (h ++ [Event.urlParse (fl.fEHHost ++ "/api/v1/" ++ endpoint),
            Event.newRequest "GET"
              (w (h ++ [Event.urlParse (fl.fEHHost ++ "/api/v1/" ++ endpoint)])).str,
            Event.print Stream.slogInfo (sprintln ["Requesting",
              (newEHRequest fl
              (w (h ++ [Event.urlParse (fl.fEHHost ++ "/api/v1/" ++ endpoint)])).str).url]),
            Event.clientDo (newEHRequest fl
              (w (h ++ [Event.urlParse (fl.fEHHost ++ "/api/v1/" ++ endpoint)])).str),
            Event.readAll])).err with _ | e
          · simp [hu, hn, hv, hres, hb, toBytes]
          · simp [hu, hn, hv, hres, hb]
        · simp [hu, hn, hv, hres]
      · rcases hres : (w (h ++ [Event.urlParse (fl.fEHHost ++ "/api/v1/" ++ endpoint),
            Event.newRequest "GET"
              (w (h ++ [Event.urlParse (fl.fEHHost ++ "/api/v1/" ++ endpoint)])).str,
            Event.clientDo (newEHRequest fl
              (w (h ++ [Event.urlParse (fl.fEHHost ++ "/api/v1/" ++ endpoint)])).str)])).err
          with _ | e
        · rcases hb : (w (h ++ [Event.urlParse (fl.fEHHost ++ "/api/v1/" ++ endpoint),
            Event.newRequest "GET"
              (w (h ++ [Event.urlParse (fl.fEHHost ++ "/api/v1/" ++ endpoint)])).str,
            Event.clientDo (newEHRequest fl
              (w (h ++ [Event.urlParse (fl.fEHHost ++ "/api/v1/" ++ endpoint)])).str),
            Event.readAll])).err with _ | e
          · simp [hu, hn, hv, hres, hb, toBytes]
          · simp [hu, hn, hv, hres, hb]
        · simp [hu, hn, hv, hres]
    · simp [hu, hn]
  · simp [hu]

/-- The only panic of `invokeEHAPI` is the nil dereference after a failed
`http.NewRequest`. -/
theorem invokeEHAPI_panic (env : Env) (fl : Flags) (w : World) (endpoint : String)
    (client : Client) (h es : List Event) (msg : String)
    (hr : invokeEHAPI env fl w endpoint client h = (es, Outcome.panic msg)) :
    msg = nilDereference := by
  rcases invokeEHAPI_cases env fl w endpoint client h with
    ⟨e, _, hr2⟩ | ⟨_, _, e, _, hr2⟩ | ⟨_, _, _, e, _, hr2⟩ | ⟨_, _, _, _, hr2⟩ | ⟨_, _, hr2⟩
  all_goals rw [hr] at hr2
  all_goals simp only [Prod.mk.injEq, reduceCtorEq, and_false] at hr2
  simp only [Outcome.panic.injEq] at hr2
  exact hr2.2

/-- All runs of `backupEHEndpoint`: an error of `invokeEHAPI` is returned with
nothing more done, and so is its panic; otherwise the body is written to the
backup file. -/
theorem backupEHEndpoint_cases (env : Env) (fl : Flags) (w : World) (endpoint : String)
    (client : Client) (h : List Event) :
    let r := invokeEHAPI env fl w endpoint client h
    (∃ b e, r.2 = Outcome.ok (b, some e) ∧
      backupEHEndpoint env fl w endpoint client h = (r.1, Outcome.ok (some e))) ∨
    (∃ b, r.2 = Outcome.ok (b, none) ∧
      backupEHEndpoint env fl w endpoint client h =
        (r.1 ++ writeEcho fl endpoint ++ [Event.writeFile (backupFile fl endpoint) b 0o755],
          Outcome.ok (w (h ++ r.1 ++ writeEcho fl endpoint ++
            [Event.writeFile (backupFile fl endpoint) b 0o755])).err)) ∨
    (r.2 = Outcome.panic nilDereference ∧
      backupEHEndpoint env fl w endpoint client h = (r.1, Outcome.panic nilDereference)) := by
  intro r
  obtain ⟨tl, htl⟩ := stringsSplit_question endpoint
  rcases hr : invokeEHAPI env fl w endpoint client h with ⟨es, ⟨b, eo⟩ | msg⟩
  · have hr2 : r = (es, Outcome.ok (b, eo)) := hr
    unfold backupEHEndpoint
    rw [bind_ok _ _ _ _ _ hr, hr2]
    rcases eo with _ | e
    · right; left
      refine ⟨b, rfl, ?_⟩
      by_cases hv : fl.fVerbose = true
      · simp [htl, hv, writeEcho, backupFile]
      · simp [htl, hv, writeEcho, backupFile]
    · left
      exact ⟨b, e, rfl, by simp⟩
  · have hmsg := invokeEHAPI_panic env fl w endpoint client h es msg hr
    subst hmsg
    have hr2 : r = (es, Outcome.panic nilDereference) := hr
    right; right
    unfold backupEHEndpoint
    rw [bind_panic _ _ _ _ _ hr, hr2]
    exact ⟨rfl, rfl⟩

/-- The only panic of `backupEHEndpoint` is that of `invokeEHAPI`. -/
theorem backupEHEndpoint_panic (env : Env) (fl : Flags) (w : World) (endpoint : String)
    (client : Client) (h es : List Event) (msg : String)
    (hr : backupEHEndpoint env fl w endpoint client h = (es, Outcome.panic msg)) :
    msg = nilDereference := by
  rcases backupEHEndpoint_cases env fl w endpoint client h with
    ⟨b, e, _, hr2⟩ | ⟨b, _, hr2⟩ | ⟨_, hr2⟩
  all_goals rw [hr] at hr2
  all_goals simp only [Prod.mk.injEq, reduceCtorEq, and_false] at hr2
  simp only [Outcome.panic.injEq] at hr2
  exact hr2.2

/-- All runs of the scratch directory set-up of `main`: it never panics and
makes exactly one call to create the directory. -/
theorem scratchDir_cases (env : Env) (fl : Flags) (w : World) (h : List Event) :
    ∃ create ps d, (create = Event.tempDir "" "ExtraHopBackup" ∨
        create = Event.mkdirAll (fl.fGitDir ++ "ExtraHopBackup") 0o755) ∧
      (∀ e ∈ ps, e.isPrint = true) ∧
      scratchDir env fl w h = (create :: ps, Outcome.ok d) := by
  unfold scratchDir
  by_cases hd : fl.fGitDir = env.osTempDir
  · by_cases hv : fl.fVerbose = true
    · simp only [hd, hv, if_true, bind_call, bind_emit, pure_run, after_pair, after_after]
      exact ⟨_, _, _, Or.inl rfl, by simp [Event.isPrint], rfl⟩
    · simp only [hd, hv, if_true, if_false, bind_call, bind_pure, pure_run, after_pair, after_after]
      exact ⟨_, [], _, Or.inl rfl, by simp, rfl⟩
  · simp only [hd, if_false, bind_call, bind_pure, pure_run, after_pair, after_after]
    exact ⟨_, [], _, Or.inr rfl, by simp, rfl⟩

/-- The end of `main`, from the deletion of the scratch directory on: one call
of `os.RemoveAll` on the scratch directory, after it only printing and, on
Windows after a failure, the forced deletion. -/
theorem main_cleanup (env : Env) (fl : Flags) (w : World) (h : List Event) :
    ∃ qs, (∀ e ∈ qs, e.isPrint = true ∨ e = Event.cmdRun (rmdirCmd fl.fGitDir)) ∧
      ((do
        if fl.fVerbose then
          emit (Event.print Stream.slogInfo (sprintln ["Cleaning up. Deleting ", fl.fGitDir]))
        let dirErr ← call w (Event.removeAll fl.fGitDir)
        match dirErr.err with
        | some e =>
          if env.goos = "windows" then
            if fl.fVerbose then
              emit (Event.print Stream.slogWarning (sprintln ["Cleaning up. Can't delete:", e]))
              emit (Event.print Stream.slogWarning
                (sprintln ["Cleaning up. Invoking OS deletion:",
                  fmtArgs (rmdirCmd fl.fGitDir).args]))
            let _ ← call w (Event.cmdRun (rmdirCmd fl.fGitDir))
            pure ()
        | none => pure ()) : M Unit) h =
        (cleanupEcho fl ++ Event.removeAll fl.fGitDir :: qs, Outcome.ok ()) := by
  by_cases hv : fl.fVerbose = true
  · rcases he : (w (h ++ [Event.print Stream.slogInfo
      (sprintln ["Cleaning up. Deleting ", fl.fGitDir]), Event.removeAll fl.fGitDir])).err
      with _ | e
    · exact ⟨[], by simp, by simp [hv, he, cleanupEcho]⟩
    · by_cases hg : env.goos = "windows"
      · simp only [hv, he, hg, cleanupEcho, if_true, bind_call, bind_emit, pure_run, after_pair,
          after_after, List.append_assoc, List.cons_append, List.nil_append]
        refine ⟨_, ?_, rfl⟩
        simp [Event.isPrint]
      · exact ⟨[], by simp, by simp [hv, he, hg, cleanupEcho]⟩
  · rcases he : (w (h ++ [Event.removeAll fl.fGitDir])).err with _ | e
    · exact ⟨[], by simp, by simp [hv, he, cleanupEcho]⟩
    · by_cases hg : env.goos = "windows"
      · simp only [hv, he, hg, cleanupEcho, if_true, if_false, bind_call, bind_emit, bind_pure,
          pure_run, after_pair, after_after, List.append_assoc, List.cons_append,
          List.nil_append, Bool.false_eq_true]
        refine ⟨_, ?_, rfl⟩
        simp [Event.isPrint]
      · exact ⟨[], by simp, by simp [hv, he, hg, cleanupEcho]⟩

/-- The shape of every run of `main` that gets past the early returns: the
scratch directory set-up, then `gitClone`; after a clone the three endpoints
in order whatever each returns, then `pushAll`; after `pushAll` the clean-up.
A panic of `gitClone`, of an endpoint or of `pushAll` ends the run on the
spot. -/
theorem main_run (env : Env) (fl : Flags) (w : World) (hv : fl.valid) :
    ∃ setup d, scratchDir env fl w [] = (setup, Outcome.ok d) ∧
    ∃ clone cr, gitClone (fl.withDir d) w d fl.fGitRepo setup = (clone, cr) ∧
    match cr with
    | Outcome.panic msg => main env fl w [] = (setup ++ clone, Outcome.panic msg)
    | Outcome.ok _ =>
      (∃ b1, backupEHEndpoint env (fl.withDir d) w "runningconfig" ⟨checkRedirect⟩
          (setup ++ clone) = (b1, Outcome.panic nilDereference) ∧
        main env fl w [] = (setup ++ clone ++ b1, Outcome.panic nilDereference)) ∨
      (∃ b1 r1 b2,
        backupEHEndpoint env (fl.withDir d) w "runningconfig" ⟨checkRedirect⟩
          (setup ++ clone) = (b1, Outcome.ok r1) ∧
        backupEHEndpoint env (fl.withDir d) w "triggers" ⟨checkRedirect⟩
          (setup ++ clone ++ b1) = (b2, Outcome.panic nilDereference) ∧
        main env fl w [] = (setup ++ clone ++ b1 ++ b2, Outcome.panic nilDereference)) ∨
      (∃ b1 r1 b2 r2 b3,
        backupEHEndpoint env (fl.withDir d) w "runningconfig" ⟨checkRedirect⟩
          (setup ++ clone) = (b1, Outcome.ok r1) ∧
        backupEHEndpoint env (fl.withDir d) w "triggers" ⟨checkRedirect⟩
          (setup ++ clone ++ b1) = (b2, Outcome.ok r2) ∧
        backupEHEndpoint env (fl.withDir d) w "auditlog?limit=999999&offset=0" ⟨checkRedirect⟩
          (setup ++ clone ++ b1 ++ b2) = (b3, Outcome.panic nilDereference) ∧
        main env fl w [] =
          (setup ++ clone ++ b1 ++ b2 ++ b3, Outcome.panic nilDereference)) ∨
      ∃ b1 r1 b2 r2 b3 r3,
        backupEHEndpoint env (fl.withDir d) w "runningconfig" ⟨checkRedirect⟩
          (setup ++ clone) = (b1, Outcome.ok r1) ∧
        backupEHEndpoint env (fl.withDir d) w "triggers" ⟨checkRedirect⟩
          (setup ++ clone ++ b1) = (b2, Outcome.ok r2) ∧
        backupEHEndpoint env (fl.withDir d) w "auditlog?limit=999999&offset=0" ⟨checkRedirect⟩
          (setup ++ clone ++ b1 ++ b2) = (b3, Outcome.ok r3) ∧
        ∃ push pr, pushAll (fl.withDir d) w d "master" (setup ++ clone ++ b1 ++ b2 ++ b3) =
            (push, pr) ∧
          match pr with
          | Outcome.panic msg =>
            main env fl w [] = (setup ++ clone ++ b1 ++ b2 ++ b3 ++ push, Outcome.panic msg)
          | Outcome.ok _ =>
            ∃ qs, (∀ e ∈ qs, e.isPrint = true ∨ e = Event.cmdRun (rmdirCmd d)) ∧
              main env fl w [] =
                (setup ++ clone ++ b1 ++ b2 ++ b3 ++ push ++ cleanupEcho (fl.withDir d) ++
                  Event.removeAll d :: qs, Outcome.ok ()) := by
  obtain ⟨h1, h2, h3, h4⟩ := hv
  obtain ⟨create, ps, d, _, _, hs⟩ := scratchDir_cases env fl w []
  refine ⟨_, d, hs, ?_⟩
  have hm : main env fl w [] = main env fl w [] := rfl
  conv at hm =>
    rhs
    unfold main
    rw [if_neg (by simp [h1]), if_neg h2, if_neg h3, if_neg h4, bind_ok _ _ _ _ _ hs]
  rcases hc : gitClone (fl.withDir d) w d fl.fGitRepo (create :: ps) with ⟨clone, _ | msg⟩
  · refine ⟨clone, _, rfl, ?_⟩
    have hc2 : gitClone (fl.withDir d) w (fl.withDir d).fGitDir (fl.withDir d).fGitRepo
        ([] ++ create :: ps) = (clone, Outcome.ok ()) := hc
    simp only [Flags.withDir] at hc2
    simp only [] at hm
    rw [bind_ok _ _ _ _ _ hc2] at hm
    rcases hb1 : backupEHEndpoint env (fl.withDir d) w "runningconfig" ⟨checkRedirect⟩
      (create :: ps ++ clone) with ⟨b1, r1 | msg1⟩
    swap
    · have hmsg := backupEHEndpoint_panic _ _ _ _ _ _ _ _ hb1
      subst hmsg
      left
      refine ⟨b1, rfl, ?_⟩
      have hb1' : backupEHEndpoint env (fl.withDir d) w "runningconfig" ⟨checkRedirect⟩
          ([] ++ create :: ps ++ clone) = (b1, Outcome.panic nilDereference) := hb1
      simp only [Flags.withDir] at hb1'
      rw [bind_panic _ _ _ _ _ hb1'] at hm
      simp [hm, after]
    have hb1' : backupEHEndpoint env (fl.withDir d) w "runningconfig" ⟨checkRedirect⟩
        ([] ++ create :: ps ++ clone) = (b1, Outcome.ok r1) := hb1
    simp only [Flags.withDir] at hb1'
    rw [bind_ok _ _ _ _ _ hb1'] at hm
    rcases hb2 : backupEHEndpoint env (fl.withDir d) w "triggers" ⟨checkRedirect⟩
      (create :: ps ++ clone ++ b1) with ⟨b2, r2 | msg2⟩
    swap
    · have hmsg := backupEHEndpoint_panic _ _ _ _ _ _ _ _ hb2
      subst hmsg
      right; left
      refine ⟨b1, r1, b2, rfl, hb2, ?_⟩
      have hb2' : backupEHEndpoint env (fl.withDir d) w "triggers" ⟨checkRedirect⟩
          ([] ++ create :: ps ++ clone ++ b1) = (b2, Outcome.panic nilDereference) := hb2
      simp only [Flags.withDir] at hb2'
      rw [bind_panic _ _ _ _ _ hb2'] at hm
      simp [hm, after]
    have hb2' : backupEHEndpoint env (fl.withDir d) w "triggers" ⟨checkRedirect⟩
        ([] ++ create :: ps ++ clone ++ b1) = (b2, Outcome.ok r2) := hb2
    simp only [Flags.withDir] at hb2'
    rw [bind_ok _ _ _ _ _ hb2'] at hm
    rcases hb3 : backupEHEndpoint env (fl.withDir d) w "auditlog?limit=999999&offset=0"
      ⟨checkRedirect⟩ (create :: ps ++ clone ++ b1 ++ b2) with ⟨b3, r3 | msg3⟩
    swap
    · have hmsg := backupEHEndpoint_panic _ _ _ _ _ _ _ _ hb3
      subst hmsg
      right; right; left
      refine ⟨b1, r1, b2, r2, b3, rfl, hb2, hb3, ?_⟩
      have hb3' : backupEHEndpoint env (fl.withDir d) w "auditlog?limit=999999&offset=0"
          ⟨checkRedirect⟩ ([] ++ create :: ps ++ clone ++ b1 ++ b2) =
            (b3, Outcome.panic nilDereference) := hb3
      simp only [Flags.withDir] at hb3'
      rw [bind_panic _ _ _ _ _ hb3'] at hm
      simp [hm, after]
    have hb3' : backupEHEndpoint env (fl.withDir d) w "auditlog?limit=999999&offset=0"
        ⟨checkRedirect⟩ ([] ++ create :: ps ++ clone ++ b1 ++ b2) = (b3, Outcome.ok r3) := hb3
    simp only [Flags.withDir] at hb3'
    rw [bind_ok _ _ _ _ _ hb3'] at hm
    right; right; right
    refine ⟨b1, r1, b2, r2, b3, r3, rfl, hb2, hb3, ?_⟩
    rcases hp : pushAll (fl.withDir d) w d "master" (create :: ps ++ clone ++ b1 ++ b2 ++ b3)
      with ⟨push, _ | msg⟩
    · refine ⟨push, _, rfl, ?_⟩
      have hp' : pushAll (fl.withDir d) w (fl.withDir d).fGitDir "master"
          ([] ++ create :: ps ++ clone ++ b1 ++ b2 ++ b3) = (push, Outcome.ok ()) := hp
      simp only [Flags.withDir] at hp'
      rw [bind_ok _ _ _ _ _ hp'] at hm
      obtain ⟨qs, hq, hcl⟩ := main_cleanup env (fl.withDir d) w
        ([] ++ create :: ps ++ clone ++ b1 ++ b2 ++ b3 ++ push)
      refine ⟨qs, hq, ?_⟩
      simp only [Flags.withDir] at hcl
      rw [hm, hcl]
      simp [after, cleanupEcho, Flags.withDir]
    · refine ⟨push, _, rfl, ?_⟩
      have hp' : pushAll (fl.withDir d) w (fl.withDir d).fGitDir "master"
          ([] ++ create :: ps ++ clone ++ b1 ++ b2 ++ b3) = (push, Outcome.panic msg) := hp
      simp only [Flags.withDir] at hp'
      rw [bind_panic _ _ _ _ _ hp'] at hm
      simp [hm, after]
  · refine ⟨clone, _, rfl, ?_⟩
    have hc2 : gitClone (fl.withDir d) w (fl.withDir d).fGitDir (fl.withDir d).fGitRepo
        ([] ++ create :: ps) = (clone, Outcome.panic msg) := hc
    simp only [Flags.withDir] at hc2
    simp only [] at hm
    rw [bind_panic _ _ _ _ _ hc2] at hm
    simp [hm, after]

/-- Every run of `backupEHEndpoint` starts by parsing the URL of the endpoint
under the host and then only builds and sends the request, reads, prints and
writes. -/
theorem backupEHEndpoint_events (env : Env) (fl : Flags) (w : World) (endpoint : String)
    (client : Client) (h : List Event) :
    ∃ rest r, backupEHEndpoint env fl w endpoint client h =
        (Event.urlParse (fl.fEHHost ++ "/api/v1/" ++ endpoint) :: rest, r) ∧
      ∀ e ∈ rest, e.isFetchRest = true := by
  have hi : ∃ rest x, invokeEHAPI env fl w endpoint client h =
      (Event.urlParse (fl.fEHHost ++ "/api/v1/" ++ endpoint) :: rest, x) ∧
      ∀ e ∈ rest, e.isFetchRest = true := by
    rcases invokeEHAPI_cases env fl w endpoint client h with
      ⟨e, _, hr⟩ | ⟨_, _, e, _, hr⟩ | ⟨_, _, _, e, _, hr⟩ | ⟨_, _, _, _, hr⟩ | ⟨_, _, hr⟩
    · exact ⟨[], _, hr, by simp⟩
    · refine ⟨_, _, hr, ?_⟩
      unfold requestEcho
      split <;> simp [Event.isFetchRest]
    · refine ⟨_, _, hr, ?_⟩
      unfold requestEcho
      split <;> simp [Event.isFetchRest]
    · refine ⟨_, _, hr, ?_⟩
      unfold requestEcho
      split <;> simp [Event.isFetchRest]
    · exact ⟨_, _, hr, by simp [Event.isFetchRest]⟩
  obtain ⟨rest, x, hx, hrest⟩ := hi
  rcases backupEHEndpoint_cases env fl w endpoint client h with
    ⟨b, e, _, hr⟩ | ⟨b, _, hr⟩ | ⟨_, hr⟩
  · rw [hx] at hr
    exact ⟨rest, _, hr, hrest⟩
  · rw [hx] at hr
    refine ⟨rest ++ writeEcho fl endpoint ++ [Event.writeFile (backupFile fl endpoint) b 0o755],
      _, hr, ?_⟩
    intro e he
    simp only [List.append_assoc, List.mem_append, List.mem_singleton] at he
    rcases he with he | he | he
    · exact hrest e he
    · unfold writeEcho at he
      split at he
      · simp only [List.mem_singleton] at he
        subst he
        rfl
      · simp at he
    · subst he
      rfl
  · rw [hx] at hr
    exact ⟨rest, _, hr, hrest⟩

/-- Every run of `pushAll` starts with `git add .`, followed only by the
commit, the push and printing. -/
theorem pushAll_events (fl : Flags) (w : World) (repoDir branch : String) (h : List Event) :
    ∃ rest r, pushAll fl w repoDir branch h = (Event.cmdRun (addCmd fl repoDir) :: rest, r) ∧
      ∀ e ∈ rest, e.isPrint = true ∨ e = Event.cmdCombinedOutput (commitCmd repoDir) ∨
        e = Event.cmdRun (pushCmd fl repoDir branch) := by
  have hecho : ∀ c, ∀ e ∈ commitEcho fl c, e.isPrint = true := by
    intro c e he
    unfold commitEcho at he
    split at he
    · simp only [List.mem_singleton] at he
      subst he
      rfl
    · simp at he
  rcases pushAll_cases fl w repoDir branch h with
    ⟨_, t, hr⟩ | ⟨_, _, ps, hps, hr⟩ | ⟨_, _, _, t, hr⟩ | ⟨_, _, _, _, t, hr⟩ | ⟨_, _, _, _, hr⟩
  · exact ⟨_, _, hr, by simp [Event.isPrint]⟩
  · refine ⟨_, _, hr, ?_⟩
    intro e he
    rcases List.mem_cons.1 he with he | he
    · exact Or.inr (Or.inl he)
    · exact Or.inl (hps e he)
  · exact ⟨_, _, hr, by simp [Event.isPrint]⟩
  · refine ⟨Event.cmdCombinedOutput (commitCmd repoDir) :: (commitEcho fl _ ++
      [Event.cmdRun (pushCmd fl repoDir branch), Event.print Stream.slogError t]), _, hr, ?_⟩
    intro e he
    simp only [List.cons_append, List.nil_append, List.mem_cons, List.mem_append,
      List.mem_singleton] at he
    rcases he with he | he | he | he
    · exact Or.inr (Or.inl he)
    · exact Or.inl (hecho _ e he)
    · exact Or.inr (Or.inr he)
    · rcases he with he | he
      · subst he
        exact Or.inl rfl
      · simp at he
  · refine ⟨Event.cmdCombinedOutput (commitCmd repoDir) :: (commitEcho fl _ ++
      [Event.cmdRun (pushCmd fl repoDir branch)]), _, hr, ?_⟩
    intro e he
    simp only [List.cons_append, List.nil_append, List.mem_cons, List.mem_append,
      List.mem_singleton] at he
    rcases he with he | he | he
    · exact Or.inr (Or.inl he)
    · exact Or.inl (hecho _ e he)
    · rcases he with he | he
      · exact Or.inr (Or.inr he)
      · simp at he

/-- Every run of `gitClone` consists of clone commands and printing. -/
theorem gitClone_events (fl : Flags) (w : World) (tmpDir repoDir : String) (h : List Event) :
    ∀ e ∈ (gitClone fl w tmpDir repoDir h).1,
      e.isPrint = true ∨ e = Event.cmdRun (cloneCmd fl tmpDir) := by
  intro e he
  unfold gitClone at he
  rcases gitCloneLoop_cases fl w tmpDir 2 0 h rfl with ⟨k, _, _, _, hr⟩ | ⟨_, t, hr⟩
  · rw [hr] at he
    exact Or.inr (List.eq_of_mem_replicate he)
  · rw [hr] at he
    rcases List.mem_append.1 he with he | he
    · exact Or.inr (List.eq_of_mem_replicate he)
    · simp only [List.mem_singleton] at he
      subst he
      exact Or.inl rfl

/-- When the flags do not let `main` past its early returns, the run is one
printed line. -/
theorem main_early_return (env : Env) (fl : Flags) (w : World) (hv : ¬ fl.valid) :
    ∃ s t, main env fl w [] = ([Event.print s t], Outcome.ok ()) := by
  unfold main
  by_cases h1 : (fl.fPrintVer || fl.fPrintV) = true
  · rw [if_pos h1]; exact ⟨_, _, rfl⟩
  rw [if_neg h1]
  by_cases h2 : fl.fEHHost = ""
  · rw [if_pos h2]; exact ⟨_, _, rfl⟩
  rw [if_neg h2]
  by_cases h3 : fl.fEHAPIKey = ""
  · rw [if_pos h3]; exact ⟨_, _, rfl⟩
  rw [if_neg h3]
  by_cases h4 : fl.fGitRepo = ""
  · rw [if_pos h4]; exact ⟨_, _, rfl⟩
  exact absurd ⟨by simpa using h1, h2, h3, h4⟩ hv

/-! ## The run of `main`, `gitClone`, `pushAll` and `backupEHEndpoint` -/

/-- C1 at a sample input: no host given. -/
theorem main_missing_config_only_prints_witness :
    (sampleFlagsNoHost.fEHHost = "" ∨ sampleFlagsNoHost.fEHAPIKey = "" ∨
      sampleFlagsNoHost.fGitRepo = "") ∧
    ∃ s t, main sampleEnv sampleFlagsNoHost worldGitDown [] =
      ([Event.print s t], Outcome.ok ()) :=
  ⟨Or.inl rfl, main_missing_config_only_prints sampleEnv sampleFlagsNoHost worldGitDown
    (Or.inl rfl)⟩

/-- C3. `gitClone` runs the clone command at most 3 times: it returns right
after the first attempt that succeeds, and when the first three attempts fail
it panics after exactly 3 attempts; `main` then panics too, and its run holds
no endpoint fetch and no `git add`, `commit` or `push`. -/
theorem gitClone_at_most_three_attempts :
    (∀ (fl : Flags) (w : World) (tmpDir repoDir : String) (h : List Event),
      let ev := Event.cmdRun (cloneCmd fl tmpDir)
      let r := gitClone fl w tmpDir repoDir h
      r.1.countP (Event.isGit "clone") ≤ 3 ∧
      (∀ k < 3, (∀ j < k, (w (h ++ List.replicate (j + 1) ev)).err ≠ none) →
        (w (h ++ List.replicate (k + 1) ev)).err = none →
        r = (List.replicate (k + 1) ev, Outcome.ok ())) ∧
      ((∀ j < 3, (w (h ++ List.replicate (j + 1) ev)).err ≠ none) →
        r.1.count ev = 3 ∧ r.1.countP (Event.isGit "clone") = 3 ∧
        r.2 = Outcome.panic "could not clone the repo")) ∧
    (∀ (env : Env) (fl : Flags) (w : World) (setup : List Event) (d : String),
      fl.valid → scratchDir env fl w [] = (setup, Outcome.ok d) →
      (∀ j < 3, (w (setup ++ List.replicate (j + 1)
        (Event.cmdRun (cloneCmd (fl.withDir d) d)))).err ≠ none) →
      (main env fl w []).2 = Outcome.panic "could not clone the repo" ∧
      ∀ e ∈ (main env fl w []).1, e.isFetch = false ∧ e.isGit "add" = false ∧
        e.isGit "commit" = false ∧ e.isGit "push" = false) := by
  have hclone : ∀ (fl : Flags) (tmpDir : String),
      (Event.cmdRun (cloneCmd fl tmpDir)).isGit "clone" = true := by
    intro fl tmpDir
    simp [Event.isGit, cloneCmd]
  have hcount : ∀ (fl : Flags) (tmpDir : String) (n : Nat),
      (List.replicate n (Event.cmdRun (cloneCmd fl tmpDir))).countP (Event.isGit "clone") = n := by
    intro fl tmpDir n
    rw [List.countP_replicate, hclone]
    simp
  constructor
  · intro fl w tmpDir repoDir h ev r
    have hcases := gitCloneLoop_cases fl w tmpDir 2 0 h rfl
    have hr : r = gitCloneLoop fl w tmpDir 0 h := rfl
    rcases hcases with ⟨k, hk, hf, hs, hk2⟩ | ⟨hf, t, hp⟩
    · rw [← hr] at hk2
      refine ⟨?_, ?_, ?_⟩
      · rw [hk2]
        simp only [hcount]
        omega
      · intro k' hk' hf' hs'
        have : k' = k := by
          rcases Nat.lt_trichotomy k' k with hlt | heq | hgt
          · exact absurd hs' (hf k' hlt)
          · exact heq
          · exact absurd hs (hf' k hgt)
        subst this
        exact hk2
      · intro hall
        exact absurd hs (hall k (by omega))
    · rw [← hr] at hp
      refine ⟨?_, ?_, ?_⟩
      · rw [hp]
        simp only [List.countP_append, hcount]
        simp [Event.isGit]
      · intro k hk _ hs
        exact absurd hs (hf k (by omega))
      · intro _
        rw [hp]
        refine ⟨?_, ?_, rfl⟩
        · simp [List.count_append, List.count_replicate_self, List.count_singleton]
        · simp only [List.countP_append, hcount]
          simp [Event.isGit]
  · intro env fl w setup d hv hs hfail
    obtain ⟨setup', d', hs', clone, cr, hc, hm⟩ := main_run env fl w hv
    rw [hs] at hs'
    obtain ⟨rfl, rfl⟩ : setup = setup' ∧ d = d' := by
      simpa using hs'
    obtain ⟨create, ps, d2, hcreate, hps, hs2⟩ := scratchDir_cases env fl w []
    rw [hs] at hs2
    obtain ⟨rfl, -⟩ : setup = create :: ps ∧ d = d2 := by
      simpa using hs2
    rcases gitCloneLoop_cases (fl.withDir d) w d 2 0 (create :: ps) rfl with
      ⟨k, hk, _, hsucc, _⟩ | ⟨_, t, hp⟩
    · exact absurd hsucc (hfail k (by omega))
    · have hc2 : gitClone (fl.withDir d) w d fl.fGitRepo (create :: ps) = _ := hp
      rw [hc2] at hc
      obtain ⟨rfl, rfl⟩ : _ = clone ∧ _ = cr := by
        simpa using hc
      simp only at hm
      rw [hm]
      refine ⟨rfl, ?_⟩
      intro e he
      have hev := gitClone_events (fl.withDir d) w d fl.fGitRepo (create :: ps)
      rw [hc2] at hev
      rcases List.mem_append.1 he with he | he
      · rcases List.mem_cons.1 he with he | he
        · rcases hcreate with hc' | hc' <;> · subst he; subst hc'; exact ⟨rfl, rfl, rfl, rfl⟩
        · have := hps e he
          cases e <;> simp_all [Event.isPrint, Event.isFetch, Event.isGit, Event.isUrlParse]
      · rcases hev e he with hp' | hp'
        · cases e <;> simp_all [Event.isPrint, Event.isFetch, Event.isGit, Event.isUrlParse]
        · subst hp'
          simp [Event.isFetch, Event.isGit, Event.isUrlParse, Event.isFetchRest, cloneCmd]

/-- C3 at a sample input: every subprocess fails, so the three clone attempts
fail and `main` panics. -/
theorem gitClone_at_most_three_attempts_witness :
    sampleFlags.valid ∧
    (main sampleEnv sampleFlags worldGitDown []).2 = Outcome.panic "could not clone the repo" :=
  ⟨by decide,
    (gitClone_at_most_three_attempts.2 sampleEnv sampleFlags worldGitDown
      [Event.tempDir "" "ExtraHopBackup"] "/tmp/ExtraHopBackup123" (by decide) rfl
      (by decide)).1⟩

/-- Printing starts no subprocess. -/
theorem isGit_of_isPrint (sub : String) (e : Event) (h : e.isPrint = true) :
    e.isGit sub = false := by
  cases e <;> simp_all [Event.isPrint, Event.isGit]

/-- The events of an endpoint fetch start no subprocess. -/
theorem isGit_of_isFetchRest (sub : String) (e : Event) (h : e.isFetchRest = true) :
    e.isGit sub = false := by
  cases e <;> simp_all [Event.isFetchRest, Event.isGit]

/-- Printing is no part of an endpoint fetch. -/
theorem isFetch_of_isPrint (e : Event) (h : e.isPrint = true) : e.isFetch = false := by
  cases e <;> simp_all [Event.isPrint, Event.isFetch, Event.isUrlParse, Event.isFetchRest]

/-- Printing removes nothing. -/
theorem isRemoveAll_of_isPrint (e : Event) (h : e.isPrint = true) : e.isRemoveAll = false := by
  cases e <;> simp_all [Event.isPrint, Event.isRemoveAll]

/-- The events of an endpoint fetch remove nothing. -/
theorem isRemoveAll_of_isFetchRest (e : Event) (h : e.isFetchRest = true) :
    e.isRemoveAll = false := by
  cases e <;> simp_all [Event.isFetchRest, Event.isRemoveAll]

/-- Printing parses no URL. -/
theorem isUrlParse_of_isPrint (e : Event) (h : e.isPrint = true) : e.isUrlParse = false := by
  cases e <;> simp_all [Event.isPrint, Event.isUrlParse]

/-- After the URL is parsed an endpoint fetch parses no further URL. -/
theorem isUrlParse_of_isFetchRest (e : Event) (h : e.isFetchRest = true) :
    e.isUrlParse = false := by
  cases e <;> simp_all [Event.isFetchRest, Event.isUrlParse]

/-- C4. In `pushAll`, after a successful `git add`: when the output of
`git commit` contains `nothing to commit`, no push is run and `pushAll` returns
normally; otherwise, when the commit reports no error,
`git push --set-upstream origin <branch>` is run exactly once. Every push that
a run of `main` holds is a push of `master`. -/
theorem pushAll_pushes_unless_nothing_to_commit :
    (∀ (fl : Flags) (w : World) (repoDir branch : String) (h : List Event),
      let add := Event.cmdRun (addCmd fl repoDir)
      let commit := Event.cmdCombinedOutput (commitCmd repoDir)
      let c := w (h ++ [add, commit])
      let r := pushAll fl w repoDir branch h
      (w (h ++ [add])).err = none →
      (stringsContains c.bytes (toBytes "nothing to commit") = true →
        r.2 = Outcome.ok () ∧ r.1.countP (Event.isGit "push") = 0) ∧
      (stringsContains c.bytes (toBytes "nothing to commit") = false → c.err = none →
        r.1.countP (Event.isGit "push") = 1 ∧
        r.1.count (Event.cmdRun
          ⟨["git", "push", "--set-upstream", "origin", branch], repoDir, fl.fVerbose⟩) = 1)) ∧
    (∀ (env : Env) (fl : Flags) (w : World), ∀ e ∈ (main env fl w []).1,
      e.isGit "push" = true →
      ∃ dir v, e = Event.cmdRun ⟨["git", "push", "--set-upstream", "origin", "master"], dir, v⟩) := by
  constructor
  · intro fl w repoDir branch h add commit c r hadd
    have hecho : ∀ x, (commitEcho fl x).countP (Event.isGit "push") = 0 ∧
        (commitEcho fl x).count (Event.cmdRun (pushCmd fl repoDir branch)) = 0 := by
      intro x
      unfold commitEcho
      split <;> simp [Event.isGit]
    have hr : r = pushAll fl w repoDir branch h := rfl
    rcases pushAll_cases fl w repoDir branch h with
      ⟨ha, _⟩ | ⟨_, hc, ps, hps, hp⟩ | ⟨_, hc, hce, _⟩ | ⟨_, hc, _, _, t, hp⟩ | ⟨_, hc, _, _, hp⟩
    · exact absurd hadd ha
    · rw [← hr] at hp
      refine ⟨fun _ => ?_, fun hc' => ?_⟩
      · rw [hp]
        refine ⟨rfl, ?_⟩
        have : ps.countP (Event.isGit "push") = 0 := by
          rw [List.countP_eq_zero]
          intro e he
          have := hps e he
          simp [isGit_of_isPrint _ e this]
        simp [List.countP_cons, this, Event.isGit, addCmd, commitCmd]
      · rw [hc] at hc'
        exact absurd hc' (by simp)
    · refine ⟨fun hc' => ?_, fun _ hce' => absurd hce' hce⟩
      rw [hc] at hc'
      exact absurd hc' (by simp)
    · rw [← hr] at hp
      refine ⟨fun hc' => ?_, fun _ _ => ?_⟩
      · rw [hc] at hc'
        exact absurd hc' (by simp)
      · rw [hp]
        have h1 := (hecho (w (h ++ [Event.cmdRun (addCmd fl repoDir),
          Event.cmdCombinedOutput (commitCmd repoDir)]))).1
        have h2 := (hecho (w (h ++ [Event.cmdRun (addCmd fl repoDir),
          Event.cmdCombinedOutput (commitCmd repoDir)]))).2
        constructor
        · simp only [List.countP_append, List.countP_cons, List.countP_nil, h1]
          simp [Event.isGit, addCmd, commitCmd, pushCmd]
        · show List.count (Event.cmdRun (pushCmd fl repoDir branch)) _ = 1
          simp only [List.count_append, List.count_cons, List.count_nil, h2]
          simp [addCmd, commitCmd, pushCmd]
    · rw [← hr] at hp
      refine ⟨fun hc' => ?_, fun _ _ => ?_⟩
      · rw [hc] at hc'
        exact absurd hc' (by simp)
      · rw [hp]
        have h1 := (hecho (w (h ++ [Event.cmdRun (addCmd fl repoDir),
          Event.cmdCombinedOutput (commitCmd repoDir)]))).1
        have h2 := (hecho (w (h ++ [Event.cmdRun (addCmd fl repoDir),
          Event.cmdCombinedOutput (commitCmd repoDir)]))).2
        constructor
        · simp only [List.countP_append, List.countP_cons, List.countP_nil, h1]
          simp [Event.isGit, addCmd, commitCmd, pushCmd]
        · show List.count (Event.cmdRun (pushCmd fl repoDir branch)) _ = 1
          simp only [List.count_append, List.count_cons, List.count_nil, h2]
          simp [addCmd, commitCmd, pushCmd]
  · intro env fl w e he hpush
    by_cases hv : fl.valid
    · obtain ⟨setup, d, hs, clone, cr, hc, hm⟩ := main_run env fl w hv
      obtain ⟨create, ps, d2, hcreate, hps, hs2⟩ := scratchDir_cases env fl w []
      rw [hs] at hs2
      obtain ⟨rfl, -⟩ : setup = create :: ps ∧ d = d2 := by
        simpa using hs2
      have hsetup : ∀ e ∈ create :: ps, e.isGit "push" = false := by
        intro e he
        rcases List.mem_cons.1 he with he | he
        · rcases hcreate with hc' | hc' <;> · subst he; subst hc'; rfl
        · exact isGit_of_isPrint _ e (hps e he)
      have hclone : ∀ e ∈ clone, e.isGit "push" = false := by
        intro e he
        have hev := gitClone_events (fl.withDir d) w d fl.fGitRepo (create :: ps)
        rw [hc] at hev
        rcases hev e he with hp' | hp'
        · exact isGit_of_isPrint _ e hp'
        · subst hp'
          simp [Event.isGit, cloneCmd]
      have hfetch : ∀ (ep : String) (h : List Event) (b : List Event)
          (r : Outcome (Option String)),
          backupEHEndpoint env (fl.withDir d) w ep ⟨checkRedirect⟩ h = (b, r) →
          ∀ e ∈ b, e.isGit "push" = false := by
        intro ep h b r hb e he
        obtain ⟨rest, r', hb', hrest⟩ := backupEHEndpoint_events env (fl.withDir d) w ep
          ⟨checkRedirect⟩ h
        rw [hb] at hb'
        obtain ⟨rfl, -⟩ : b = _ ∧ r = r' := by
          simpa using hb'
        rcases List.mem_cons.1 he with he | he
        · subst he
          rfl
        · exact isGit_of_isFetchRest _ e (hrest e he)
      have hpushes : ∀ (h : List Event) (p : List Event) (r : Outcome Unit),
          pushAll (fl.withDir d) w d "master" h = (p, r) →
          ∀ e ∈ p, e.isGit "push" = true →
          ∃ dir v, e = Event.cmdRun
            ⟨["git", "push", "--set-upstream", "origin", "master"], dir, v⟩ := by
        intro h p r hp e he hg
        obtain ⟨rest, r', hp', hrest⟩ := pushAll_events (fl.withDir d) w d "master" h
        rw [hp] at hp'
        obtain ⟨rfl, -⟩ : p = _ ∧ r = r' := by
          simpa using hp'
        rcases List.mem_cons.1 he with he | he
        · subst he
          simp [Event.isGit, addCmd] at hg
        · rcases hrest e he with h1 | h1 | h1
          · rw [isGit_of_isPrint _ e h1] at hg
            exact absurd hg (by simp)
          · subst h1
            simp [Event.isGit, commitCmd] at hg
          · exact ⟨_, _, h1⟩
      rcases cr with _ | msg
      · simp only at hm
        rcases hm with ⟨b1, hb1, hm⟩ | ⟨b1, r1, b2, hb1, hb2, hm⟩ |
          ⟨b1, r1, b2, r2, b3, hb1, hb2, hb3, hm⟩ |
          ⟨b1, r1, b2, r2, b3, r3, hb1, hb2, hb3, push, pr, hp, hm⟩
        · rw [hm] at he
          simp only [List.mem_append] at he
          have hno : e.isGit "push" = false := by
            rcases he with (he | he) | he
            · exact hsetup e he
            · exact hclone e he
            · exact hfetch _ _ _ _ hb1 e he
          rw [hno] at hpush
          exact absurd hpush (by simp)
        · rw [hm] at he
          simp only [List.mem_append] at he
          have hno : e.isGit "push" = false := by
            rcases he with ((he | he) | he) | he
            · exact hsetup e he
            · exact hclone e he
            · exact hfetch _ _ _ _ hb1 e he
            · exact hfetch _ _ _ _ hb2 e he
          rw [hno] at hpush
          exact absurd hpush (by simp)
        · rw [hm] at he
          simp only [List.mem_append] at he
          have hno : e.isGit "push" = false := by
            rcases he with (((he | he) | he) | he) | he
            · exact hsetup e he
            · exact hclone e he
            · exact hfetch _ _ _ _ hb1 e he
            · exact hfetch _ _ _ _ hb2 e he
            · exact hfetch _ _ _ _ hb3 e he
          rw [hno] at hpush
          exact absurd hpush (by simp)
        have hpre : ∀ e ∈ create :: ps ++ clone ++ b1 ++ b2 ++ b3 ++ push,
            e.isGit "push" = true →
            ∃ dir v, e = Event.cmdRun
              ⟨["git", "push", "--set-upstream", "origin", "master"], dir, v⟩ := by
          intro e he hg
          simp only [List.mem_append] at he
          rcases he with ((((he | he) | he) | he) | he) | he
          · rw [hsetup e he] at hg
            exact absurd hg (by simp)
          · rw [hclone e he] at hg
            exact absurd hg (by simp)
          · rw [hfetch _ _ _ _ hb1 e he] at hg
            exact absurd hg (by simp)
          · rw [hfetch _ _ _ _ hb2 e he] at hg
            exact absurd hg (by simp)
          · rw [hfetch _ _ _ _ hb3 e he] at hg
            exact absurd hg (by simp)
          · exact hpushes _ _ _ hp e he hg
        rcases pr with _ | msg
        · simp only at hm
          obtain ⟨qs, hqs, hm⟩ := hm
          rw [hm] at he
          rcases List.mem_append.1 he with he | he
          · rcases List.mem_append.1 he with he | he
            · exact hpre e he hpush
            · unfold cleanupEcho at he
              split at he
              · simp only [List.mem_singleton] at he
                subst he
                simp [Event.isGit] at hpush
              · simp at he
          · rcases List.mem_cons.1 he with he | he
            · subst he
              simp [Event.isGit] at hpush
            · rcases hqs e he with h1 | h1
              · rw [isGit_of_isPrint _ e h1] at hpush
                exact absurd hpush (by simp)
              · subst h1
                simp [Event.isGit, rmdirCmd] at hpush
        · simp only at hm
          rw [hm] at he
          exact hpre e he hpush
      · simp only at hm
        rw [hm] at he
        rcases List.mem_append.1 he with he | he
        · rw [hsetup e he] at hpush
          exact absurd hpush (by simp)
        · rw [hclone e he] at hpush
          exact absurd hpush (by simp)
    · obtain ⟨s, t, hm⟩ := main_early_return env fl w hv
      rw [hm] at he
      simp only [List.mem_singleton] at he
      subst he
      simp [Event.isGit] at hpush

/-- C4 at a sample input: `git commit` reports a clean tree, so nothing is
pushed. -/
theorem pushAll_pushes_unless_nothing_to_commit_witness :
    (worldClean ([] ++ [Event.cmdRun (addCmd sampleFlags "/scratch")])).err = none ∧
    (pushAll sampleFlags worldClean "/scratch" "master" []).2 = Outcome.ok () ∧
    (pushAll sampleFlags worldClean "/scratch" "master" []).1.countP (Event.isGit "push") = 0 :=
  ⟨by decide,
    ((pushAll_pushes_unless_nothing_to_commit.1 sampleFlags worldClean "/scratch" "master" []
      (by decide)).1 (by decide))⟩

/-- C5 as stated fails: `git commit` returns an error, yet `pushAll` returns
normally, because the output of the commit contains `nothing to commit`. -/
theorem pushAll_commit_error_returns_normally :
    (worldClean [Event.cmdRun (addCmd sampleFlags "/scratch"),
      Event.cmdCombinedOutput (commitCmd "/scratch")]).err = some "exit status 1" ∧
    pushAll sampleFlags worldClean "/scratch" "master" [] =
      ([Event.cmdRun (addCmd sampleFlags "/scratch"),
        Event.cmdCombinedOutput (commitCmd "/scratch")], Outcome.ok ()) := by
  decide

/-- C5, amended. A git failure is fatal unless it is a commit whose output
contains `nothing to commit`: `gitClone` panics when its three attempts fail,
and `pushAll` panics when `git add` fails, when `git commit` fails with an
output that lacks `nothing to commit`, and when `git push` fails; when the
output of the commit contains `nothing to commit`, `pushAll` returns normally
whether or not the commit returned an error. -/
theorem git_failure_fatal_unless_nothing_to_commit :
    (∀ (fl : Flags) (w : World) (tmpDir repoDir : String) (h : List Event),
      (∀ j < 3, (w (h ++ List.replicate (j + 1)
        (Event.cmdRun (cloneCmd fl tmpDir)))).err ≠ none) →
      (gitClone fl w tmpDir repoDir h).2 = Outcome.panic "could not clone the repo") ∧
    (∀ (fl : Flags) (w : World) (repoDir branch : String) (h : List Event),
      let add := Event.cmdRun (addCmd fl repoDir)
      let commit := Event.cmdCombinedOutput (commitCmd repoDir)
      let push := Event.cmdRun (pushCmd fl repoDir branch)
      let a := w (h ++ [add])
      let c := w (h ++ [add, commit])
      let p := w (h ++ [add, commit] ++ commitEcho fl c ++ [push])
      let r := pushAll fl w repoDir branch h
      (a.err ≠ none → r.2 = Outcome.panic "could not add into git") ∧
      (a.err = none → stringsContains c.bytes (toBytes "nothing to commit") = false →
        c.err ≠ none → r.2 = Outcome.panic "could not read git commit output") ∧
      (a.err = none → stringsContains c.bytes (toBytes "nothing to commit") = false →
        c.err = none → p.err ≠ none → r.2 = Outcome.panic "could not push") ∧
      (a.err = none → stringsContains c.bytes (toBytes "nothing to commit") = true →
        r.2 = Outcome.ok ())) := by
  constructor
  · intro fl w tmpDir repoDir h hfail
    rcases gitCloneLoop_cases fl w tmpDir 2 0 h rfl with ⟨k, hk, _, hsucc, _⟩ | ⟨_, t, hp⟩
    · exact absurd hsucc (hfail k (by omega))
    · show (gitCloneLoop fl w tmpDir 0 h).2 = _
      rw [hp]
  · intro fl w repoDir branch h add commit push a c p r
    have hr : r = pushAll fl w repoDir branch h := rfl
    rcases pushAll_cases fl w repoDir branch h with
      ⟨ha, t, hp⟩ | ⟨ha, hc, ps, _, hp⟩ | ⟨ha, hc, hce, t, hp⟩ | ⟨ha, hc, hce, hpe, t, hp⟩ |
        ⟨ha, hc, hce, hpe, hp⟩
    · rw [← hr] at hp
      refine ⟨fun _ => by rw [hp], fun h1 => absurd h1 ha, fun h1 => absurd h1 ha,
        fun h1 => absurd h1 ha⟩
    · rw [← hr] at hp
      have hc' : stringsContains c.bytes (toBytes "nothing to commit") = true := hc
      refine ⟨fun h1 => absurd ha h1, fun _ h2 => ?_, fun _ h2 => ?_, fun _ _ => by rw [hp]⟩
      · rw [hc'] at h2
        exact absurd h2 (by simp)
      · rw [hc'] at h2
        exact absurd h2 (by simp)
    · rw [← hr] at hp
      have hc' : stringsContains c.bytes (toBytes "nothing to commit") = false := hc
      refine ⟨fun h1 => absurd ha h1, fun _ _ _ => by rw [hp], fun _ _ h3 => absurd h3 hce,
        fun _ h2 => ?_⟩
      rw [hc'] at h2
      exact absurd h2 (by simp)
    · rw [← hr] at hp
      have hc' : stringsContains c.bytes (toBytes "nothing to commit") = false := hc
      refine ⟨fun h1 => absurd ha h1, fun _ _ h3 => absurd hce h3, fun _ _ _ _ => by rw [hp],
        fun _ h2 => ?_⟩
      rw [hc'] at h2
      exact absurd h2 (by simp)
    · rw [← hr] at hp
      have hc' : stringsContains c.bytes (toBytes "nothing to commit") = false := hc
      refine ⟨fun h1 => absurd ha h1, fun _ _ h3 => absurd hce h3, fun _ _ _ h4 => absurd hpe h4,
        fun _ h2 => ?_⟩
      rw [hc'] at h2
      exact absurd h2 (by simp)

/-- C5, amended, at a sample input: every subprocess fails, so `git add`
fails and `pushAll` panics. -/
theorem git_failure_fatal_unless_nothing_to_commit_witness :
    (worldGitDown ([] ++ [Event.cmdRun (addCmd sampleFlags "/scratch")])).err ≠ none ∧
    (pushAll sampleFlags worldGitDown "/scratch" "master" []).2 =
      Outcome.panic "could not add into git" :=
  ⟨by decide,
    (git_failure_fatal_unless_nothing_to_commit.2 sampleFlags worldGitDown "/scratch" "master"
      []).1 (by decide)⟩

/-- When the three clone attempts of `main` fail, the run is the scratch
directory set-up, the three attempts and the error line, and ends in a
panic. -/
theorem main_clone_exhausted (env : Env) (fl : Flags) (w : World) (setup : List Event)
    (d : String) (hv : fl.valid) (hs : scratchDir env fl w [] = (setup, Outcome.ok d))
    (hfail : ∀ j < 3, (w (setup ++ List.replicate (j + 1)
      (Event.cmdRun (cloneCmd (fl.withDir d) d)))).err ≠ none) :
    ∃ t, main env fl w [] =
      (setup ++ (List.replicate 3 (Event.cmdRun (cloneCmd (fl.withDir d) d)) ++
        [Event.print Stream.slogError t]), Outcome.panic "could not clone the repo") := by
  obtain ⟨setup', d', hs', clone, cr, hc, hm⟩ := main_run env fl w hv
  rw [hs] at hs'
  obtain ⟨rfl, rfl⟩ : setup = setup' ∧ d = d' := by
    simpa using hs'
  rcases gitCloneLoop_cases (fl.withDir d) w d 2 0 setup rfl with
    ⟨k, hk, _, hsucc, _⟩ | ⟨_, t, hp⟩
  · exact absurd hsucc (hfail k (by omega))
  · have hc2 : gitClone (fl.withDir d) w d fl.fGitRepo setup = _ := hp
    rw [hc2] at hc
    obtain ⟨rfl, rfl⟩ : _ = clone ∧ _ = cr := by
      simpa using hc
    exact ⟨t, hm⟩

/-- C6 as stated fails: the scratch directory is created, the three clone
attempts fail, `main` panics, and `os.RemoveAll` is never called. -/
theorem main_clone_panic_skips_removeAll :
    (worldGitDown [Event.tempDir "" "ExtraHopBackup"]).err = none ∧
    Event.tempDir "" "ExtraHopBackup" ∈ (main sampleEnv sampleFlags worldGitDown []).1 ∧
    (main sampleEnv sampleFlags worldGitDown []).2 = Outcome.panic "could not clone the repo" ∧
    (main sampleEnv sampleFlags worldGitDown []).1.countP Event.isRemoveAll = 0 := by
  obtain ⟨t, ht⟩ := main_clone_exhausted sampleEnv sampleFlags worldGitDown
    [Event.tempDir "" "ExtraHopBackup"] "/tmp/ExtraHopBackup123" (by decide) rfl (by decide)
  rw [ht]
  refine ⟨by decide, by simp, rfl, ?_⟩
  simp [Event.isRemoveAll]

/-- C6, amended. In every run of `main` that gets past the early returns the
scratch directory is set up, and: when the run ends normally, `os.RemoveAll`
is called exactly once, on the scratch directory, whatever the set-up of the
scratch directory and the endpoint fetches returned; when the three clone
attempts fail, the run ends in the panic of `gitClone` and `os.RemoveAll` is
not called. -/
theorem main_removeAll_once_on_return (env : Env) (fl : Flags) (w : World)
    (hv : fl.valid) :
    ∃ setup d, scratchDir env fl w [] = (setup, Outcome.ok d) ∧
      ((main env fl w []).2 = Outcome.ok () →
        (main env fl w []).1.countP Event.isRemoveAll = 1 ∧
        (main env fl w []).1.count (Event.removeAll d) = 1) ∧
      ((∀ j < 3, (w (setup ++ List.replicate (j + 1)
          (Event.cmdRun (cloneCmd (fl.withDir d) d)))).err ≠ none) →
        (main env fl w []).2 = Outcome.panic "could not clone the repo" ∧
        (main env fl w []).1.countP Event.isRemoveAll = 0) := by
  obtain ⟨setup, d, hs, clone, cr, hc, hm⟩ := main_run env fl w hv
  refine ⟨setup, d, hs, ?_⟩
  obtain ⟨create, ps, d2, hcreate, hps, hs2⟩ := scratchDir_cases env fl w []
  rw [hs] at hs2
  obtain ⟨rfl, -⟩ : setup = create :: ps ∧ d = d2 := by
    simpa using hs2
  have hsetup : (create :: ps).countP Event.isRemoveAll = 0 := by
    rw [List.countP_eq_zero]
    intro e he
    rcases List.mem_cons.1 he with he | he
    · rcases hcreate with hc' | hc' <;> · subst he; subst hc'; simp [Event.isRemoveAll]
    · simp [isRemoveAll_of_isPrint e (hps e he)]
  have hclone : clone.countP Event.isRemoveAll = 0 := by
    rw [List.countP_eq_zero]
    intro e he
    have hev := gitClone_events (fl.withDir d) w d fl.fGitRepo (create :: ps)
    rw [hc] at hev
    rcases hev e he with hp' | hp'
    · simp [isRemoveAll_of_isPrint e hp']
    · subst hp'
      simp [Event.isRemoveAll]
  have hfetch : ∀ (ep : String) (h : List Event) (b : List Event) (r : Option String),
      backupEHEndpoint env (fl.withDir d) w ep ⟨checkRedirect⟩ h = (b, Outcome.ok r) →
      b.countP Event.isRemoveAll = 0 := by
    intro ep h b r hb
    rw [List.countP_eq_zero]
    intro e he
    obtain ⟨rest, r', hb', hrest⟩ := backupEHEndpoint_events env (fl.withDir d) w ep
      ⟨checkRedirect⟩ h
    rw [hb] at hb'
    obtain ⟨rfl, -⟩ : b = _ ∧ Outcome.ok r = r' := by
      simpa using hb'
    rcases List.mem_cons.1 he with he | he
    · subst he
      simp [Event.isRemoveAll]
    · simp [isRemoveAll_of_isFetchRest e (hrest e he)]
  have hpushes : ∀ (h : List Event) (p : List Event) (r : Outcome Unit),
      pushAll (fl.withDir d) w d "master" h = (p, r) → p.countP Event.isRemoveAll = 0 := by
    intro h p r hp
    rw [List.countP_eq_zero]
    intro e he
    obtain ⟨rest, r', hp', hrest⟩ := pushAll_events (fl.withDir d) w d "master" h
    rw [hp] at hp'
    obtain ⟨rfl, -⟩ : p = _ ∧ r = r' := by
      simpa using hp'
    rcases List.mem_cons.1 he with he | he
    · subst he
      simp [Event.isRemoveAll]
    · rcases hrest e he with h1 | h1 | h1
      · simp [isRemoveAll_of_isPrint e h1]
      · subst h1
        simp [Event.isRemoveAll]
      · subst h1
        simp [Event.isRemoveAll]
  rcases cr with _ | msg
  · have hnofail : ¬ ∀ j < 3, (w (create :: ps ++ List.replicate (j + 1)
        (Event.cmdRun (cloneCmd (fl.withDir d) d)))).err ≠ none := by
      intro hfail
      rcases gitCloneLoop_cases (fl.withDir d) w d 2 0 (create :: ps) rfl with
        ⟨k, hk, _, hsucc, _⟩ | ⟨_, t, hr⟩
      · exact hfail k (by omega) hsucc
      · have hc2 : gitClone (fl.withDir d) w d fl.fGitRepo (create :: ps) = _ := hr
        rw [hc] at hc2
        simp at hc2
    simp only at hm
    rcases hm with ⟨b1, hb1, hm⟩ | ⟨b1, r1, b2, hb1, hb2, hm⟩ |
      ⟨b1, r1, b2, r2, b3, hb1, hb2, hb3, hm⟩ |
      ⟨b1, r1, b2, r2, b3, r3, hb1, hb2, hb3, push, pr, hp, hm⟩
    · rw [hm]
      exact ⟨fun hok => by simp at hok, fun hfail => absurd hfail hnofail⟩
    · rw [hm]
      exact ⟨fun hok => by simp at hok, fun hfail => absurd hfail hnofail⟩
    · rw [hm]
      exact ⟨fun hok => by simp at hok, fun hfail => absurd hfail hnofail⟩
    have hpre : (create :: ps ++ clone ++ b1 ++ b2 ++ b3 ++ push).countP Event.isRemoveAll = 0 := by
      simp only [List.countP_append, hsetup, hclone, hfetch _ _ _ _ hb1, hfetch _ _ _ _ hb2,
        hfetch _ _ _ _ hb3, hpushes _ _ _ hp]
    rcases pr with _ | msg
    · simp only at hm
      obtain ⟨qs, hqs, hm⟩ := hm
      have hq : qs.countP Event.isRemoveAll = 0 := by
        rw [List.countP_eq_zero]
        intro e he
        rcases hqs e he with h1 | h1
        · simp [isRemoveAll_of_isPrint e h1]
        · subst h1
          simp [Event.isRemoveAll]
      have hecho : (cleanupEcho (fl.withDir d)).countP Event.isRemoveAll = 0 := by
        unfold cleanupEcho
        split <;> simp [Event.isRemoveAll]
      have hone : (create :: ps ++ clone ++ b1 ++ b2 ++ b3 ++ push ++
          cleanupEcho (fl.withDir d) ++ Event.removeAll d :: qs).countP Event.isRemoveAll = 1 := by
        rw [List.countP_append, List.countP_append, hpre, hecho, List.countP_cons, hq]
        simp [Event.isRemoveAll]
      rw [hm]
      refine ⟨fun _ => ⟨hone, ?_⟩, fun hfail => absurd hfail hnofail⟩
      show List.count (Event.removeAll d) (create :: ps ++ clone ++ b1 ++ b2 ++ b3 ++ push ++
          cleanupEcho (fl.withDir d) ++ Event.removeAll d :: qs) = 1
      apply Nat.le_antisymm
      · have hle : (create :: ps ++ clone ++ b1 ++ b2 ++ b3 ++ push ++
            cleanupEcho (fl.withDir d) ++ Event.removeAll d :: qs).count (Event.removeAll d) ≤
            (create :: ps ++ clone ++ b1 ++ b2 ++ b3 ++ push ++
            cleanupEcho (fl.withDir d) ++ Event.removeAll d :: qs).countP Event.isRemoveAll := by
          apply List.countP_mono_left
          intro x _ hx
          have hx' : x = Event.removeAll d := by simpa using hx
          subst hx'
          rfl
        omega
      · apply List.count_pos_iff.2
        simp
    · simp only at hm
      rw [hm]
      exact ⟨fun hok => by simp at hok, fun hfail => absurd hfail hnofail⟩
  · simp only at hm
    rw [hm]
    refine ⟨fun hok => by simp at hok, fun _ => ⟨?_, ?_⟩⟩
    · rcases gitCloneLoop_cases (fl.withDir d) w d 2 0 (create :: ps) rfl with
        ⟨k, _, _, _, hr⟩ | ⟨_, t, hr⟩
      · have hc2 : gitClone (fl.withDir d) w d fl.fGitRepo (create :: ps) = _ := hr
        rw [hc] at hc2
        simp at hc2
      · have hc2 : gitClone (fl.withDir d) w d fl.fGitRepo (create :: ps) = _ := hr
        rw [hc] at hc2
        simp only [Prod.mk.injEq, Outcome.panic.injEq] at hc2
        show Outcome.panic msg = _
        rw [hc2.2]
    · show List.countP Event.isRemoveAll (create :: ps ++ clone) = 0
      rw [List.countP_append, hsetup, hclone]

/-- Where building the request never fails, `backupEHEndpoint` returns. -/
theorem backupEHEndpoint_returns (env : Env) (fl : Flags) (w : World) (endpoint : String)
    (client : Client) (h : List Event)
    (hnr : ∀ (h : List Event) (m u : String), (w (h ++ [Event.newRequest m u])).err = none) :
    ∀ es, backupEHEndpoint env fl w endpoint client h ≠ (es, Outcome.panic nilDereference) := by
  intro es hb
  rcases backupEHEndpoint_cases env fl w endpoint client h with
    ⟨b, e, _, hr⟩ | ⟨b, _, hr⟩ | ⟨hr2, _⟩
  · rw [hb] at hr
    simp at hr
  · rw [hb] at hr
    simp at hr
  · rcases invokeEHAPI_cases env fl w endpoint client h with
      ⟨e, _, hr⟩ | ⟨_, _, e, _, hr⟩ | ⟨_, _, _, e, _, hr⟩ | ⟨_, _, _, _, hr⟩ | ⟨_, hn, _⟩
    · rw [hr] at hr2
      simp at hr2
    · rw [hr] at hr2
      simp at hr2
    · rw [hr] at hr2
      simp at hr2
    · rw [hr] at hr2
      simp at hr2
    · apply hn
      have h2 := hnr (h ++ [Event.urlParse (fl.fEHHost ++ "/api/v1/" ++ endpoint)]) "GET"
        (w (h ++ [Event.urlParse (fl.fEHHost ++ "/api/v1/" ++ endpoint)])).str
      simpa using h2

/-- Where every subprocess succeeds, the commit command reports no error and
building a request never fails, the run of `main` ends normally, whatever
the endpoint fetches return. -/
theorem main_returns (env : Env) (fl : Flags) (w : World) (hv : fl.valid)
    (hrun : ∀ (h : List Event) (c : Cmd), (w (h ++ [Event.cmdRun c])).err = none)
    (hcommit : ∀ (h : List Event) (c : Cmd), (w (h ++ [Event.cmdCombinedOutput c])).err = none)
    (hnr : ∀ (h : List Event) (m u : String), (w (h ++ [Event.newRequest m u])).err = none) :
    (main env fl w []).2 = Outcome.ok () := by
  obtain ⟨setup, d, hs, clone, cr, hc, hm⟩ := main_run env fl w hv
  rcases cr with _ | msg
  swap
  · exfalso
    rcases gitCloneLoop_cases (fl.withDir d) w d 2 0 setup rfl with
      ⟨k, _, _, _, hr⟩ | ⟨hfail, _⟩
    · have hc2 : gitClone (fl.withDir d) w d fl.fGitRepo setup = _ := hr
      rw [hc] at hc2
      simp at hc2
    · exact hfail 0 (by omega) (by simpa using hrun setup (cloneCmd (fl.withDir d) d))
  simp only at hm
  rcases hm with ⟨b1, hb1, hm⟩ | ⟨b1, r1, b2, hb1, hb2, hm⟩ |
    ⟨b1, r1, b2, r2, b3, hb1, hb2, hb3, hm⟩ |
    ⟨b1, r1, b2, r2, b3, r3, hb1, hb2, hb3, push, pr, hp, hm⟩
  · exact absurd hb1 (backupEHEndpoint_returns _ _ _ _ _ _ hnr _)
  · exact absurd hb2 (backupEHEndpoint_returns _ _ _ _ _ _ hnr _)
  · exact absurd hb3 (backupEHEndpoint_returns _ _ _ _ _ _ hnr _)
  rcases pushAll_cases (fl.withDir d) w d "master" (setup ++ clone ++ b1 ++ b2 ++ b3) with
    ⟨ha, _⟩ | ⟨_, _, ps, _, hr⟩ | ⟨_, _, hce, _⟩ | ⟨_, _, _, hpe, _⟩ | ⟨_, _, _, _, hr⟩
  · exact absurd (hrun _ _) ha
  · have h2 : pr = Outcome.ok () := congrArg Prod.snd (hp.symm.trans hr)
    subst h2
    obtain ⟨qs, -, hm⟩ := hm
    rw [hm]
  · exfalso
    apply hce
    have h2 := hcommit (setup ++ clone ++ b1 ++ b2 ++ b3 ++
      [Event.cmdRun (addCmd (fl.withDir d) d)]) (commitCmd d)
    simpa using h2
  · exfalso
    apply hpe
    have h2 := hrun (setup ++ clone ++ b1 ++ b2 ++ b3 ++
      [Event.cmdRun (addCmd (fl.withDir d) d), Event.cmdCombinedOutput (commitCmd d)] ++
      commitEcho (fl.withDir d) (w (setup ++ clone ++ b1 ++ b2 ++ b3 ++
        [Event.cmdRun (addCmd (fl.withDir d) d), Event.cmdCombinedOutput (commitCmd d)])))
      (pushCmd (fl.withDir d) d "master")
    simpa using h2
  · have h2 : pr = Outcome.ok () := congrArg Prod.snd (hp.symm.trans hr)
    subst h2
    obtain ⟨qs, -, hm⟩ := hm
    rw [hm]

/-- The run of `main` in the world where every request fails ends normally. -/
theorem main_fetchDown_ok : (main sampleEnv sampleFlags worldFetchDown []).2 = Outcome.ok () :=
  main_returns sampleEnv sampleFlags worldFetchDown (by decide)
    (fun h c => by simp [worldFetchDown]) (fun h c => by simp [worldFetchDown])
    (fun h m u => by simp [worldFetchDown])

/-- C6, amended, at a sample input: every request fails, the run ends normally
all the same and calls `os.RemoveAll` once. -/
theorem main_removeAll_once_on_return_witness :
    sampleFlags.valid ∧ (main sampleEnv sampleFlags worldFetchDown []).2 = Outcome.ok () ∧
    (main sampleEnv sampleFlags worldFetchDown []).1.countP Event.isRemoveAll = 1 := by
  obtain ⟨setup, d, -, hret, -⟩ :=
    main_removeAll_once_on_return sampleEnv sampleFlags worldFetchDown (by decide)
  exact ⟨by decide, main_fetchDown_ok, (hret main_fetchDown_ok).1⟩

/-- Where building a request never fails: after a successful clone, whatever
the world answers to each endpoint fetch, the run of `main` parses the URLs of
`runningconfig`, `triggers` and `auditlog?limit=999999&offset=0` exactly once
each, in that order, and then starts `pushAll` with `git add`: among the URL
parses and `git add` commands of the run there are exactly these four, in
this order. -/
theorem main_endpoints_in_order (env : Env) (fl : Flags) (w : World)
    (setup clone : List Event) (d : String) (hv : fl.valid)
    (hnr : ∀ (h : List Event) (m u : String), (w (h ++ [Event.newRequest m u])).err = none)
    (hs : scratchDir env fl w [] = (setup, Outcome.ok d))
    (hc : gitClone (fl.withDir d) w d fl.fGitRepo setup = (clone, Outcome.ok ())) :
    (main env fl w []).1.filter (fun e => e.isUrlParse || e.isGit "add") =
      [Event.urlParse (fl.fEHHost ++ "/api/v1/" ++ "runningconfig"),
        Event.urlParse (fl.fEHHost ++ "/api/v1/" ++ "triggers"),
        Event.urlParse (fl.fEHHost ++ "/api/v1/" ++ "auditlog?limit=999999&offset=0"),
        Event.cmdRun ⟨["git", "add", "."], d, fl.fVerbose⟩] := by
  obtain ⟨setup', d', hs', clone', cr, hc', hm⟩ := main_run env fl w hv
  rw [hs] at hs'
  obtain ⟨rfl, rfl⟩ : setup = setup' ∧ d = d' := by
    simpa using hs'
  rw [hc] at hc'
  obtain ⟨rfl, rfl⟩ : clone = clone' ∧ Outcome.ok () = cr := by
    simpa using hc'
  obtain ⟨create, ps, d2, hcreate, hps, hs2⟩ := scratchDir_cases env fl w []
  rw [hs] at hs2
  obtain ⟨rfl, -⟩ : setup = create :: ps ∧ d = d2 := by
    simpa using hs2
  have hnil : ∀ l : List Event, (∀ e ∈ l, (e.isUrlParse || e.isGit "add") = false) →
      l.filter (fun e => e.isUrlParse || e.isGit "add") = [] := by
    intro l hl
    rw [List.filter_eq_nil_iff]
    intro e he
    simp [hl e he]
  have hprint : ∀ e : Event, e.isPrint = true → (e.isUrlParse || e.isGit "add") = false := by
    intro e he
    simp [isUrlParse_of_isPrint e he, isGit_of_isPrint "add" e he]
  have hsetup : (create :: ps).filter (fun e => e.isUrlParse || e.isGit "add") = [] := by
    apply hnil
    intro e he
    rcases List.mem_cons.1 he with he | he
    · rcases hcreate with hc' | hc' <;> · subst he; subst hc'; rfl
    · exact hprint e (hps e he)
  have hclone : clone.filter (fun e => e.isUrlParse || e.isGit "add") = [] := by
    apply hnil
    intro e he
    have hev := gitClone_events (fl.withDir d) w d fl.fGitRepo (create :: ps)
    rw [hc] at hev
    rcases hev e he with hp' | hp'
    · exact hprint e hp'
    · subst hp'
      simp [Event.isGit, Event.isUrlParse, cloneCmd]
  have hfetch : ∀ (ep : String) (h : List Event) (b : List Event) (r : Option String),
      backupEHEndpoint env (fl.withDir d) w ep ⟨checkRedirect⟩ h = (b, Outcome.ok r) →
      b.filter (fun e => e.isUrlParse || e.isGit "add") =
        [Event.urlParse (fl.fEHHost ++ "/api/v1/" ++ ep)] := by
    intro ep h b r hb
    obtain ⟨rest, r', hb', hrest⟩ := backupEHEndpoint_events env (fl.withDir d) w ep
      ⟨checkRedirect⟩ h
    rw [hb] at hb'
    obtain ⟨rfl, -⟩ : b = _ ∧ Outcome.ok r = r' := by
      simpa using hb'
    have hr : rest.filter (fun e => e.isUrlParse || e.isGit "add") = [] := by
      apply hnil
      intro e he
      simp [isUrlParse_of_isFetchRest e (hrest e he), isGit_of_isFetchRest "add" e (hrest e he)]
    rw [List.filter_cons, hr]
    simp [Event.isUrlParse, Flags.withDir]
  have hpushes : ∀ (h : List Event) (p : List Event) (r : Outcome Unit),
      pushAll (fl.withDir d) w d "master" h = (p, r) →
      p.filter (fun e => e.isUrlParse || e.isGit "add") =
        [Event.cmdRun ⟨["git", "add", "."], d, fl.fVerbose⟩] := by
    intro h p r hp
    obtain ⟨rest, r', hp', hrest⟩ := pushAll_events (fl.withDir d) w d "master" h
    rw [hp] at hp'
    obtain ⟨rfl, -⟩ : p = _ ∧ r = r' := by
      simpa using hp'
    have hr : rest.filter (fun e => e.isUrlParse || e.isGit "add") = [] := by
      apply hnil
      intro e he
      rcases hrest e he with h1 | h1 | h1
      · exact hprint e h1
      · subst h1
        simp [Event.isGit, Event.isUrlParse, commitCmd]
      · subst h1
        simp [Event.isGit, Event.isUrlParse, pushCmd]
    rw [List.filter_cons, hr]
    simp [Event.isUrlParse, Event.isGit, addCmd, Flags.withDir]
  simp only at hm
  rcases hm with ⟨b1, hb1, hm⟩ | ⟨b1, r1, b2, hb1, hb2, hm⟩ |
    ⟨b1, r1, b2, r2, b3, hb1, hb2, hb3, hm⟩ |
    ⟨b1, r1, b2, r2, b3, r3, hb1, hb2, hb3, push, pr, hp, hm⟩
  · exact absurd hb1 (backupEHEndpoint_returns _ _ _ _ _ _ hnr _)
  · exact absurd hb2 (backupEHEndpoint_returns _ _ _ _ _ _ hnr _)
  · exact absurd hb3 (backupEHEndpoint_returns _ _ _ _ _ _ hnr _)
  have hpre : (create :: ps ++ clone ++ b1 ++ b2 ++ b3 ++ push).filter
      (fun e => e.isUrlParse || e.isGit "add") =
      [Event.urlParse (fl.fEHHost ++ "/api/v1/" ++ "runningconfig"),
        Event.urlParse (fl.fEHHost ++ "/api/v1/" ++ "triggers"),
        Event.urlParse (fl.fEHHost ++ "/api/v1/" ++ "auditlog?limit=999999&offset=0"),
        Event.cmdRun ⟨["git", "add", "."], d, fl.fVerbose⟩] := by
    simp only [List.filter_append, hsetup, hclone, hfetch _ _ _ _ hb1, hfetch _ _ _ _ hb2,
      hfetch _ _ _ _ hb3, hpushes _ _ _ hp]
    rfl
  rcases pr with _ | msg
  · simp only at hm
    obtain ⟨qs, hqs, hm⟩ := hm
    have hq : (Event.removeAll d :: qs).filter (fun e => e.isUrlParse || e.isGit "add") = [] := by
      apply hnil
      intro e he
      rcases List.mem_cons.1 he with he | he
      · subst he
        rfl
      · rcases hqs e he with h1 | h1
        · exact hprint e h1
        · subst h1
          simp [Event.isGit, Event.isUrlParse, rmdirCmd]
    have hecho : (cleanupEcho (fl.withDir d)).filter
        (fun e => e.isUrlParse || e.isGit "add") = [] := by
      unfold cleanupEcho
      split <;> simp [Event.isUrlParse, Event.isGit]
    rw [hm]
    show List.filter _ (create :: ps ++ clone ++ b1 ++ b2 ++ b3 ++ push ++
      cleanupEcho (fl.withDir d) ++ Event.removeAll d :: qs) = _
    rw [List.filter_append, List.filter_append, hpre, hecho, hq]
    rfl
  · simp only at hm
    rw [hm]
    exact hpre

/-- In the world of the host `%2F/a^` the first clone attempt succeeds. -/
theorem gitClone_badHost (fl : Flags) (tmpDir repoDir : String) (h : List Event) :
    gitClone fl worldBadHost tmpDir repoDir h =
      ([Event.cmdRun (cloneCmd fl tmpDir)], Outcome.ok ()) := by
  unfold gitClone
  rw [gitCloneLoop]
  simp [worldBadHost]

/-- C8 fails on the code at the host `%2F/a^`. The scratch directory is set up
and the clone succeeds; `url.Parse` accepts the URL of `runningconfig`,
`http.NewRequest` rejects its rendering, and `invokeEHAPI` dereferences the nil
request. The run of `main` ends there in a panic: of the three endpoints only
`runningconfig` is attempted, and `pushAll` is not reached. -/
theorem main_newRequest_failure_stops_run :
    sampleFlagsBadHost.valid ∧
    gitClone (sampleFlagsBadHost.withDir "/tmp/ExtraHopBackup123") worldBadHost
        "/tmp/ExtraHopBackup123" sampleFlagsBadHost.fGitRepo
        [Event.tempDir "" "ExtraHopBackup"] =
      ([Event.cmdRun (cloneCmd (sampleFlagsBadHost.withDir "/tmp/ExtraHopBackup123")
        "/tmp/ExtraHopBackup123")], Outcome.ok ()) ∧
    main sampleEnv sampleFlagsBadHost worldBadHost [] =
      ([Event.tempDir "" "ExtraHopBackup",
        Event.cmdRun (cloneCmd (sampleFlagsBadHost.withDir "/tmp/ExtraHopBackup123")
          "/tmp/ExtraHopBackup123"),
        Event.urlParse "%2F/a^/api/v1/runningconfig",
        Event.newRequest "GET" "//a%5E/api/v1/runningconfig"],
        Outcome.panic nilDereference) ∧
    (main sampleEnv sampleFlagsBadHost worldBadHost []).1.filter
        (fun e => e.isUrlParse || e.isGit "add") =
      [Event.urlParse "%2F/a^/api/v1/runningconfig"] := by
  have hb : backupEHEndpoint sampleEnv (sampleFlagsBadHost.withDir "/tmp/ExtraHopBackup123")
      worldBadHost "runningconfig" ⟨checkRedirect⟩
      ([Event.tempDir "" "ExtraHopBackup"] ++
        [Event.cmdRun (cloneCmd (sampleFlagsBadHost.withDir "/tmp/ExtraHopBackup123")
          "/tmp/ExtraHopBackup123")]) =
      ([Event.urlParse "%2F/a^/api/v1/runningconfig",
        Event.newRequest "GET" "//a%5E/api/v1/runningconfig"],
        Outcome.panic nilDereference) := by
    decide
  have hmain : main sampleEnv sampleFlagsBadHost worldBadHost [] =
      ([Event.tempDir "" "ExtraHopBackup",
        Event.cmdRun (cloneCmd (sampleFlagsBadHost.withDir "/tmp/ExtraHopBackup123")
          "/tmp/ExtraHopBackup123"),
        Event.urlParse "%2F/a^/api/v1/runningconfig",
        Event.newRequest "GET" "//a%5E/api/v1/runningconfig"],
        Outcome.panic nilDereference) := by
    obtain ⟨setup, d, hs, clone, cr, hc, hm⟩ :=
      main_run sampleEnv sampleFlagsBadHost worldBadHost (by decide)
    have hs2 : scratchDir sampleEnv sampleFlagsBadHost worldBadHost [] =
        ([Event.tempDir "" "ExtraHopBackup"], Outcome.ok "/tmp/ExtraHopBackup123") := by
      decide
    rw [hs2] at hs
    obtain ⟨rfl, rfl⟩ : [Event.tempDir "" "ExtraHopBackup"] = setup ∧
        "/tmp/ExtraHopBackup123" = d := by
      simpa using hs
    rw [gitClone_badHost] at hc
    obtain ⟨rfl, rfl⟩ : _ = clone ∧ _ = cr := by
      simpa using hc
    simp only at hm
    rcases hm with ⟨b1, hb1, hm⟩ | ⟨b1, r1, b2, hb1, hb2, hm⟩ |
      ⟨b1, r1, b2, r2, b3, hb1, hb2, hb3, hm⟩ |
      ⟨b1, r1, b2, r2, b3, r3, hb1, hb2, hb3, push, pr, hp, hm⟩
    · rw [hb] at hb1
      obtain ⟨rfl, -⟩ : _ = b1 ∧ True := by
        simpa using hb1
      rw [hm]
      rfl
    · rw [hb] at hb1
      simp at hb1
    · rw [hb] at hb1
      simp at hb1
    · rw [hb] at hb1
      simp at hb1
  refine ⟨by decide, gitClone_badHost _ _ _ _, hmain, ?_⟩
  rw [hmain]
  decide

/-- C9. Each failure inside `invokeEHAPI` (URL parse, request, body read,
body that `json.Indent` rejects) makes it return that error, and whenever
`invokeEHAPI` returns an error `backupEHEndpoint` returns the same error
having done nothing more: its run is the run of `invokeEHAPI`, which writes no
file and changes no file in any other way. The one run in which
`invokeEHAPI` returns nothing is the panic after a failed `http.NewRequest`;
`backupEHEndpoint` then panics with it, again without touching a file. -/
theorem backupEHEndpoint_error_writes_nothing (env : Env) (fl : Flags) (w : World)
    (endpoint : String) (client : Client) (h : List Event) :
    let parse := Event.urlParse (fl.fEHHost ++ "/api/v1/" ++ endpoint)
    let u := w (h ++ [parse])
    let mk := Event.newRequest "GET" u.str
    let nr := w (h ++ [parse, mk])
    let req := newEHRequest fl u.str
    let res := w (h ++ [parse, mk] ++ requestEcho fl req ++ [Event.clientDo req])
    let body := w (h ++ [parse, mk] ++ requestEcho fl req ++ [Event.clientDo req, Event.readAll])
    let i := invokeEHAPI env fl w endpoint client h
    let r := backupEHEndpoint env fl w endpoint client h
    (∀ e, u.err = some e → i.2 = Outcome.ok ([], some e)) ∧
    (∀ e, u.err = none → nr.err = none → res.err = some e →
      i.2 = Outcome.ok ([], some e)) ∧
    (∀ e, u.err = none → nr.err = none → res.err = none → body.err = some e →
      i.2 = Outcome.ok ([], some e)) ∧
    (∀ e, u.err = none → nr.err = none → res.err = none → body.err = none →
      (jsonIndent env.maxNestingDepth [] body.bytes [] [9]).2 = some e →
      i.2 = Outcome.ok ([], some e)) ∧
    (∀ b e, i.2 = Outcome.ok (b, some e) →
      r = (i.1, Outcome.ok (some e)) ∧ ∀ ev ∈ r.1, ev.touchesFiles = false) ∧
    (u.err = none → nr.err ≠ none →
      i.2 = Outcome.panic nilDereference ∧ r = (i.1, Outcome.panic nilDereference) ∧
        ∀ ev ∈ r.1, ev.touchesFiles = false) := by
  intro parse u mk nr req res body i r
  have hi : i = invokeEHAPI env fl w endpoint client h := rfl
  have hecho : ∀ ev ∈ requestEcho fl req, ev.touchesFiles = false := by
    intro ev hev
    unfold requestEcho at hev
    split at hev
    · simp only [List.mem_singleton] at hev
      subst hev
      rfl
    · simp at hev
  have hcases := invokeEHAPI_cases env fl w endpoint client h
  have htouch : ∀ ev ∈ i.1, ev.touchesFiles = false := by
    intro ev hev
    rcases hcases with
      ⟨e, _, hr⟩ | ⟨_, _, e, _, hr⟩ | ⟨_, _, _, e, _, hr⟩ | ⟨_, _, _, _, hr⟩ | ⟨_, _, hr⟩
    all_goals
      rw [← hi] at hr
      rw [hr] at hev
      simp only [List.mem_append, List.mem_cons, List.mem_singleton, List.not_mem_nil,
        or_false] at hev
    · subst hev
      rfl
    · rcases hev with ((hev | hev) | hev) | hev
      · subst hev
        rfl
      · subst hev
        rfl
      · exact hecho ev hev
      · subst hev
        rfl
    · rcases hev with ((hev | hev) | hev) | hev | hev | hev
      · subst hev
        rfl
      · subst hev
        rfl
      · exact hecho ev hev
      · subst hev
        rfl
      · subst hev
        rfl
      · subst hev
        rfl
    · rcases hev with ((hev | hev) | hev) | hev | hev | hev
      · subst hev
        rfl
      · subst hev
        rfl
      · exact hecho ev hev
      · subst hev
        rfl
      · subst hev
        rfl
      · subst hev
        rfl
    · rcases hev with hev | hev
      · subst hev
        rfl
      · subst hev
        rfl
  have hlast : ∀ b e, i.2 = Outcome.ok (b, some e) →
      r = (i.1, Outcome.ok (some e)) ∧ ∀ ev ∈ r.1, ev.touchesFiles = false := by
    intro b e hbe
    rcases backupEHEndpoint_cases env fl w endpoint client h with
      ⟨b', e', h1, hr⟩ | ⟨b', h1, _⟩ | ⟨h1, _⟩
    · rw [← hi] at h1 hr
      rw [hbe] at h1
      obtain ⟨-, rfl⟩ : b = b' ∧ e = e' := by
        simpa using h1
      have hr' : r = (i.1, Outcome.ok (some e)) := hr
      refine ⟨hr', ?_⟩
      rw [hr']
      exact htouch
    · rw [← hi] at h1
      rw [hbe] at h1
      simp at h1
    · rw [← hi] at h1
      rw [hbe] at h1
      simp at h1
  have hpanic : i.2 = Outcome.panic nilDereference →
      i.2 = Outcome.panic nilDereference ∧ r = (i.1, Outcome.panic nilDereference) ∧
        ∀ ev ∈ r.1, ev.touchesFiles = false := by
    intro hp
    rcases backupEHEndpoint_cases env fl w endpoint client h with
      ⟨b', e', h1, _⟩ | ⟨b', h1, _⟩ | ⟨_, hr⟩
    · rw [← hi] at h1
      rw [hp] at h1
      simp at h1
    · rw [← hi] at h1
      rw [hp] at h1
      simp at h1
    · rw [← hi] at hr
      have hr' : r = (i.1, Outcome.panic nilDereference) := hr
      refine ⟨hp, hr', ?_⟩
      rw [hr']
      exact htouch
  rcases hcases with ⟨e, hu, hr⟩ | ⟨hu, hn, e, hres, hr⟩ | ⟨hu, hn, hres, e, hb, hr⟩ |
    ⟨hu, hn, hres, hb, hr⟩ | ⟨hu, hn, hr⟩
  · rw [← hi] at hr
    have hu' : u.err = some e := hu
    refine ⟨fun e' he' => ?_, fun e' he' => ?_, fun e' he' => ?_, fun e' he' => ?_, hlast,
      fun he' => ?_⟩
    · rw [hu'] at he'
      cases he'
      rw [hr]
    · rw [hu'] at he'
      cases he'
    · rw [hu'] at he'
      cases he'
    · rw [hu'] at he'
      cases he'
    · rw [hu'] at he'
      cases he'
  · rw [← hi] at hr
    have hu' : u.err = none := hu
    have hn' : nr.err = none := hn
    have hres' : res.err = some e := hres
    refine ⟨fun e' he' => ?_, fun e' _ _ he' => ?_, fun e' _ _ he' => ?_,
      fun e' _ _ he' => ?_, hlast, fun _ he' => absurd hn' he'⟩
    · rw [hu'] at he'
      cases he'
    · rw [hres'] at he'
      cases he'
      rw [hr]
    · rw [hres'] at he'
      cases he'
    · rw [hres'] at he'
      cases he'
  · rw [← hi] at hr
    have hu' : u.err = none := hu
    have hn' : nr.err = none := hn
    have hres' : res.err = none := hres
    have hb' : body.err = some e := hb
    refine ⟨fun e' he' => ?_, fun e' _ _ he' => ?_, fun e' _ _ _ he' => ?_,
      fun e' _ _ _ he' => ?_, hlast, fun _ he' => absurd hn' he'⟩
    · rw [hu'] at he'
      cases he'
    · rw [hres'] at he'
      cases he'
    · rw [hb'] at he'
      cases he'
      rw [hr]
    · rw [hb'] at he'
      cases he'
  · rw [← hi] at hr
    have hu' : u.err = none := hu
    have hn' : nr.err = none := hn
    have hres' : res.err = none := hres
    have hb' : body.err = none := hb
    refine ⟨fun e' he' => ?_, fun e' _ _ he' => ?_, fun e' _ _ _ he' => ?_,
      fun e' _ _ _ _ he' => ?_, hlast, fun _ he' => absurd hn' he'⟩
    · rw [hu'] at he'
      cases he'
    · rw [hres'] at he'
      cases he'
    · rw [hb'] at he'
      cases he'
    · rw [hr]
      have hj : jsonIndent env.maxNestingDepth [] body.bytes [] [9] = ([], some e') := by
        have h1 : (jsonIndent env.maxNestingDepth [] body.bytes [] [9]).1 = [] := by
          unfold jsonIndent at he' ⊢
          simp only [] at he' ⊢
          split
          · rfl
          · rename_i hne
            rw [if_neg hne] at he'
            cases he'
        exact Prod.ext h1 he'
      show Outcome.ok (jsonIndent env.maxNestingDepth [] body.bytes [] [9]) = _
      rw [hj]
  · rw [← hi] at hr
    have hu' : u.err = none := hu
    have hn' : nr.err ≠ none := hn
    have hp : i.2 = Outcome.panic nilDereference := by rw [hr]
    refine ⟨fun e' he' => ?_, fun e' _ he' => absurd he' hn', fun e' _ he' => absurd he' hn',
      fun e' _ he' => absurd he' hn', hlast, fun _ _ => hpanic hp⟩
    rw [hu'] at he'
    cases he'

/-- C9 at a sample input: the response body is empty, which `json.Indent`
rejects, so `backupEHEndpoint` returns the error and its run is the run of
`invokeEHAPI`. -/
theorem backupEHEndpoint_error_writes_nothing_witness :
    (invokeEHAPI sampleEnv sampleFlags worldGitDown "triggers" ⟨checkRedirect⟩ []).2 =
      Outcome.ok ([], some "json: syntax error") ∧
    backupEHEndpoint sampleEnv sampleFlags worldGitDown "triggers" ⟨checkRedirect⟩ [] =
      ((invokeEHAPI sampleEnv sampleFlags worldGitDown "triggers" ⟨checkRedirect⟩ []).1,
        Outcome.ok (some "json: syntax error")) :=
  ⟨by decide,
    ((backupEHEndpoint_error_writes_nothing sampleEnv sampleFlags worldGitDown "triggers"
      ⟨checkRedirect⟩ []).2.2.2.2.1 [] "json: syntax error" (by decide)).1⟩

/-- C10. The redirect policy of the client, on a redirected request `req` with
a non-empty history `via`, returns no error and replaces the headers of `req`
by those of `via[0]`, whatever the URL of `req` and however long `via`; with
the request of `invokeEHAPI` as `via[0]`, the redirected request carries the
`Authorization` header with the API key. -/
theorem checkRedirect_replays_original_headers (fl : Flags) (url : String) (req : Request)
    (via : List Request) (hvia : via ≠ []) :
    checkRedirect req via = Outcome.ok ({ req with header := (via.head hvia).header }, none) ∧
    (via.head hvia = newEHRequest fl url →
      ∃ r, checkRedirect req via = Outcome.ok (r, none) ∧ r.url = req.url ∧
        r.method = req.method ∧
        r.header.get "Authorization" = "ExtraHop apikey=" ++ fl.fEHAPIKey) := by
  rcases via with _ | ⟨v0, rest⟩
  · exact absurd rfl hvia
  · refine ⟨rfl, fun hv => ⟨_, rfl, rfl, rfl, ?_⟩⟩
    simp only [List.head_cons] at hv
    subst hv
    simp [newEHRequest, Header.set, Header.get]

/-- C10 at a sample input: a redirect to another host after two requests. -/
theorem checkRedirect_replays_original_headers_witness :
    [newEHRequest sampleFlags "https://eh.example.com/api/v1/triggers",
      ⟨"GET", "https://eh.example.com/login", []⟩] ≠ [] ∧
    checkRedirect ⟨"GET", "https://other.example.org/", []⟩
      [newEHRequest sampleFlags "https://eh.example.com/api/v1/triggers",
        ⟨"GET", "https://eh.example.com/login", []⟩] =
      Outcome.ok (⟨"GET", "https://other.example.org/",
        (newEHRequest sampleFlags "https://eh.example.com/api/v1/triggers").header⟩, none) :=
  ⟨by simp,
    (checkRedirect_replays_original_headers sampleFlags "https://eh.example.com/api/v1/triggers"
      ⟨"GET", "https://other.example.org/", []⟩
      [newEHRequest sampleFlags "https://eh.example.com/api/v1/triggers",
        ⟨"GET", "https://eh.example.com/login", []⟩] (by simp)).1⟩

/-- Inside the copy loop of `path.Clean`, an element without a slash is
appended as it is. -/
theorem cleanLoop_copy (rooted : Bool) (n : List Char) (st : CleanState)
    (hn : '/' ∉ n) :
    cleanLoop rooted n CleanMode.copy st = { st with out := n.reverse ++ st.out } := by
  induction n generalizing st with
  | nil => simp [cleanLoop]
  | cons c cs ih =>
    have hc : c ≠ '/' := fun h => hn (by simp [h])
    have hcs : '/' ∉ cs := fun h => hn (by simp [h])
    simp [cleanLoop, hc, ih _ hcs]

/-- The loop of `path.Clean` at the start of a path element. -/
theorem cleanLoop_scan (rooted : Bool) (c : Char) (rest : List Char) (st : CleanState) :
    cleanLoop rooted (c :: rest) CleanMode.scan st =
      if c = '/' then cleanLoop rooted rest CleanMode.scan st
      else if c = '.' ∧ (rest = [] ∨ rest.head? = some '/') then
        cleanLoop rooted rest CleanMode.scan st
      else if c = '.' ∧ rest.head? = some '.' ∧
          (rest.tail = [] ∨ rest.tail.head? = some '/') then
        cleanLoop rooted rest CleanMode.dot2 (cleanDotDot rooted st)
      else cleanLoop rooted rest CleanMode.copy (cleanElem rooted st c) := by
  rw [cleanLoop]

/-- The loop of `path.Clean` reads a path up to a slash as it reads the path
alone: a slash and the end of the path look the same to it. -/
theorem cleanLoop_append_slash (rooted : Bool) (t : List Char) :
    ∀ (l : List Char) (m : CleanMode) (st : CleanState),
    cleanLoop rooted (l ++ '/' :: t) m st =
      cleanLoop rooted t CleanMode.scan (cleanLoop rooted l m st) := by
  intro l
  induction l with
  | nil =>
    intro m st
    cases m <;> simp [cleanLoop]
  | cons c cs ih =>
    intro m st
    cases m with
    | dot2 => simp [cleanLoop, ih]
    | copy =>
      by_cases hc : c = '/'
      · simp [cleanLoop, hc, ih]
      · simp [cleanLoop, hc, ih]
    | scan =>
      have h1 := ih CleanMode.scan st
      have h2 := ih CleanMode.dot2 (cleanDotDot rooted st)
      have h3 := ih CleanMode.copy (cleanElem rooted st c)
      rw [List.cons_append, cleanLoop_scan, cleanLoop_scan]
      by_cases hc : c = '/'
      · simp [hc, h1]
      · rcases cs with _ | ⟨d, ds⟩
        · by_cases hd : c = '.'
          · simp [hc, hd, cleanLoop]
          · simp only [List.nil_append] at h3
            simp [hc, hd, h3]
        · rcases ds with _ | ⟨e, es⟩
          · simp only [List.cons_append, List.nil_append] at h1 h2 h3
            clear ih
            by_cases hd : c = '.' <;> by_cases hd1 : d = '/' <;> by_cases hd2 : d = '.' <;>
              simp_all
          · simp only [List.cons_append] at h1 h2 h3
            clear ih
            by_cases hd : c = '.' <;> by_cases hd1 : d = '/' <;> by_cases hd2 : d = '.' <;>
              by_cases he : e = '/' <;> simp_all

/-- The loop of `path.Clean` on a last path element that has no slash and at
least three bytes: the element is appended after a slash. -/
theorem cleanLoop_name (rooted : Bool) (n : List Char) (st : CleanState)
    (hn : '/' ∉ n) (hlen : 3 ≤ n.length)
    (hsep : ((rooted && st.out.length != 1) || (!rooted && st.out.length != 0)) = true) :
    (cleanLoop rooted n CleanMode.scan st).out = n.reverse ++ '/' :: st.out := by
  rcases n with _ | ⟨a, _ | ⟨b, _ | ⟨c, cs⟩⟩⟩
  · simp at hlen
  · simp at hlen
  · simp at hlen
  · have ha : a ≠ '/' := fun h => hn (by simp [h])
    have hb : b ≠ '/' := fun h => hn (by simp [h])
    have hc : c ≠ '/' := fun h => hn (by simp [h])
    have hrest : '/' ∉ b :: c :: cs := fun h => hn (List.mem_cons_of_mem _ h)
    rw [cleanLoop_scan]
    simp only [ha, if_false, List.head?_cons, List.tail_cons, Option.some.injEq, hb, hc,
      false_or, or_false, and_false, reduceCtorEq]
    rw [cleanLoop_copy _ _ _ hrest]
    simp [cleanElem, hsep]

/-- The function `path.Clean` leaves `g/name` as it is when `g` is a cleaned path other
than `.` and `/` and `name` has no slash and at least three bytes. -/
theorem cleanChars_append_name (g n : List Char) (hg : cleanChars g = g)
    (hdot : g ≠ ['.']) (hroot : g ≠ ['/']) (hn : '/' ∉ n) (hlen : 3 ≤ n.length) :
    cleanChars (g ++ '/' :: n) = g ++ '/' :: n := by
  rcases g with _ | ⟨c, g'⟩
  · simp [cleanChars] at hg
  · by_cases hc : c = '/'
    · subst hc
      simp only [cleanChars, List.cons_append, decide_True, if_true, List.tail_cons] at hg ⊢
      rw [cleanLoop_append_slash]
      by_cases h0 : (cleanLoop true g' CleanMode.scan ⟨['/'], 1⟩).out.length = 0
      · rw [if_pos h0] at hg
        exact absurd hg.symm hdot
      · rw [if_neg h0] at hg
        have hout : (cleanLoop true g' CleanMode.scan ⟨['/'], 1⟩).out = ('/' :: g').reverse := by
          have := congrArg List.reverse hg
          simpa using this
        have hg' : g' ≠ [] := fun h => hroot (by rw [h])
        have hsep : ((true && (cleanLoop true g' CleanMode.scan ⟨['/'], 1⟩).out.length != 1) ||
            (!true && (cleanLoop true g' CleanMode.scan ⟨['/'], 1⟩).out.length != 0)) = true := by
          rw [hout]
          rcases g' with _ | ⟨x, xs⟩
          · exact absurd rfl hg'
          · simp
        have hname := cleanLoop_name true n _ hn hlen hsep
        rw [hname, hout]
        simp
    · simp only [cleanChars, List.cons_append, hc, decide_False, if_false] at hg ⊢
      have happ := cleanLoop_append_slash false n (c :: g') CleanMode.scan ⟨[], 0⟩
      simp only [List.cons_append] at happ
      simp only [Bool.false_eq_true, if_false] at hg ⊢
      rw [happ]
      by_cases h0 : (cleanLoop false (c :: g') CleanMode.scan ⟨[], 0⟩).out.length = 0
      · rw [if_pos h0] at hg
        exact absurd hg.symm hdot
      · rw [if_neg h0] at hg
        have hout : (cleanLoop false (c :: g') CleanMode.scan ⟨[], 0⟩).out = (c :: g').reverse := by
          have := congrArg List.reverse hg
          simpa using this
        have hsep : ((false && (cleanLoop false (c :: g') CleanMode.scan ⟨[], 0⟩).out.length != 1) ||
            (!false && (cleanLoop false (c :: g') CleanMode.scan ⟨[], 0⟩).out.length != 0)) = true := by
          simpa using h0
        have hname := cleanLoop_name false n _ hn hlen hsep
        rw [hname, hout]
        simp

/-- The call `path.Join(g, name)` is `g/name` when `g` is a cleaned path other than `.`
and `/` and `name` has no slash and at least three bytes. -/
theorem pathJoin_scratch_name (g name : String) (hg : pathClean g = g) (hdot : g ≠ ".")
    (hroot : g ≠ "/") (hn : '/' ∉ name.toList) (hlen : 3 ≤ name.length) :
    pathJoin [g, name] = g ++ "/" ++ name := by
  have hgl : cleanChars g.toList = g.toList := by
    have := congrArg String.toList hg
    simpa [pathClean] using this
  have hne : g ≠ "" := by
    intro h
    rw [h] at hg
    exact absurd hg (by decide)
  have hgne : g.toList ≠ [] := by
    intro h
    apply hne
    apply String.ext
    simpa using h
  have hdot' : g.toList ≠ ['.'] := by
    intro h
    apply hdot
    apply String.ext
    simpa using h
  have hroot' : g.toList ≠ ['/'] := by
    intro h
    apply hroot
    apply String.ext
    simpa using h
  have hlen' : 3 ≤ name.toList.length := by
    simpa using hlen
  have hsum : ¬ (([g, name].map String.length).sum = 0) := by
    simp only [List.map_cons, List.map_nil, List.sum_cons, List.sum_nil]
    omega
  have hpos : 0 < g.toList.length := List.length_pos.2 hgne
  have hpos' : 0 < g.length := by
    simpa using hpos
  have hbuf : joinBuf [] [g, name] = g.toList ++ '/' :: name.toList := by
    simp [joinBuf, hne, hpos']
  unfold pathJoin
  rw [if_neg hsum, hbuf]
  unfold pathClean
  apply String.ext
  simp only [String.toList, String.data_append]
  have h := cleanChars_append_name g.toList name.toList hgl hdot' hroot' hn hlen'
  simp only [String.toList] at h
  rw [h]
  simp

/-- The part of an endpoint before its first `?` has no `?`, and the endpoint
is that part alone or that part followed by a `?`. -/
theorem beforeQuery_spec (endpoint : String) :
    '?' ∉ (beforeQuery endpoint).toList ∧
    ∃ rest, endpoint.toList = (beforeQuery endpoint).toList ++ rest ∧
      (rest = [] ∨ rest.head? = some '?') := by
  unfold beforeQuery
  simp only [String.toList]
  constructor
  · intro h
    have := List.mem_takeWhile_imp h
    simp at this
  · refine ⟨endpoint.data.dropWhile (fun c => c != '?'), (List.takeWhile_append_dropWhile _ _).symm,
      ?_⟩
    rcases hd : endpoint.data.dropWhile (fun c => c != '?') with _ | ⟨x, xs⟩
    · exact Or.inl rfl
    · right
      have := List.head_dropWhile_not (fun c => c != '?') endpoint.data (by rw [hd]; simp)
      simp only [hd, List.head_cons] at this
      simp at this
      simp [this]

/-- C2 fails on the code at the endpoint `../x`: the part before `?` is `../x`,
`path.Join` cleans the joined path, and the one file written is `/tmp/x.json`,
which is neither `<scratch>/<p>.json` nor inside the scratch directory
`/tmp/ExtraHopBackup123`. -/
theorem backupEHEndpoint_file_outside_scratch :
    beforeQuery "../x" = "../x" ∧
    (backupEHEndpoint sampleEnv (sampleFlags.withDir "/tmp/ExtraHopBackup123") worldUp "../x"
        ⟨checkRedirect⟩ []).1.filter Event.isWriteFile =
      [Event.writeFile "/tmp/x.json" (toBytes "[\n\t1,\n\t2\n]") 0o755] ∧
    "/tmp/x.json" ≠ "/tmp/ExtraHopBackup123" ++ "/" ++ beforeQuery "../x" ++ ".json" ∧
    "/tmp/ExtraHopBackup123/".toList.isPrefixOf "/tmp/x.json".toList = false := by
  decide

/-- The file of an endpoint. When `invokeEHAPI` returns a body,
`backupEHEndpoint` ends by writing that body to
`path.Join(*fGitDir, p + ".json")`, where `p` is the part of the endpoint
before its first `?` (all of it when it has none); `p` has no `?`. When `p`
has no slash and the scratch directory is a cleaned path other than `.` and
`/`, that file is `<scratch>/<p>.json`; for the endpoint
`auditlog?limit=999999&offset=0` it is `<scratch>/auditlog.json`. -/
theorem backupEHEndpoint_file_name :
    (∀ (env : Env) (fl : Flags) (w : World) (endpoint : String) (client : Client)
      (h : List Event) (b : Bytes),
      (invokeEHAPI env fl w endpoint client h).2 = Outcome.ok (b, none) →
      (backupEHEndpoint env fl w endpoint client h).1 =
        (invokeEHAPI env fl w endpoint client h).1 ++ writeEcho fl endpoint ++
          [Event.writeFile (pathJoin [fl.fGitDir, beforeQuery endpoint ++ ".json"]) b 0o755]) ∧
    (∀ endpoint : String, '?' ∉ (beforeQuery endpoint).toList ∧
      ∃ rest, endpoint.toList = (beforeQuery endpoint).toList ++ rest ∧
        (rest = [] ∨ rest.head? = some '?')) ∧
    (∀ g endpoint : String, pathClean g = g → g ≠ "." → g ≠ "/" →
      '/' ∉ (beforeQuery endpoint).toList →
      pathJoin [g, beforeQuery endpoint ++ ".json"] =
        g ++ "/" ++ (beforeQuery endpoint ++ ".json")) ∧
    (beforeQuery "auditlog?limit=999999&offset=0" = "auditlog" ∧
      ∀ g : String, pathClean g = g → g ≠ "." → g ≠ "/" →
        pathJoin [g, beforeQuery "auditlog?limit=999999&offset=0" ++ ".json"] =
          g ++ "/" ++ "auditlog.json") := by
  have hjoin : ∀ g endpoint : String, pathClean g = g → g ≠ "." → g ≠ "/" →
      '/' ∉ (beforeQuery endpoint).toList →
      pathJoin [g, beforeQuery endpoint ++ ".json"] =
        g ++ "/" ++ (beforeQuery endpoint ++ ".json") := by
    intro g endpoint hg hdot hroot hp
    apply pathJoin_scratch_name g _ hg hdot hroot
    · simp only [String.toList, String.data_append, List.mem_append]
      rintro (h | h)
      · exact hp h
      · revert h
        decide
    · simp only [String.length_append]
      have : (".json" : String).length = 5 := by decide
      omega
  refine ⟨?_, beforeQuery_spec, hjoin, by decide, ?_⟩
  · intro env fl w endpoint client h b hb
    rcases backupEHEndpoint_cases env fl w endpoint client h with
      ⟨b', e, h1, _⟩ | ⟨b', h1, hr⟩ | ⟨h1, _⟩
    · rw [hb] at h1
      simp at h1
    · rw [hb] at h1
      obtain ⟨rfl, -⟩ : b = b' ∧ True := by
        simpa using h1
      rw [hr]
      rfl
    · rw [hb] at h1
      simp at h1
  · intro g hg hdot hroot
    have h := hjoin g "auditlog?limit=999999&offset=0" hg hdot hroot (by decide)
    rw [h]
    have : beforeQuery "auditlog?limit=999999&offset=0" ++ ".json" = "auditlog.json" := by
      decide
    rw [this]

/-! ## `json.Indent` applied to its own output -/

/-- The bytes `isSpace` accepts. -/
theorem isSpace_iff (c : Nat) : isSpace c = true ↔ c = 32 ∨ c = 9 ∨ c = 13 ∨ c = 10 := by
  unfold isSpace
  constructor
  · intro h
    simp only [Bool.and_eq_true, Bool.or_eq_true, decide_eq_true_eq] at h
    exact h.2.elim (fun h => h.elim (fun h => h.elim Or.inl (fun h => Or.inr (Or.inl h)))
      (fun h => Or.inr (Or.inr (Or.inl h)))) (fun h => Or.inr (Or.inr (Or.inr h)))
  · rintro (h | h | h | h) <;> subst h <;> decide

/-- A stable scanner skips a space and stays as it is. -/
theorem doStep_stable_space (lim : Option Nat) (s : Scanner) (c : Nat)
    (hs : s.stable = true) (hc : isSpace c = true) :
    s.doStep lim c = (s, ScanCode.scanSkipSpace) := by
  obtain ⟨step, ps, err, endTop⟩ := s
  cases step <;>
    simp [Scanner.stable, Step.isBegin] at hs <;>
    simp [Scanner.doStep, stateBeginValueOrEmpty, stateBeginValue, stateBeginStringOrEmpty,
      stateBeginString, hc]
  rcases ps with _ | ⟨p, ps⟩
  · simp at hs
  · simp [stateEndValue, hc]

/-- Every branch of `stateEndValue` sets the step function, so the result
does not depend on the one the scanner held. -/
theorem stateEndValue_step (s : Scanner) (k : Step) (c : Nat) :
    stateEndValue { s with step := k } c = stateEndValue s c := by
  obtain ⟨step, ps, err, endTop⟩ := s
  rcases ps with _ | ⟨p, ps⟩
  · simp [stateEndValue, stateEndTop, Scanner.error]
  · cases p <;> simp [stateEndValue, popParseState, Scanner.error]

/-- Inside an object or array, `stateEndValue` accepts only a space, a colon,
a comma and the closing brackets. -/
theorem stateEndValue_accepts (s : Scanner) (c : Nat) (hps : s.parseState ≠ [])
    (hv : (stateEndValue s c).2 ≠ ScanCode.scanError) :
    isSpace c = true ∨ c = 58 ∨ c = 44 ∨ c = 125 ∨ c = 93 := by
  obtain ⟨step, ps, err, endTop⟩ := s
  rcases ps with _ | ⟨p, ps⟩
  · exact absurd rfl hps
  · by_cases hc : isSpace c = true
    · exact Or.inl hc
    · right
      cases p <;> simp [stateEndValue, hc, Scanner.error] at hv
      · by_cases h : c = 58
        · exact Or.inl h
        · simp [h] at hv
      · by_cases h : c = 44
        · exact Or.inr (Or.inl h)
        · by_cases h2 : c = 125
          · exact Or.inr (Or.inr (Or.inl h2))
          · simp [h, h2] at hv
      · by_cases h : c = 44
        · exact Or.inr (Or.inl h)
        · by_cases h2 : c = 93
          · exact Or.inr (Or.inr (Or.inr h2))
          · simp [h, h2] at hv

/-- In a number that may be complete, a byte that `stateEndValue` accepts is
handed to `stateEndValue`. -/
theorem doStep_num (lim : Option Nat) (s : Scanner) (c : Nat) (hn : s.step.isNum = true)
    (hc : isSpace c = true ∨ c = 58 ∨ c = 44 ∨ c = 125 ∨ c = 93) :
    s.doStep lim c = stateEndValue s c := by
  obtain ⟨step, ps, err, endTop⟩ := s
  rw [isSpace_iff] at hc
  cases step <;> simp [Step.isNum] at hn <;>
    rcases hc with (h | h | h | h) | h | h | h | h <;> subst h <;>
    simp [Scanner.doStep, state1, state0, stateDot0, stateE0, isDigit]

/-- A step that moves to a state other than `stateError` with a code that is
no error, no closing bracket and no skip. -/
theorem stepOK_move (k0 : Step) (ps0 : List ParseState) (err e0 : Bool) (c : Nat) (k : Step)
    (ps : List ParseState) (e : Bool)
    (code : ScanCode) (hk : k ≠ Step.stateError) (h1 : code ≠ ScanCode.scanError)
    (h2 : code ≠ ScanCode.scanEndObject) (h3 : code ≠ ScanCode.scanEndArray)
    (h4 : code ≠ ScanCode.scanSkipSpace) :
    StepOK ⟨k0, ps0, err, e0⟩ c (⟨k, ps, err, e⟩, code) :=
  ⟨fun h => h, fun h => absurd h h1, fun h => absurd h hk, fun h => absurd h h2,
    fun h => absurd h h3, fun h => absurd h h4⟩

/-- A step that records an error. -/
theorem stepOK_error (s : Scanner) (c : Nat) (ps : List ParseState) (e : Bool)
    (code : ScanCode) (h2 : code ≠ ScanCode.scanEndObject) (h3 : code ≠ ScanCode.scanEndArray)
    (h4 : code ≠ ScanCode.scanSkipSpace) :
    StepOK s c (⟨Step.stateError, ps, true, e⟩, code) :=
  ⟨fun _ => rfl, fun _ => rfl, fun _ _ => rfl, fun h => absurd h h2,
    fun h => absurd h h3, fun h => absurd h h4⟩

/-- A step that skips a space. -/
theorem stepOK_skip (k0 : Step) (ps0 : List ParseState) (err e0 : Bool) (c : Nat) (k : Step)
    (ps : List ParseState) (e : Bool)
    (hk : k = Step.stateError → k0 = Step.stateError) (hc : isSpace c = true) :
    StepOK ⟨k0, ps0, err, e0⟩ c (⟨k, ps, err, e⟩, ScanCode.scanSkipSpace) :=
  ⟨fun h => h, fun h => (by cases h), fun h h' => absurd (hk h) h', fun h => (by cases h),
    fun h => (by cases h), fun _ => hc⟩

/-- A step that ends an object or an array on its closing bracket. -/
theorem stepOK_close (s : Scanner) (c : Nat) (s' : Scanner) (code : ScanCode)
    (he : s'.err = s.err) (hk : s'.step ≠ Step.stateError)
    (hc : (code = ScanCode.scanEndObject ∧ c = 125) ∨ (code = ScanCode.scanEndArray ∧ c = 93)) :
    StepOK s c (s', code) := by
  refine ⟨fun h => by rw [he]; exact h, fun h => ?_, fun h => absurd h hk, fun h => ?_,
    fun h => ?_, fun h => ?_⟩
  · rcases hc with ⟨h1, _⟩ | ⟨h1, _⟩ <;> · rw [h1] at h; cases h
  · rcases hc with ⟨_, h2⟩ | ⟨h1, _⟩
    · exact h2
    · rw [h1] at h; cases h
  · rcases hc with ⟨h1, _⟩ | ⟨_, h2⟩
    · rw [h1] at h; cases h
    · exact h2
  · rcases hc with ⟨h1, _⟩ | ⟨h1, _⟩ <;> · rw [h1] at h; cases h

/-- The property of a step passes through a test of the byte. -/
theorem stepOK_ite (s : Scanner) (c : Nat) (p : Prop) [Decidable p] (a b : Scanner × ScanCode)
    (ha : p → StepOK s c a) (hb : ¬ p → StepOK s c b) :
    StepOK s c (if p then a else b) := by
  by_cases h : p
  · rw [if_pos h]
    exact ha h
  · rw [if_neg h]
    exact hb h

/-- Popping the parse stack records no error and does not lead to `stateError`. -/
theorem popParseState_ok (s : Scanner) :
    (popParseState s).err = s.err ∧ (popParseState s).step ≠ Step.stateError := by
  unfold popParseState
  simp only []
  split_ifs <;> exact ⟨rfl, by simp⟩

/-- The property of a step holds of `stateEndValue`. -/
theorem stepOK_stateEndValue (s : Scanner) (c : Nat) :
    StepOK s c (stateEndValue s c) := by
  obtain ⟨step, ps, err, endTop⟩ := s
  rcases ps with _ | ⟨p, ps⟩
  · unfold stateEndValue stateEndTop Scanner.error
    simp only []
    split_ifs
    · refine stepOK_error _ _ _ _ _ ?_ ?_ ?_ <;> decide
    · refine stepOK_move _ _ _ _ _ _ _ _ _ ?_ ?_ ?_ ?_ ?_ <;> decide
  · cases p <;>
    · unfold stateEndValue Scanner.error
      simp only []
      split_ifs
      all_goals first
        | exact stepOK_skip _ _ _ _ _ _ _ _ (by simp) (by assumption)
        | (refine stepOK_error _ _ _ _ _ ?_ ?_ ?_ <;> decide)
        | (refine stepOK_move _ _ _ _ _ _ _ _ _ ?_ ?_ ?_ ?_ ?_ <;> decide)
        | exact stepOK_close _ _ _ _ (popParseState_ok _).1 (popParseState_ok _).2
            (Or.inl ⟨rfl, by assumption⟩)
        | exact stepOK_close _ _ _ _ (popParseState_ok _).1 (popParseState_ok _).2
            (Or.inr ⟨rfl, by assumption⟩)

/-- The property of a step holds of `stateBeginValue`. -/
theorem stepOK_stateBeginValue (lim : Option Nat) (s : Scanner) (c : Nat) :
    StepOK s c (stateBeginValue lim s c) := by
  obtain ⟨step, ps, err, endTop⟩ := s
  unfold stateBeginValue pushParseState Scanner.error
  simp only []
  refine stepOK_ite _ _ _ _ _ (fun h1 => stepOK_skip _ _ _ _ _ _ _ _ (fun h => h) h1) (fun _ => ?_)
  repeat' (refine stepOK_ite _ _ _ _ _ (fun _ => ?_) (fun _ => ?_))
  all_goals first
    | (refine stepOK_error _ _ _ _ _ ?_ ?_ ?_ <;> decide)
    | (refine stepOK_move _ _ _ _ _ _ _ _ _ ?_ ?_ ?_ ?_ ?_ <;> decide)

/-- The property of a step holds of every step of the scanner. -/
theorem stepOK_doStep (lim : Option Nat) (s : Scanner) (c : Nat) :
    StepOK s c (s.doStep lim c) := by
  have h1 := stepOK_stateEndValue s c
  have h2 := stepOK_stateBeginValue lim s c
  have h3 : ∀ p, StepOK s c (stateEndValue { s with parseState := p } c) := by
    intro p
    have := stepOK_stateEndValue { s with parseState := p } c
    exact this
  obtain ⟨step, ps, err, endTop⟩ := s
  simp only [] at h3
  cases step
  case stateError =>
    unfold Scanner.doStep
    exact ⟨fun h => h, fun _ => rfl, fun _ h => absurd rfl h, fun h => (by cases h),
      fun h => (by cases h), fun h => (by cases h)⟩
  case stateBeginValueOrEmpty =>
    unfold Scanner.doStep stateBeginValueOrEmpty
    simp only []
    refine stepOK_ite _ _ _ _ _ (fun h => ?_) (fun _ => stepOK_ite _ _ _ _ _ (fun _ => h1)
      (fun _ => h2))
    exact stepOK_skip _ _ _ _ _ _ _ _ (by simp) h
  case stateBeginValue => exact h2
  case stateBeginStringOrEmpty =>
    unfold Scanner.doStep stateBeginStringOrEmpty stateBeginString Scanner.error
    simp only []
    refine stepOK_ite _ _ _ _ _ (fun h => ?_) (fun _ => ?_)
    · exact stepOK_skip _ _ _ _ _ _ _ _ (by simp) h
    refine stepOK_ite _ _ _ _ _ (fun _ => h3 _) (fun _ => ?_)
    refine stepOK_ite _ _ _ _ _ (fun h => ?_) (fun _ => ?_)
    · exact stepOK_skip _ _ _ _ _ _ _ _ (by simp) h
    refine stepOK_ite _ _ _ _ _ (fun _ => ?_) (fun _ => ?_)
    · refine stepOK_move _ _ _ _ _ _ _ _ _ ?_ ?_ ?_ ?_ ?_ <;> decide
    · refine stepOK_error _ _ _ _ _ ?_ ?_ ?_ <;> decide
  case stateEndValue => exact h1
  case state0 =>
    unfold Scanner.doStep state0
    simp only []
    refine stepOK_ite _ _ _ _ _ (fun _ => ?_) (fun _ => stepOK_ite _ _ _ _ _ (fun _ => ?_)
      (fun _ => h1))
    all_goals refine stepOK_move _ _ _ _ _ _ _ _ _ ?_ ?_ ?_ ?_ ?_ <;> decide
  case state1 =>
    unfold Scanner.doStep state1 state0
    simp only []
    refine stepOK_ite _ _ _ _ _ (fun _ => ?_) (fun _ => stepOK_ite _ _ _ _ _ (fun _ => ?_)
      (fun _ => stepOK_ite _ _ _ _ _ (fun _ => ?_) (fun _ => h1)))
    all_goals refine stepOK_move _ _ _ _ _ _ _ _ _ ?_ ?_ ?_ ?_ ?_ <;> decide
  case stateDot0 =>
    unfold Scanner.doStep stateDot0
    simp only []
    refine stepOK_ite _ _ _ _ _ (fun _ => ?_) (fun _ => stepOK_ite _ _ _ _ _ (fun _ => ?_)
      (fun _ => h1))
    all_goals refine stepOK_move _ _ _ _ _ _ _ _ _ ?_ ?_ ?_ ?_ ?_ <;> decide
  case stateE0 =>
    unfold Scanner.doStep stateE0
    simp only []
    refine stepOK_ite _ _ _ _ _ (fun _ => ?_) (fun _ => h1)
    refine stepOK_move _ _ _ _ _ _ _ _ _ ?_ ?_ ?_ ?_ ?_ <;> decide
  all_goals
    simp only [Scanner.doStep, stateEndTop, stateInString, stateInStringEsc, stateHex,
      stateLit, stateNeg, stateDot, stateE, stateESign, stateBeginString, Scanner.error]
    repeat' (refine stepOK_ite _ _ _ _ _ (fun _ => ?_) (fun _ => ?_))
    all_goals first
      | (refine stepOK_error _ _ _ _ _ ?_ ?_ ?_ <;> decide)
      | (refine stepOK_move _ _ _ _ _ _ _ _ _ ?_ ?_ ?_ ?_ ?_ <;> decide)
      | (refine stepOK_skip _ _ _ _ _ _ _ _ ?_ ?_ <;> first | assumption | simp)

/-- After a comma or a colon that the scanner accepts outside a string, the
scanner waits for a value or a key. -/
theorem doStep_sep_stable (lim : Option Nat) (s : Scanner) (c : Nat) (hc : c = 44 ∨ c = 58)
    (h1 : (s.doStep lim c).2 ≠ ScanCode.scanContinue)
    (h2 : (s.doStep lim c).2 ≠ ScanCode.scanError)
    (herr : (s.doStep lim c).1.err = false) :
    (s.doStep lim c).1.stable = true := by
  obtain ⟨step, ps, err, endTop⟩ := s
  rcases ps with _ | ⟨p, ps⟩
  · rcases hc with rfl | rfl <;> cases step <;>
      simp [Scanner.doStep, stateBeginValueOrEmpty, stateBeginValue, stateBeginStringOrEmpty,
    stateBeginString, stateEndValue, stateEndTop, stateInString, stateInStringEsc, stateHex,
    stateLit, stateNeg, state0, state1, stateDot, stateDot0, stateE, stateESign, stateE0,
    pushParseState, popParseState, Scanner.error, isSpace, isDigit, isDigit19, isHex, Scanner.stable, Step.isBegin]
        at h1 h2 herr ⊢
  · rcases hc with rfl | rfl <;> cases p <;> cases step <;>
      simp [Scanner.doStep, stateBeginValueOrEmpty, stateBeginValue, stateBeginStringOrEmpty,
    stateBeginString, stateEndValue, stateEndTop, stateInString, stateInStringEsc, stateHex,
    stateLit, stateNeg, state0, state1, stateDot, stateDot0, stateE, stateESign, stateE0,
    pushParseState, popParseState, Scanner.error, isSpace, isDigit, isDigit19, isHex, Scanner.stable, Step.isBegin]
        at h1 h2 herr ⊢

/-- A closing bracket that the scanner accepts outside a string comes after a
value or right after the opening bracket. -/
theorem doStep_close_from (lim : Option Nat) (s : Scanner) (c : Nat) (hc : c = 125 ∨ c = 93)
    (h1 : (s.doStep lim c).2 ≠ ScanCode.scanContinue)
    (h2 : (s.doStep lim c).2 ≠ ScanCode.scanError)
    (herr : (s.doStep lim c).1.err = false) :
    s.stable = true ∨ (s.step.isNum = true ∧ s.parseState ≠ []) := by
  obtain ⟨step, ps, err, endTop⟩ := s
  rcases ps with _ | ⟨p, ps⟩
  · rcases hc with rfl | rfl <;> cases step <;>
      simp [Scanner.doStep, stateBeginValueOrEmpty, stateBeginValue, stateBeginStringOrEmpty,
    stateBeginString, stateEndValue, stateEndTop, stateInString, stateInStringEsc, stateHex,
    stateLit, stateNeg, state0, state1, stateDot, stateDot0, stateE, stateESign, stateE0,
    pushParseState, popParseState, Scanner.error, isSpace, isDigit, isDigit19, isHex, Scanner.stable, Step.isBegin, Step.isNum]
        at h1 h2 herr ⊢
  · rcases hc with rfl | rfl <;> cases p <;> cases step <;>
      simp [Scanner.doStep, stateBeginValueOrEmpty, stateBeginValue, stateBeginStringOrEmpty,
    stateBeginString, stateEndValue, stateEndTop, stateInString, stateInStringEsc, stateHex,
    stateLit, stateNeg, state0, state1, stateDot, stateDot0, stateE, stateESign, stateE0,
    pushParseState, popParseState, Scanner.error, isSpace, isDigit, isDigit19, isHex, Scanner.stable, Step.isBegin, Step.isNum]
        at h1 h2 herr ⊢

/-- Right after an opening bracket, a closing bracket that the scanner accepts
ends the object or the array. -/
theorem doStep_close_orEmpty (lim : Option Nat) (s : Scanner) (c : Nat)
    (hc : c = 125 ∨ c = 93) (ho : s.step.isOrEmpty = true)
    (h2 : (s.doStep lim c).2 ≠ ScanCode.scanError)
    (herr : (s.doStep lim c).1.err = false) :
    (s.doStep lim c).2 = ScanCode.scanEndObject ∨ (s.doStep lim c).2 = ScanCode.scanEndArray := by
  obtain ⟨step, ps, err, endTop⟩ := s
  rcases ps with _ | ⟨p, ps⟩
  · rcases hc with rfl | rfl <;> cases step <;>
      simp [Scanner.doStep, stateBeginValueOrEmpty, stateBeginValue, stateBeginStringOrEmpty,
    stateBeginString, stateEndValue, stateEndTop, stateInString, stateInStringEsc, stateHex,
    stateLit, stateNeg, state0, state1, stateDot, stateDot0, stateE, stateESign, stateE0,
    pushParseState, popParseState, Scanner.error, isSpace, isDigit, isDigit19, isHex, Step.isOrEmpty] at ho h2 herr ⊢
  · rcases hc with rfl | rfl <;> cases p <;> cases step <;>
      simp [Scanner.doStep, stateBeginValueOrEmpty, stateBeginValue, stateBeginStringOrEmpty,
    stateBeginString, stateEndValue, stateEndTop, stateInString, stateInStringEsc, stateHex,
    stateLit, stateNeg, state0, state1, stateDot, stateDot0, stateE, stateESign, stateE0,
    pushParseState, popParseState, Scanner.error, isSpace, isDigit, isDigit19, isHex, Step.isOrEmpty] at ho h2 herr ⊢

/-- Right after an opening bracket the scanner accepts no comma and no
colon. -/
theorem doStep_sep_orEmpty (lim : Option Nat) (s : Scanner) (c : Nat)
    (hc : c = 44 ∨ c = 58) (ho : s.step.isOrEmpty = true) :
    (s.doStep lim c).2 = ScanCode.scanError := by
  obtain ⟨step, ps, err, endTop⟩ := s
  rcases hc with rfl | rfl <;> cases step <;>
    simp [Scanner.doStep, stateBeginValueOrEmpty, stateBeginValue, stateBeginStringOrEmpty,
    stateBeginString, stateEndValue, stateEndTop, stateInString, stateInStringEsc, stateHex,
    stateLit, stateNeg, state0, state1, stateDot, stateDot0, stateE, stateESign, stateE0,
    pushParseState, popParseState, Scanner.error, isSpace, isDigit, isDigit19, isHex, Step.isOrEmpty] at ho ⊢

/-- After an opening bracket that the scanner accepts outside a string, the
scanner stands right after an opening bracket. -/
theorem doStep_open_orEmpty (lim : Option Nat) (s : Scanner) (c : Nat) (hc : c = 123 ∨ c = 91)
    (h1 : (s.doStep lim c).2 ≠ ScanCode.scanContinue)
    (h2 : (s.doStep lim c).2 ≠ ScanCode.scanError)
    (herr : (s.doStep lim c).1.err = false) :
    (s.doStep lim c).1.step.isOrEmpty = true := by
  obtain ⟨step, ps, err, endTop⟩ := s
  rcases ps with _ | ⟨p, ps⟩
  · rcases hc with rfl | rfl <;> cases step <;>
      simp [Scanner.doStep, stateBeginValueOrEmpty, stateBeginValue, stateBeginStringOrEmpty,
    stateBeginString, stateEndValue, stateEndTop, stateInString, stateInStringEsc, stateHex,
    stateLit, stateNeg, state0, state1, stateDot, stateDot0, stateE, stateESign, stateE0,
    pushParseState, popParseState, Scanner.error, isSpace, isDigit, isDigit19, isHex, Step.isOrEmpty] at h1 h2 herr ⊢ <;>
      split_ifs at h2 ⊢ <;> simp_all
  · rcases hc with rfl | rfl <;> cases p <;> cases step <;>
      simp [Scanner.doStep, stateBeginValueOrEmpty, stateBeginValue, stateBeginStringOrEmpty,
    stateBeginString, stateEndValue, stateEndTop, stateInString, stateInStringEsc, stateHex,
    stateLit, stateNeg, state0, state1, stateDot, stateDot0, stateE, stateESign, stateE0,
    pushParseState, popParseState, Scanner.error, isSpace, isDigit, isDigit19, isHex, Step.isOrEmpty] at h1 h2 herr ⊢ <;>
      split_ifs at h2 ⊢ <;> simp_all

/-- Not returning `scanContinue` passes through a test. -/
theorem not_continue_ite (p : Prop) [Decidable p] (a b : Scanner × ScanCode)
    (ha : a.2 ≠ ScanCode.scanContinue) (hb : b.2 ≠ ScanCode.scanContinue) :
    (if p then a else b).2 ≠ ScanCode.scanContinue := by
  by_cases h : p
  · rw [if_pos h]
    exact ha
  · rw [if_neg h]
    exact hb

/-- The function `stateEndValue` never returns `scanContinue`. -/
theorem stateEndValue_not_continue (s : Scanner) (c : Nat) :
    (stateEndValue s c).2 ≠ ScanCode.scanContinue := by
  obtain ⟨step, ps, err, endTop⟩ := s
  rcases ps with _ | ⟨p, ps⟩
  · unfold stateEndValue stateEndTop
    simp only []
    split_ifs <;> simp
  · cases p <;>
    · unfold stateEndValue Scanner.error
      simp only []
      split_ifs <;> simp

/-- The function `stateBeginValue` never returns `scanContinue`. -/
theorem stateBeginValue_not_continue (lim : Option Nat) (s : Scanner) (c : Nat) :
    (stateBeginValue lim s c).2 ≠ ScanCode.scanContinue := by
  unfold stateBeginValue pushParseState Scanner.error
  simp only []
  repeat' (refine not_continue_ite _ _ _ ?_ ?_)
  all_goals simp

/-- Right after an opening bracket the scanner never returns `scanContinue`. -/
theorem doStep_orEmpty_not_continue (lim : Option Nat) (s : Scanner) (c : Nat)
    (ho : s.step.isOrEmpty = true) : (s.doStep lim c).2 ≠ ScanCode.scanContinue := by
  have h1 := stateBeginValue_not_continue lim s c
  have h2 := stateEndValue_not_continue s c
  have h3 := stateEndValue_not_continue
    { s with parseState := ParseState.parseObjectValue :: s.parseState.tail } c
  obtain ⟨step, ps, err, endTop⟩ := s
  cases step <;> simp [Step.isOrEmpty] at ho
  · unfold Scanner.doStep stateBeginValueOrEmpty
    simp only []
    exact not_continue_ite _ _ _ (by simp) (not_continue_ite _ _ _ h2 h1)
  · unfold Scanner.doStep stateBeginStringOrEmpty stateBeginString Scanner.error
    simp only []
    refine not_continue_ite _ _ _ (by simp) (not_continue_ite _ _ _ h3 ?_)
    repeat' (refine not_continue_ite _ _ _ ?_ ?_)
    all_goals simp

/-- The bytes `newline` writes with no line lead and a tab as indent. -/
theorem newline_tab (d : Int) : newline [] [9] d = 10 :: List.replicate d.toNat 9 := by
  unfold newline
  congr 1
  induction d.toNat with
  | zero => rfl
  | succ n ih =>
    rw [List.replicate_succ, List.replicate_succ, List.flatten_cons]
    simp only [List.nil_append] at ih ⊢
    rw [ih]
    rfl

/-- The bytes of `newline` are spaces. -/
theorem newline_spaces (d : Int) : ∀ x ∈ newline [] [9] d, isSpace x = true := by
  intro x hx
  rw [newline_tab] at hx
  rcases List.mem_cons.1 hx with h | h
  · subst h
    decide
  · rw [List.eq_of_mem_replicate h]
    decide

/-- The loop of `Indent` on a first byte. -/
theorem indentLoop_cons (lim : Option Nat) (S : IndentState) (c : Nat) (cs : Bytes) :
    indentLoop lim [] [9] S (c :: cs) =
      if (indentByte lim [] [9] S c).2.2 = true then
        ((indentByte lim [] [9] S c).1, (indentByte lim [] [9] S c).2.1)
      else
        ((indentLoop lim [] [9] (indentByte lim [] [9] S c).1 cs).1,
          (indentByte lim [] [9] S c).2.1 ++
            (indentLoop lim [] [9] (indentByte lim [] [9] S c).1 cs).2) := by
  rw [indentLoop]

/-- The loop of `Indent` when the first byte does not leave the loop. -/
theorem indentLoop_step (lim : Option Nat) (S S1 : IndentState) (c : Nat) (cs e : Bytes)
    (h : indentByte lim [] [9] S c = (S1, e, false)) :
    indentLoop lim [] [9] S (c :: cs) =
      ((indentLoop lim [] [9] S1 cs).1, e ++ (indentLoop lim [] [9] S1 cs).2) := by
  rw [indentLoop_cons, h]
  simp

/-- A space met by a stable scanner changes nothing and writes nothing. -/
theorem indentByte_space (lim : Option Nat) (S : IndentState) (x : Nat)
    (hs : S.scan.stable = true) (hx : isSpace x = true) :
    indentByte lim [] [9] S x = (S, [], false) := by
  unfold indentByte
  simp [doStep_stable_space lim S.scan x hs hx]

/-- Spaces met by a stable scanner are passed over. -/
theorem indentLoop_spaces (lim : Option Nat) (S : IndentState) (ws rest : Bytes)
    (hs : S.scan.stable = true) (hws : ∀ x ∈ ws, isSpace x = true) :
    indentLoop lim [] [9] S (ws ++ rest) = indentLoop lim [] [9] S rest := by
  induction ws with
  | nil => rfl
  | cons x xs ih =>
    rw [List.cons_append, indentLoop_step lim S S x _ [] (indentByte_space lim S x hs
      (hws x (by simp)))]
    rw [ih (fun y hy => hws y (by simp [hy]))]
    simp

/-- A lagging run takes the same step on every byte the first run accepts. -/
theorem indentByte_lag (lim : Option Nat) (S T : IndentState) (x : Nat)
    (hl : IndentLag S T) (hx : (S.scan.doStep lim x).2 ≠ ScanCode.scanError) :
    indentByte lim [] [9] T x = indentByte lim [] [9] S x := by
  obtain ⟨h1, h2, h3, h4⟩ := hl
  have hS : S.scan.doStep lim x = stateEndValue S.scan x := by
    unfold Scanner.doStep
    rw [h1]
  rw [hS] at hx
  have hacc := stateEndValue_accepts S.scan x h2 hx
  have hT : T.scan.doStep lim x = stateEndValue S.scan x := by
    rw [doStep_num lim T.scan x h3 hacc, h4]
    exact stateEndValue_step S.scan _ x
  unfold indentByte
  rw [hT, hS, h4]

/-- One iteration of the loop of `Indent`, by the result of the scanner. -/
theorem indentByte_of (lim : Option Nat) (sc0 : Scanner) (ni : Bool) (d : Int) (c : Nat)
    (sc : Scanner) (v : ScanCode) (hr : sc0.doStep lim c = (sc, v)) :
    indentByte lim [] [9] ⟨sc0, ni, d⟩ c =
      if v = ScanCode.scanSkipSpace then (⟨sc, ni, d⟩, [], false)
      else if v = ScanCode.scanError then (⟨sc, ni, d⟩, [], true)
      else if (ni && v != ScanCode.scanEndObject && v != ScanCode.scanEndArray) = true then
        if v = ScanCode.scanContinue then (⟨sc, false, d + 1⟩, newline [] [9] (d + 1) ++ [c], false)
        else if c = 123 ∨ c = 91 then (⟨sc, true, d + 1⟩, newline [] [9] (d + 1) ++ [c], false)
        else if c = 44 then
          (⟨sc, false, d + 1⟩, newline [] [9] (d + 1) ++ c :: newline [] [9] (d + 1), false)
        else if c = 58 then (⟨sc, false, d + 1⟩, newline [] [9] (d + 1) ++ [c, 32], false)
        else if c = 125 ∨ c = 93 then
          (⟨sc, false, d + 1 - 1⟩,
            newline [] [9] (d + 1) ++ (newline [] [9] (d + 1 - 1) ++ [c]), false)
        else (⟨sc, false, d + 1⟩, newline [] [9] (d + 1) ++ [c], false)
      else
        if v = ScanCode.scanContinue then (⟨sc, ni, d⟩, [c], false)
        else if c = 123 ∨ c = 91 then (⟨sc, true, d⟩, [c], false)
        else if c = 44 then (⟨sc, ni, d⟩, c :: newline [] [9] d, false)
        else if c = 58 then (⟨sc, ni, d⟩, [c, 32], false)
        else if c = 125 ∨ c = 93 then
          if ni = true then (⟨sc, false, d⟩, [c], false)
          else (⟨sc, ni, d - 1⟩, newline [] [9] (d - 1) ++ [c], false)
        else (⟨sc, ni, d⟩, [c], false) := by
  unfold indentByte
  simp only [hr]
  by_cases h1 : v = ScanCode.scanSkipSpace
  · simp [h1]
  by_cases h2 : v = ScanCode.scanError
  · simp [h2]
  by_cases h3 : (ni && v != ScanCode.scanEndObject && v != ScanCode.scanEndArray) = true
  · simp only [h1, h2, h3, if_true, if_false]
    simp
  · simp only [h1, h2, h3, if_false]
    simp

/-- The loop of `Indent` on spaces followed by one byte, from a stable
scanner. -/
theorem indentLoop_spaces_byte (lim : Option Nat) (S S1 : IndentState) (ws e : Bytes)
    (c : Nat) (hs : S.scan.stable = true) (hws : ∀ x ∈ ws, isSpace x = true)
    (h : indentByte lim [] [9] S c = (S1, e, false)) :
    indentLoop lim [] [9] S (ws ++ [c]) = (S1, e) := by
  rw [indentLoop_spaces lim S ws [c] hs hws, indentLoop_step lim S S1 c [] e h]
  simp [indentLoop]

/-- The loop of `Indent` on one byte followed by spaces that a stable scanner
meets. -/
theorem indentLoop_byte_spaces (lim : Option Nat) (S S1 : IndentState) (ws e : Bytes)
    (c : Nat) (hs : S1.scan.stable = true) (hws : ∀ x ∈ ws, isSpace x = true)
    (h : indentByte lim [] [9] S c = (S1, e, false)) :
    indentLoop lim [] [9] S (c :: ws) = (S1, e) := by
  rw [indentLoop_step lim S S1 c ws e h]
  have := indentLoop_spaces lim S1 ws [] hs hws
  rw [List.append_nil] at this
  rw [this]
  simp [indentLoop]

/-- The steps of the scanner right after an opening bracket are stable. -/
theorem stable_of_isOrEmpty (s : Scanner) (h : s.step.isOrEmpty = true) : s.stable = true := by
  obtain ⟨step, ps, err, endTop⟩ := s
  cases step <;> simp [Step.isOrEmpty] at h <;> simp [Scanner.stable, Step.isBegin]

/-- Inside an object or array, `stateEndValue` skips a space. -/
theorem stateEndValue_space (s : Scanner) (x : Nat) (hps : s.parseState ≠ [])
    (hx : isSpace x = true) :
    stateEndValue s x = ({ s with step := Step.stateEndValue }, ScanCode.scanSkipSpace) := by
  obtain ⟨step, ps, err, endTop⟩ := s
  rcases ps with _ | ⟨p, ps⟩
  · exact absurd rfl hps
  · simp [stateEndValue, hx]

/-- One iteration of `Indent` that writes bytes: the bytes it writes, read
again from the same state, lead to the same state and are written again; the
invariant is kept; the first byte written is one the scanner accepts. -/
theorem indentByte_self (lim : Option Nat) (S S1 : IndentState) (c : Nat) (e : Bytes)
    (hinv : IndentInv S) (hb : indentByte lim [] [9] S c = (S1, e, false))
    (hns : (S.scan.doStep lim c).2 ≠ ScanCode.scanSkipSpace)
    (herr : S1.scan.err = false) :
    IndentInv S1 ∧ indentLoop lim [] [9] S e = (S1, e) ∧
      ∃ x e', e = x :: e' ∧ (S.scan.doStep lim x).2 ≠ ScanCode.scanError := by
  obtain ⟨sc0, ni, d⟩ := S
  obtain ⟨hinv1, hinv2, hinv3⟩ := hinv
  simp only [] at hinv1 hinv2 hinv3 hns
  have hok := stepOK_doStep lim sc0 c
  have hV1 := doStep_orEmpty_not_continue lim sc0 c
  have hFsep := doStep_sep_stable lim sc0 c
  have hFclose := doStep_close_from lim sc0 c
  have hFco := doStep_close_orEmpty lim sc0 c
  have hFso := doStep_sep_orEmpty lim sc0 c
  have hFopen := doStep_open_orEmpty lim sc0 c
  have hb0 := hb
  rcases hr : sc0.doStep lim c with ⟨sc, v⟩
  rw [hr] at hok hV1 hFsep hFclose hFco hFso hFopen hns
  simp only [] at hok hV1 hFsep hFclose hFco hFso hFopen hns
  obtain ⟨-, hok2, hok3, hok4, hok5, -⟩ := hok
  rw [indentByte_of lim sc0 ni d c sc v hr, if_neg hns] at hb
  have hne : v ≠ ScanCode.scanError := by
    intro h
    rw [if_pos h] at hb
    simp at hb
  rw [if_neg hne] at hb
  have hsc : S1.scan = sc := by
    split_ifs at hb <;> · simp only [Prod.mk.injEq] at hb; rw [← hb.1]
  rw [hsc] at herr
  have hstep : sc.step ≠ Step.stateError := by
    intro h
    have := hok3 h hinv2
    rw [herr] at this
    exact absurd this (by simp)
  have hcne : (sc0.doStep lim c).2 ≠ ScanCode.scanError := by
    rw [hr]
    exact hne
  have hone : ∀ S1' : IndentState, indentByte lim [] [9] ⟨sc0, ni, d⟩ c = (S1', [c], false) →
      indentLoop lim [] [9] ⟨sc0, ni, d⟩ [c] = (S1', [c]) ∧
      ∃ x e', [c] = x :: e' ∧ (sc0.doStep lim x).2 ≠ ScanCode.scanError := by
    intro S1' h
    refine ⟨?_, c, [], rfl, hcne⟩
    rw [indentLoop_step lim _ S1' c [] [c] h]
    simp [indentLoop]
  have h10 : isSpace 10 = true := by decide
  cases ni
  · -- `needIndent` is not set
    simp only [Bool.false_and, Bool.false_eq_true, if_false] at hb
    by_cases hv : v = ScanCode.scanContinue
    · rw [if_pos hv] at hb
      obtain ⟨rfl, rfl⟩ : S1 = ⟨sc, false, d⟩ ∧ e = [c] := by
        simpa [eq_comm] using hb
      exact ⟨⟨herr, hstep, by simp⟩, hone _ hb0⟩
    rw [if_neg hv] at hb
    by_cases hopen : c = 123 ∨ c = 91
    · rw [if_pos hopen] at hb
      obtain ⟨rfl, rfl⟩ : S1 = ⟨sc, true, d⟩ ∧ e = [c] := by
        simpa [eq_comm] using hb
      exact ⟨⟨herr, hstep, fun _ => hFopen hopen hv hne herr⟩, hone _ hb0⟩
    rw [if_neg hopen] at hb
    by_cases hcomma : c = 44
    · rw [if_pos hcomma] at hb
      obtain ⟨rfl, rfl⟩ : S1 = ⟨sc, false, d⟩ ∧ e = c :: newline [] [9] d := by
        simpa [eq_comm] using hb
      refine ⟨⟨herr, hstep, by simp⟩, ?_, c, _, rfl, hcne⟩
      exact indentLoop_byte_spaces lim _ _ _ _ c (hFsep (Or.inl hcomma) hv hne herr)
        (newline_spaces d) hb0
    rw [if_neg hcomma] at hb
    by_cases hcolon : c = 58
    · rw [if_pos hcolon] at hb
      obtain ⟨rfl, rfl⟩ : S1 = ⟨sc, false, d⟩ ∧ e = [c, 32] := by
        simpa [eq_comm] using hb
      refine ⟨⟨herr, hstep, by simp⟩, ?_, c, _, rfl, hcne⟩
      refine indentLoop_byte_spaces lim _ _ [32] _ c (hFsep (Or.inr hcolon) hv hne herr) ?_ hb0
      intro x hx
      simp only [List.mem_singleton] at hx
      subst hx
      decide
    rw [if_neg hcolon] at hb
    by_cases hclose : c = 125 ∨ c = 93
    · rw [if_pos hclose] at hb
      obtain ⟨rfl, rfl⟩ : S1 = ⟨sc, false, d - 1⟩ ∧ e = newline [] [9] (d - 1) ++ [c] := by
        simpa [eq_comm] using hb
      refine ⟨⟨herr, hstep, by simp⟩, ?_⟩
      rcases hFclose hclose hv hne herr with hst | ⟨hnum, hps⟩
      · refine ⟨indentLoop_spaces_byte lim _ _ _ _ c hst (newline_spaces _) hb0, 10,
          List.replicate (d - 1).toNat 9 ++ [c], by rw [newline_tab]; rfl, ?_⟩
        rw [doStep_stable_space lim sc0 10 hst h10]
        simp
      · have hd10 : sc0.doStep lim 10 =
            ({ sc0 with step := Step.stateEndValue }, ScanCode.scanSkipSpace) := by
          rw [doStep_num lim sc0 10 hnum (Or.inl h10)]
          exact stateEndValue_space sc0 10 hps h10
        have hlag : IndentLag ⟨{ sc0 with step := Step.stateEndValue }, false, d⟩
            ⟨sc0, false, d⟩ := ⟨rfl, hps, hnum, rfl⟩
        have hacc : isSpace c = true ∨ c = 58 ∨ c = 44 ∨ c = 125 ∨ c = 93 := by
          rcases hclose with h | h
          · exact Or.inr (Or.inr (Or.inr (Or.inl h)))
          · exact Or.inr (Or.inr (Or.inr (Or.inr h)))
        have hsame : ({ sc0 with step := Step.stateEndValue } : Scanner).doStep lim c =
            sc0.doStep lim c := by
          rw [doStep_num lim sc0 c hnum hacc]
          show stateEndValue { sc0 with step := Step.stateEndValue } c = _
          exact stateEndValue_step sc0 _ c
        have hb1 : indentByte lim [] [9] ⟨{ sc0 with step := Step.stateEndValue }, false, d⟩ c =
            (⟨sc, false, d - 1⟩, newline [] [9] (d - 1) ++ [c], false) := by
          rw [← indentByte_lag lim _ _ c hlag (by rw [hsame]; exact hcne)]
          exact hb0
        have hst : ({ sc0 with step := Step.stateEndValue } : Scanner).stable = true := by
          obtain ⟨step, ps, err, endTop⟩ := sc0
          rcases ps with _ | ⟨p, ps⟩
          · exact absurd rfl hps
          · simp [Scanner.stable]
        have hfirst : indentByte lim [] [9] ⟨sc0, false, d⟩ 10 =
            (⟨{ sc0 with step := Step.stateEndValue }, false, d⟩, [], false) := by
          rw [indentByte_of lim sc0 false d 10 _ _ hd10]
          simp
        refine ⟨?_, 10, List.replicate (d - 1).toNat 9 ++ [c], by rw [newline_tab]; rfl, ?_⟩
        · rw [newline_tab, List.cons_append, indentLoop_step lim _ _ 10 _ [] hfirst]
          have htabs : ∀ x ∈ List.replicate (d - 1).toNat 9, isSpace x = true := by
            intro x hx
            rw [List.eq_of_mem_replicate hx]
            decide
          rw [newline_tab] at hb1
          rw [indentLoop_spaces_byte lim _ _ _ _ c hst htabs hb1]
          simp
        · rw [hd10]
          simp
    rw [if_neg hclose] at hb
    obtain ⟨rfl, rfl⟩ : S1 = ⟨sc, false, d⟩ ∧ e = [c] := by
      simpa [eq_comm] using hb
    exact ⟨⟨herr, hstep, by simp⟩, hone _ hb0⟩
  · -- `needIndent` is set: the scanner stands right after an opening bracket
    have ho := hinv3 rfl
    have hst := stable_of_isOrEmpty sc0 ho
    have hv : v ≠ ScanCode.scanContinue := hV1 ho
    have hfirst10 : (sc0.doStep lim 10).2 ≠ ScanCode.scanError := by
      rw [doStep_stable_space lim sc0 10 hst h10]
      simp
    by_cases hend : v = ScanCode.scanEndObject ∨ v = ScanCode.scanEndArray
    · have hind : (true && v != ScanCode.scanEndObject && v != ScanCode.scanEndArray) = false := by
        rcases hend with h | h <;> simp [h]
      have hc : c = 125 ∨ c = 93 := by
        rcases hend with h | h
        · exact Or.inl (hok4 h)
        · exact Or.inr (hok5 h)
      have hnopen : ¬ (c = 123 ∨ c = 91) := by
        rcases hc with h | h <;> simp [h]
      have hn44 : c ≠ 44 := by
        rcases hc with h | h <;> simp [h]
      have hn58 : c ≠ 58 := by
        rcases hc with h | h <;> simp [h]
      rw [hind] at hb
      simp only [Bool.false_eq_true, if_false, hv, hnopen, hn44, hn58, hc, if_true] at hb
      obtain ⟨rfl, rfl⟩ : S1 = ⟨sc, false, d⟩ ∧ e = [c] := by
        simpa [eq_comm] using hb
      exact ⟨⟨herr, hstep, by simp⟩, hone _ hb0⟩
    · have hind : (true && v != ScanCode.scanEndObject && v != ScanCode.scanEndArray) = true := by
        simp only [not_or] at hend
        simp [hend.1, hend.2]
      have hn44 : c ≠ 44 := fun h => hne (hFso (Or.inl h) ho)
      have hn58 : c ≠ 58 := fun h => hne (hFso (Or.inr h) ho)
      have hnclose : ¬ (c = 125 ∨ c = 93) := fun h => hend (hFco h ho hne herr)
      rw [hind] at hb
      simp only [if_true, hv, if_false, hn44, hn58, hnclose] at hb
      have hx : ∃ x e', newline [] [9] (d + 1) ++ [c] = x :: e' ∧
          (sc0.doStep lim x).2 ≠ ScanCode.scanError :=
        ⟨10, List.replicate (d + 1).toNat 9 ++ [c], by rw [newline_tab]; rfl, hfirst10⟩
      by_cases hopen : c = 123 ∨ c = 91
      · rw [if_pos hopen] at hb
        obtain ⟨rfl, rfl⟩ : S1 = ⟨sc, true, d + 1⟩ ∧ e = newline [] [9] (d + 1) ++ [c] := by
          simpa [eq_comm] using hb
        exact ⟨⟨herr, hstep, fun _ => hFopen hopen hv hne herr⟩,
          indentLoop_spaces_byte lim _ _ _ _ c hst (newline_spaces _) hb0, hx⟩
      · rw [if_neg hopen] at hb
        obtain ⟨rfl, rfl⟩ : S1 = ⟨sc, false, d + 1⟩ ∧ e = newline [] [9] (d + 1) ++ [c] := by
          simpa [eq_comm] using hb
        exact ⟨⟨herr, hstep, by simp⟩,
          indentLoop_spaces_byte lim _ _ _ _ c hst (newline_spaces _) hb0, hx⟩

/-- A space is skipped only by a stable scanner or after a number inside an
object or array. -/
theorem doStep_skip_from (lim : Option Nat) (s : Scanner) (c : Nat)
    (h : (s.doStep lim c).2 = ScanCode.scanSkipSpace) :
    s.stable = true ∨ (s.step.isNum = true ∧ s.parseState ≠ []) := by
  have hc := (stepOK_doStep lim s c).2.2.2.2.2 h
  rw [isSpace_iff] at hc
  obtain ⟨step, ps, err, endTop⟩ := s
  rcases ps with _ | ⟨p, ps⟩
  · rcases hc with rfl | rfl | rfl | rfl <;> cases step <;>
      simp [Scanner.doStep, stateBeginValueOrEmpty, stateBeginValue, stateBeginStringOrEmpty,
    stateBeginString, stateEndValue, stateEndTop, stateInString, stateInStringEsc, stateHex,
    stateLit, stateNeg, state0, state1, stateDot, stateDot0, stateE, stateESign, stateE0,
    pushParseState, popParseState, Scanner.error, isSpace, isDigit, isDigit19, isHex, Scanner.stable, Step.isBegin, Step.isNum]
        at h ⊢
  · rcases hc with rfl | rfl | rfl | rfl <;> cases p <;> cases step <;>
      simp [Scanner.doStep, stateBeginValueOrEmpty, stateBeginValue, stateBeginStringOrEmpty,
    stateBeginString, stateEndValue, stateEndTop, stateInString, stateInStringEsc, stateHex,
    stateLit, stateNeg, state0, state1, stateDot, stateDot0, stateE, stateESign, stateE0,
    pushParseState, popParseState, Scanner.error, isSpace, isDigit, isDigit19, isHex, Scanner.stable, Step.isBegin, Step.isNum]
        at h ⊢

/-- The scanner state after one iteration of `Indent` is the one the step
returned. -/
theorem indentByte_scan (lim : Option Nat) (S : IndentState) (c : Nat) :
    (indentByte lim [] [9] S c).1.scan = (S.scan.doStep lim c).1 := by
  obtain ⟨sc0, ni, d⟩ := S
  rcases hr : sc0.doStep lim c with ⟨sc, v⟩
  rw [indentByte_of lim sc0 ni d c sc v hr]
  split_ifs <;> rfl

/-- The loop of `Indent` is left exactly on `scanError`. -/
theorem indentByte_break (lim : Option Nat) (S : IndentState) (c : Nat) :
    (indentByte lim [] [9] S c).2.2 = true ↔ (S.scan.doStep lim c).2 = ScanCode.scanError := by
  obtain ⟨sc0, ni, d⟩ := S
  rcases hr : sc0.doStep lim c with ⟨sc, v⟩
  rw [indentByte_of lim sc0 ni d c sc v hr]
  by_cases h1 : v = ScanCode.scanSkipSpace
  · simp [h1]
  by_cases h2 : v = ScanCode.scanError
  · simp [h2]
  rw [if_neg h1, if_neg h2]
  simp only [h2, iff_false]
  split_ifs <;> simp

/-- From `stateError` the loop of `Indent` is left at once. -/
theorem indentLoop_stateError (lim : Option Nat) (S : IndentState) (b : Bytes)
    (h : S.scan.step = Step.stateError) : indentLoop lim [] [9] S b = (S, []) := by
  rcases b with _ | ⟨c, cs⟩
  · rfl
  · obtain ⟨sc0, ni, d⟩ := S
    have hr : sc0.doStep lim c = (sc0, ScanCode.scanError) := by
      simp only [] at h
      unfold Scanner.doStep
      rw [h]
    rw [indentLoop_cons, indentByte_of lim sc0 ni d c _ _ hr]
    simp

/-- The loop of `Indent` over two pieces of input. -/
theorem indentLoop_append (lim : Option Nat) (a b : Bytes) : ∀ S : IndentState,
    indentLoop lim [] [9] S (a ++ b) =
      ((indentLoop lim [] [9] (indentLoop lim [] [9] S a).1 b).1,
        (indentLoop lim [] [9] S a).2 ++
          (indentLoop lim [] [9] (indentLoop lim [] [9] S a).1 b).2) := by
  induction a with
  | nil =>
    intro S
    simp [indentLoop]
  | cons c cs ih =>
    intro S
    rw [List.cons_append, indentLoop_cons, indentLoop_cons]
    by_cases hbrk : (indentByte lim [] [9] S c).2.2 = true
    · rw [if_pos hbrk, if_pos hbrk]
      have herr := (indentByte_break lim S c).1 hbrk
      have hstep := (stepOK_doStep lim S.scan c).2.1 herr
      rw [← indentByte_scan] at hstep
      rw [indentLoop_stateError lim _ b hstep]
      simp
    · rw [if_neg hbrk, if_neg hbrk, ih]
      simp

/-- A recorded error stays recorded through the loop of `Indent`. -/
theorem indentLoop_err (lim : Option Nat) (cs : Bytes) : ∀ S : IndentState,
    S.scan.err = true → (indentLoop lim [] [9] S cs).1.scan.err = true := by
  induction cs with
  | nil =>
    intro S h
    exact h
  | cons c cs ih =>
    intro S h
    have h1 : (indentByte lim [] [9] S c).1.scan.err = true := by
      rw [indentByte_scan]
      exact (stepOK_doStep lim S.scan c).1 h
    rw [indentLoop_cons]
    split_ifs
    · exact h1
    · exact ih _ h1

/-- A byte the first run skips writes nothing and keeps the two runs
related. -/
theorem indentByte_skip_rel (lim : Option Nat) (S T : IndentState) (c : Nat)
    (hrel : IndentRel S T)
    (hs : (S.scan.doStep lim c).2 = ScanCode.scanSkipSpace) :
    (indentByte lim [] [9] S c).2.1 = [] ∧ IndentRel (indentByte lim [] [9] S c).1 T := by
  obtain ⟨⟨hinv1, hinv2, hinv3⟩, hT⟩ := hrel
  have hc := (stepOK_doStep lim S.scan c).2.2.2.2.2 hs
  have hfrom := doStep_skip_from lim S.scan c hs
  obtain ⟨sc0, ni, d⟩ := S
  simp only [] at hinv1 hinv2 hinv3 hs hc hfrom
  rcases hfrom with hst | ⟨hnum, hps⟩
  · have hr := doStep_stable_space lim sc0 c hst hc
    rw [indentByte_of lim sc0 ni d c _ _ hr]
    rw [if_pos rfl]
    exact ⟨rfl, ⟨hinv1, hinv2, hinv3⟩, hT⟩
  · have hr : sc0.doStep lim c =
        ({ sc0 with step := Step.stateEndValue }, ScanCode.scanSkipSpace) := by
      rw [doStep_num lim sc0 c hnum (Or.inl hc)]
      exact stateEndValue_space sc0 c hps hc
    have hni : ni = false := by
      cases ni
      · rfl
      · have := hinv3 rfl
        obtain ⟨step, ps, err, endTop⟩ := sc0
        cases step <;> simp [Step.isNum] at hnum <;> simp [Step.isOrEmpty] at this
    subst hni
    rw [indentByte_of lim sc0 false d c _ _ hr]
    rw [if_pos rfl]
    refine ⟨rfl, ⟨hinv1, by simp, by simp⟩, ?_⟩
    rcases hT with rfl | hlag
    · exact Or.inr ⟨rfl, hps, hnum, rfl⟩
    · obtain ⟨h1, _, _, _⟩ := hlag
      simp only [] at h1
      obtain ⟨step, ps, err, endTop⟩ := sc0
      simp only [] at h1
      subst h1
      simp [Step.isNum] at hnum

/-- The function `Indent` read again: when the first run, from `S` over `cs`, ends with
no error recorded, the second run, from a related state over the output of
the first, writes the same output again and ends in a related state. -/
theorem indentLoop_again (lim : Option Nat) (cs : Bytes) : ∀ S T : IndentState,
    IndentRel S T → (indentLoop lim [] [9] S cs).1.scan.err = false →
    ∃ T', indentLoop lim [] [9] T (indentLoop lim [] [9] S cs).2 =
        (T', (indentLoop lim [] [9] S cs).2) ∧
      IndentRel (indentLoop lim [] [9] S cs).1 T' := by
  induction cs with
  | nil =>
    intro S T hrel _
    exact ⟨T, rfl, hrel⟩
  | cons c cs ih =>
    intro S T hrel herr
    rcases hb : indentByte lim [] [9] S c with ⟨S1, e, brk⟩
    have hscan : S1.scan = (S.scan.doStep lim c).1 := by
      rw [← indentByte_scan, hb]
    have hok := stepOK_doStep lim S.scan c
    cases brk
    · -- the loop goes on
      rw [indentLoop_step lim S S1 c cs e hb] at herr ⊢
      simp only [] at herr ⊢
      have herr1 : S1.scan.err = false := by
        cases h : S1.scan.err
        · rfl
        · rw [indentLoop_err lim cs S1 h] at herr
          exact absurd herr (by simp)
      by_cases hs : (S.scan.doStep lim c).2 = ScanCode.scanSkipSpace
      · have hskip := indentByte_skip_rel lim S T c hrel hs
        rw [hb] at hskip
        simp only [] at hskip
        obtain ⟨he, hrel1⟩ := hskip
        subst he
        obtain ⟨T', hT', hrel'⟩ := ih S1 T hrel1 herr
        exact ⟨T', by simpa using hT', hrel'⟩
      · obtain ⟨hinv1, hself, x, e', hxe, hx⟩ := indentByte_self lim S S1 c e hrel.1 hb hs herr1
        have hTe : indentLoop lim [] [9] T e = (S1, e) := by
          rcases hrel.2 with rfl | hlag
          · exact hself
          · rw [hxe, indentLoop_cons, indentByte_lag lim S T x hlag hx, ← indentLoop_cons, ← hxe]
            exact hself
        obtain ⟨T', hT', hrel'⟩ := ih S1 S1 ⟨hinv1, Or.inl rfl⟩ herr
        refine ⟨T', ?_, hrel'⟩
        rw [indentLoop_append, hTe]
        simp only []
        rw [hT']
    · -- the loop is left on an error, which is recorded
      exfalso
      have hbrk : (indentByte lim [] [9] S c).2.2 = true := by
        rw [hb]
      have hv := (indentByte_break lim S c).1 hbrk
      have h1 := hok.2.1 hv
      have h2 := hok.2.2.1 h1 hrel.1.2.1
      rw [indentLoop_cons, if_pos hbrk, hb] at herr
      simp only [] at herr
      rw [hscan, h2] at herr
      exact absurd herr (by simp)

/-- When the first run passes the end-of-input check, so does a related second
run. -/
theorem eof_rel (lim : Option Nat) (S T : IndentState) (hrel : IndentRel S T)
    (h : (S.scan.eof lim).2 ≠ ScanCode.scanError) :
    (T.scan.eof lim).2 ≠ ScanCode.scanError := by
  rcases hrel.2 with rfl | ⟨h1, h2, h3, h4⟩
  · exact h
  · obtain ⟨sc0, ni, d⟩ := S
    simp only [] at h h1 h2
    rw [h4]
    simp only []
    unfold Scanner.eof at h ⊢
    simp only []
    by_cases he : sc0.err = true
    · rw [if_pos he] at h
      exact absurd rfl h
    · rw [if_neg he] at h ⊢
      by_cases ht : sc0.endTop = true
      · rw [if_pos ht]
        simp
      · rw [if_neg ht] at h
        exfalso
        have hsp : isSpace 32 = true := by decide
        have hd : sc0.doStep lim 32 =
            ({ sc0 with step := Step.stateEndValue }, ScanCode.scanSkipSpace) := by
          unfold Scanner.doStep
          rw [h1]
          exact stateEndValue_space sc0 32 h2 hsp
        rw [hd] at h
        simp only [] at h
        rw [if_neg ht] at h
        exact h rfl

/-- The function `Indent` with no line lead and a tab as indent is idempotent. -/
theorem jsonIndent_again (lim : Option Nat) (b p : Bytes)
    (h : jsonIndent lim [] b [] [9] = (p, none)) :
    jsonIndent lim [] p [] [9] = (p, none) := by
  unfold jsonIndent at h
  simp only [] at h
  by_cases he : ((indentLoop lim [] [9] ⟨Scanner.reset, false, 0⟩ b).1.scan.eof lim).2 =
      ScanCode.scanError
  · rw [if_pos he] at h
    simp at h
  · rw [if_neg he] at h
    have hp : (indentLoop lim [] [9] ⟨Scanner.reset, false, 0⟩ b).2 = p := by
      simpa using h
    have herr : (indentLoop lim [] [9] ⟨Scanner.reset, false, 0⟩ b).1.scan.err = false := by
      cases hc : (indentLoop lim [] [9] ⟨Scanner.reset, false, 0⟩ b).1.scan.err
      · rfl
      · exfalso
        apply he
        unfold Scanner.eof
        rw [if_pos hc]
    have hinit : IndentRel ⟨Scanner.reset, false, 0⟩ ⟨Scanner.reset, false, 0⟩ :=
      ⟨⟨rfl, by simp [Scanner.reset], by simp⟩, Or.inl rfl⟩
    obtain ⟨T', hT', hrel⟩ := indentLoop_again lim b _ _ hinit herr
    rw [hp] at hT'
    have heof := eof_rel lim _ T' hrel he
    unfold jsonIndent
    simp only []
    rw [hT']
    simp only []
    rw [if_neg heof]
    simp

/-- C7. Pretty-printing is idempotent: when `json.Indent` with the empty line
lead and the indent string of `invokeEHAPI` succeeds on a body `b` with output
`p`, it succeeds on `p` and its output is `p` again, byte for byte. This holds
for every nesting limit of the scanner, and for none. -/
theorem jsonIndent_idempotent (lim : Option Nat) (b p : Bytes)
    (h : jsonIndent lim [] b [] (toBytes "\t") = (p, none)) :
    jsonIndent lim [] p [] (toBytes "\t") = (p, none) := by
  have ht : toBytes "\t" = [9] := by decide
  rw [ht] at h ⊢
  exact jsonIndent_again lim b p h

/-- C7 at a sample input: the body `[1, 2 ]`. -/
theorem jsonIndent_idempotent_witness :
    jsonIndent (some 10000) [] (toBytes "[1, 2 ]") [] (toBytes "\t") =
      (toBytes "[\n\t1,\n\t2\n]", none) ∧
    jsonIndent (some 10000) [] (toBytes "[\n\t1,\n\t2\n]") [] (toBytes "\t") =
      (toBytes "[\n\t1,\n\t2\n]", none) :=
  ⟨by decide, jsonIndent_idempotent (some 10000) (toBytes "[1, 2 ]") (toBytes "[\n\t1,\n\t2\n]")
    (by decide)⟩

end ExtrahopBackup
